import Mathlib

/-!
# The ArchC RISC-V functional model (`riscv_isa.cpp`): shallow embedding

Every `ac_behavior(X)` of the source becomes a Lean function `X` on an explicit
architectural state.  Unsigned 32-bit values are natural numbers below `2 ^ 32`
(the type `ac_word`), C++ `int` values are integers, and every conversion between
the two is written out (`to_ac_word`, `ac_Sword`, `to_int`).  Arithmetic that
leaves the range of its type wraps around in two's complement, with the
reduction written out.  A behaviour whose C++ text can reach an operation with
no result at all (a quotient that is not representable, a shift by a count of
the operand width or more) returns an `Option`.
-/

namespace RiscvIsa

/-! ## Machine words -/

/-- Modelled from the spec: the word type `ac_word` (and its synonym `ac_Uword`)
declared by the generated header `riscv_parms.H`, which is not among the
sources.  The registers are "32-bit integer registers"; the source treats their
contents as unsigned (SRAI tests `(RB[rs1] >> 31) == 1` and fills the sign bits
by hand, SLT and BLT cast to `ac_Sword` before a signed comparison). -/
abbrev ac_word : Type := Fin (2 ^ 32)

/-- Conversion of an integer value to the unsigned 32-bit type (reduction
modulo `2 ^ 32`), as C++ does when an `int` or a wider value is stored into an
`ac_word`. -/
def to_ac_word (z : Int) : ac_word :=
  ⟨(z % 2 ^ 32).toNat, by
    have h1 : 0 ≤ z % 2 ^ 32 := Int.emod_nonneg z (by norm_num)
    have h2 : z % 2 ^ 32 < 2 ^ 32 := Int.emod_lt_of_pos z (by norm_num)
    omega⟩

/-- The cast `(ac_Uword)x`: the unsigned value of a word. -/
def ac_Uword (w : ac_word) : Nat := w.val

/-- Modelled from the spec: the cast `(ac_Sword)x` to the signed word type of
`riscv_parms.H` (not among the sources): "signed" is the two's-complement
interpretation of the 32 bits. -/
def ac_Sword (w : ac_word) : Int :=
  if w.val < 2 ^ 31 then (w.val : Int) else (w.val : Int) - 2 ^ 32

/-- Conversion of a value to the C++ type `int` (two's complement, 32 bits). -/
def to_int (z : Int) : Int := ac_Sword (to_ac_word z)

/-- Modelled from the spec: `sign_extend(value, bits)` of `riscv_bhv_macros.H`,
which is not among the sources: the immediate is "sign-extended to 32 bits from
its natural width", that is, the low `bits` bits of `value` read as a
two's-complement number. -/
def sign_extend (value : Int) (bits : Nat) : Int :=
  if value % 2 ^ bits < 2 ^ (bits - 1) then value % 2 ^ bits
  else value % 2 ^ bits - 2 ^ bits

/-- The C++ quotient `a / b` of two `int` values: truncation toward zero;
undefined when the divisor is zero or the quotient is not representable
(`INT_MIN / -1`). -/
def int_div (a b : Int) : Option Int :=
  if b = 0 then none
  else if Int.tdiv a b < -2 ^ 31 ∨ 2 ^ 31 ≤ Int.tdiv a b then none
  else some (Int.tdiv a b)

/-! ## Architectural state -/

/-- The state the behaviours act on: the program counter `ac_pc`, the register
banks `RB` (32 words), `RBF` (64 words, two per floating-point register), `RBV`
(128 words, four per vector register), the data memory `DM` (bytes) and the
control and status registers. -/
structure State where
  ac_pc : ac_word
  RB : Fin 32 → ac_word
  RBF : Fin 64 → ac_word
  RBV : Fin 128 → ac_word
  DM : ac_word → Fin 256
  fcsr : ac_word
  frm : ac_word
  fflags : ac_word
  vstart : ac_word
  vl : ac_word
  vtype : ac_word
  vlenb : ac_word

/-- The assignment `RB[r] = v`. -/
def State.setRB (s : State) (r : Fin 32) (v : ac_word) : State :=
  { s with RB := Function.update s.RB r v }

/-- The assignment `ac_pc = v`. -/
def State.setPC (s : State) (v : ac_word) : State :=
  { s with ac_pc := v }

/-- Behaviour `ac_behavior(begin)`: every register bank and CSR is cleared, `vlenb` is 16.
The program counter and the memory contents come from the loader. -/
def begin (s : State) : State :=
  { s with
    RB := fun _ => to_ac_word 0
    RBF := fun _ => to_ac_word 0
    RBV := fun _ => to_ac_word 0
    fcsr := to_ac_word 0
    frm := to_ac_word 0
    fflags := to_ac_word 0
    vstart := to_ac_word 0
    vl := to_ac_word 0
    vtype := to_ac_word 0
    vlenb := to_ac_word 16 }

/-- Behaviour `ac_behavior(instruction)`: the generic behaviour run before the body of
every instruction: `ac_pc = ac_pc + 4; RB[0] = 0x0;`. -/
def instruction (s : State) : State :=
  (s.setPC (to_ac_word (s.ac_pc.val + 4))).setRB 0 (to_ac_word 0)

/-! ## Integer register-register instructions -/

/-- Behaviour `ac_behavior(ADD)`: `RB[rd] = RB[rs1] + RB[rs2];`. -/
def ADD (rd rs1 rs2 : Fin 32) (s : State) : State :=
  s.setRB rd (to_ac_word ((s.RB rs1).val + (s.RB rs2).val))

/-- Behaviour `ac_behavior(SUB)`: `RB[rd] = RB[rs1] - RB[rs2];`. -/
def SUB (rd rs1 rs2 : Fin 32) (s : State) : State :=
  s.setRB rd (to_ac_word ((s.RB rs1).val - (s.RB rs2).val))

/-- Behaviour `ac_behavior(SLT)`: signed comparison through `(ac_Sword)`. -/
def SLT (rd rs1 rs2 : Fin 32) (s : State) : State :=
  if ac_Sword (s.RB rs1) < ac_Sword (s.RB rs2) then s.setRB rd (to_ac_word 1)
  else s.setRB rd (to_ac_word 0)

/-- Behaviour `ac_behavior(SLTU)`: unsigned comparison through `(ac_Uword)`. -/
def SLTU (rd rs1 rs2 : Fin 32) (s : State) : State :=
  if ac_Uword (s.RB rs1) < ac_Uword (s.RB rs2) then s.setRB rd (to_ac_word 1)
  else s.setRB rd (to_ac_word 0)

/-- Behaviour `ac_behavior(XOR)`: `RB[rd] = RB[rs1] ^ RB[rs2];`. -/
def XOR (rd rs1 rs2 : Fin 32) (s : State) : State :=
  s.setRB rd (to_ac_word ((s.RB rs1).val ^^^ (s.RB rs2).val : Nat))

/-- Behaviour `ac_behavior(OR)`: `RB[rd] = RB[rs1] | RB[rs2];`. -/
def OR (rd rs1 rs2 : Fin 32) (s : State) : State :=
  s.setRB rd (to_ac_word ((s.RB rs1).val ||| (s.RB rs2).val : Nat))

/-- Behaviour `ac_behavior(AND)`: `RB[rd] = RB[rs1] & RB[rs2];`. -/
def AND (rd rs1 rs2 : Fin 32) (s : State) : State :=
  s.setRB rd (to_ac_word ((s.RB rs1).val &&& (s.RB rs2).val : Nat))

/-! ## Multiply/divide extension: the divide and remainder instructions -/

/-- Behaviour `ac_behavior(DIV)`.  The constant of the second test is the C++ expression
`((-2) ^ 31)`, an exclusive or; the last branch divides two `int` values. -/
def DIV (rd rs1 rs2 : Fin 32) (s : State) : Option State :=
  if s.RB rs2 = to_ac_word 0 then
    some (s.setRB rd (to_ac_word (-1)))
  else if s.RB rs1 = to_ac_word (Int.xor (-2) 31) ∧ s.RB rs2 = to_ac_word (-1) then
    some (s.setRB rd (to_ac_word (Int.xor (-2) 31)))
  else
    (int_div (ac_Sword (s.RB rs1)) (ac_Sword (s.RB rs2))).map
      fun q => s.setRB rd (to_ac_word q)

/-- Behaviour `ac_behavior(DIVU)`.  The second branch only prints a debug message and
leaves `RB[rd]` as it was. -/
def DIVU (rd rs1 rs2 : Fin 32) (s : State) : State :=
  if s.RB rs2 = to_ac_word 0 then
    s.setRB rd (to_ac_word (-1))
  else if s.RB rs1 = to_ac_word (Int.xor (-2) 31) ∧ s.RB rs2 = to_ac_word (-1) then
    s
  else
    s.setRB rd (to_ac_word (ac_Uword (s.RB rs1) / ac_Uword (s.RB rs2) : Nat))

/-- Behaviour `ac_behavior(REM)`.  The last branch is `RB[rs1] % RB[rs2]` on the register
values as they are, without a cast: a remainder of two unsigned words. -/
def REM (rd rs1 rs2 : Fin 32) (s : State) : State :=
  if s.RB rs2 = to_ac_word 0 then
    s.setRB rd (s.RB rs1)
  else if s.RB rs1 = to_ac_word (Int.xor (-2) 31) ∧ s.RB rs2 = to_ac_word (-1) then
    s.setRB rd (to_ac_word 0)
  else
    s.setRB rd (to_ac_word ((s.RB rs1).val % (s.RB rs2).val : Nat))

/-- Behaviour `ac_behavior(REMU)`.  The second branch only prints a debug message and
leaves `RB[rd]` as it was. -/
def REMU (rd rs1 rs2 : Fin 32) (s : State) : State :=
  if s.RB rs2 = to_ac_word 0 then
    s.setRB rd (s.RB rs1)
  else if s.RB rs1 = to_ac_word (Int.xor (-2) 31) ∧ s.RB rs2 = to_ac_word (-1) then
    s
  else
    s.setRB rd (to_ac_word (ac_Uword (s.RB rs1) % ac_Uword (s.RB rs2) : Nat))

/-! ## Jumps -/

/-- Behaviour `ac_behavior(JALR)`.  `target_addr` is an `int`; `>> 1` and `<< 1` are the
two's-complement shifts of that type. -/
def JALR (rd rs1 : Fin 32) (imm4 imm3 imm2 imm1 : Nat) (s : State) : State :=
  let imm : Nat := (imm4 <<< 11) ||| (imm3 <<< 5) ||| (imm2 <<< 1) ||| imm1
  let sign_ext : Int := sign_extend imm 12
  let target_addr : Int := to_int ((s.RB rs1).val + sign_ext)
  let target_addr : Int := target_addr >>> (1 : Nat)
  let target_addr : Int := to_int (target_addr <<< 1)
  let s1 : State := if rd ≠ 0 then s.setRB rd s.ac_pc else s
  s1.setPC (to_ac_word target_addr)

/-- The offset the JAL behaviour adds to `ac_pc`:
`(imm4 == 1) ? ((imm << 1) | 0xFFF00000) : (imm << 1)` with
`imm = (imm4 << 19) | (imm3 << 11) | (imm2 << 10) | imm1`. -/
def JAL_offset (imm4 imm3 imm2 imm1 : Nat) : Nat :=
  let imm : Nat := (imm4 <<< 19) ||| (imm3 <<< 11) ||| (imm2 <<< 10) ||| imm1
  if imm4 = 1 then (imm <<< 1) ||| 0xFFF00000 else imm <<< 1

/-- Behaviour `ac_behavior(JAL)`.  `addr` is an `int`; the new program counter is
`(ac_pc & 0xF0000000) | addr`. -/
def JAL (rd : Fin 32) (imm4 imm3 imm2 imm1 : Nat) (s : State) : State :=
  let addr : Int := to_int (s.ac_pc.val + JAL_offset imm4 imm3 imm2 imm1 - 4)
  let s1 : State := if rd ≠ 0 then s.setRB rd s.ac_pc else s
  s1.setPC (to_ac_word ((s.ac_pc.val &&& 0xF0000000) ||| (to_ac_word addr).val : Nat))

/-! ## Conditional branches -/

/-- The offset the six branch behaviours add to `ac_pc`:
`(imm4 == 1) ? ((imm << 1) | 0xFFFFF000) : (imm << 1)` with
`imm = (imm4 << 11) | (imm3 << 10) | (imm2 << 4) | imm1`. -/
def SB_offset (imm4 imm3 imm2 imm1 : Nat) : Nat :=
  let imm : Nat := (imm4 <<< 11) ||| (imm3 <<< 10) ||| (imm2 <<< 4) ||| imm1
  if imm4 = 1 then (imm <<< 1) ||| 0xFFFFF000 else imm <<< 1

/-- The statement `addr = ac_pc + offset - 4;` of the branch behaviours, with
`addr` an `unsigned int`. -/
def SB_addr (imm4 imm3 imm2 imm1 : Nat) (s : State) : ac_word :=
  to_ac_word (s.ac_pc.val + SB_offset imm4 imm3 imm2 imm1 - 4)

/-- Behaviour `ac_behavior(BEQ)`: taken when `RB[rs1] == RB[rs2]`. -/
def BEQ (rs1 rs2 : Fin 32) (imm4 imm3 imm2 imm1 : Nat) (s : State) : State :=
  if s.RB rs1 = s.RB rs2 then s.setPC (SB_addr imm4 imm3 imm2 imm1 s) else s

/-- Behaviour `ac_behavior(BNE)`: taken when `RB[rs1] != RB[rs2]`. -/
def BNE (rs1 rs2 : Fin 32) (imm4 imm3 imm2 imm1 : Nat) (s : State) : State :=
  if s.RB rs1 ≠ s.RB rs2 then s.setPC (SB_addr imm4 imm3 imm2 imm1 s) else s

/-- Behaviour `ac_behavior(BLT)`: signed comparison through `(ac_Sword)`. -/
def BLT (rs1 rs2 : Fin 32) (imm4 imm3 imm2 imm1 : Nat) (s : State) : State :=
  if ac_Sword (s.RB rs1) < ac_Sword (s.RB rs2) then
    s.setPC (SB_addr imm4 imm3 imm2 imm1 s)
  else s

/-- Behaviour `ac_behavior(BGE)`: signed comparison through `(ac_Sword)`. -/
def BGE (rs1 rs2 : Fin 32) (imm4 imm3 imm2 imm1 : Nat) (s : State) : State :=
  if ac_Sword (s.RB rs1) ≥ ac_Sword (s.RB rs2) then
    s.setPC (SB_addr imm4 imm3 imm2 imm1 s)
  else s

/-- Behaviour `ac_behavior(BLTU)`: unsigned comparison through `(ac_Uword)`. -/
def BLTU (rs1 rs2 : Fin 32) (imm4 imm3 imm2 imm1 : Nat) (s : State) : State :=
  if ac_Uword (s.RB rs1) < ac_Uword (s.RB rs2) then
    s.setPC (SB_addr imm4 imm3 imm2 imm1 s)
  else s

/-- Behaviour `ac_behavior(BGEU)`: taken when `rs1 > rs2` or `rs1 == rs2`, unsigned.
Here `addr` is an `int`, converted back on the assignment to `ac_pc`. -/
def BGEU (rs1 rs2 : Fin 32) (imm4 imm3 imm2 imm1 : Nat) (s : State) : State :=
  if ac_Uword (s.RB rs1) > ac_Uword (s.RB rs2) ∨
      ac_Uword (s.RB rs1) = ac_Uword (s.RB rs2) then
    s.setPC (to_ac_word (to_int (s.ac_pc.val + SB_offset imm4 imm3 imm2 imm1 - 4)))
  else s

/-! ## Decoded instructions and the execution of one instruction -/

/-- A decoded instruction of the integer subset that `behavior` dispatches (the
register-register arithmetic, divide and remainder, the jumps and the
branches): the opcode with the operand fields its behaviour reads (register
indices are 5-bit fields, immediates come in slices).  The other behaviours are
embedded as functions of their own and are not constructors of this type. -/
inductive Instr where
  | ADD (rd rs1 rs2 : Fin 32)
  | SUB (rd rs1 rs2 : Fin 32)
  | SLT (rd rs1 rs2 : Fin 32)
  | SLTU (rd rs1 rs2 : Fin 32)
  | XOR (rd rs1 rs2 : Fin 32)
  | OR (rd rs1 rs2 : Fin 32)
  | AND (rd rs1 rs2 : Fin 32)
  | DIV (rd rs1 rs2 : Fin 32)
  | DIVU (rd rs1 rs2 : Fin 32)
  | REM (rd rs1 rs2 : Fin 32)
  | REMU (rd rs1 rs2 : Fin 32)
  | JALR (rd rs1 : Fin 32) (imm4 imm3 imm2 imm1 : Nat)
  | JAL (rd : Fin 32) (imm4 imm3 imm2 imm1 : Nat)
  | BEQ (rs1 rs2 : Fin 32) (imm4 imm3 imm2 imm1 : Nat)
  | BNE (rs1 rs2 : Fin 32) (imm4 imm3 imm2 imm1 : Nat)
  | BLT (rs1 rs2 : Fin 32) (imm4 imm3 imm2 imm1 : Nat)
  | BGE (rs1 rs2 : Fin 32) (imm4 imm3 imm2 imm1 : Nat)
  | BLTU (rs1 rs2 : Fin 32) (imm4 imm3 imm2 imm1 : Nat)
  | BGEU (rs1 rs2 : Fin 32) (imm4 imm3 imm2 imm1 : Nat)

/-- The body of a decoded instruction: the dispatch to its `ac_behavior`. -/
def behavior : Instr → State → Option State
  | .ADD rd rs1 rs2, s => some (ADD rd rs1 rs2 s)
  | .SUB rd rs1 rs2, s => some (SUB rd rs1 rs2 s)
  | .SLT rd rs1 rs2, s => some (SLT rd rs1 rs2 s)
  | .SLTU rd rs1 rs2, s => some (SLTU rd rs1 rs2 s)
  | .XOR rd rs1 rs2, s => some (XOR rd rs1 rs2 s)
  | .OR rd rs1 rs2, s => some (OR rd rs1 rs2 s)
  | .AND rd rs1 rs2, s => some (AND rd rs1 rs2 s)
  | .DIV rd rs1 rs2, s => DIV rd rs1 rs2 s
  | .DIVU rd rs1 rs2, s => some (DIVU rd rs1 rs2 s)
  | .REM rd rs1 rs2, s => some (REM rd rs1 rs2 s)
  | .REMU rd rs1 rs2, s => some (REMU rd rs1 rs2 s)
  | .JALR rd rs1 imm4 imm3 imm2 imm1, s => some (JALR rd rs1 imm4 imm3 imm2 imm1 s)
  | .JAL rd imm4 imm3 imm2 imm1, s => some (JAL rd imm4 imm3 imm2 imm1 s)
  | .BEQ rs1 rs2 imm4 imm3 imm2 imm1, s => some (BEQ rs1 rs2 imm4 imm3 imm2 imm1 s)
  | .BNE rs1 rs2 imm4 imm3 imm2 imm1, s => some (BNE rs1 rs2 imm4 imm3 imm2 imm1 s)
  | .BLT rs1 rs2 imm4 imm3 imm2 imm1, s => some (BLT rs1 rs2 imm4 imm3 imm2 imm1 s)
  | .BGE rs1 rs2 imm4 imm3 imm2 imm1, s => some (BGE rs1 rs2 imm4 imm3 imm2 imm1 s)
  | .BLTU rs1 rs2 imm4 imm3 imm2 imm1, s => some (BLTU rs1 rs2 imm4 imm3 imm2 imm1 s)
  | .BGEU rs1 rs2 imm4 imm3 imm2 imm1, s => some (BGEU rs1 rs2 imm4 imm3 imm2 imm1 s)

/-- One full step: the generic behaviour `instruction`, then the body of the
decoded instruction. -/
def step (i : Instr) (s : State) : Option State :=
  behavior i (instruction s)

/-- A concrete state for evaluating the behaviours: the state after
`ac_behavior(begin)` with the program counter at `pc` and an all-zero memory. -/
def state_at (pc : Nat) : State :=
  begin
    { ac_pc := to_ac_word pc
      RB := fun _ => to_ac_word 0
      RBF := fun _ => to_ac_word 0
      RBV := fun _ => to_ac_word 0
      DM := fun _ => 0
      fcsr := to_ac_word 0
      frm := to_ac_word 0
      fflags := to_ac_word 0
      vstart := to_ac_word 0
      vl := to_ac_word 0
      vtype := to_ac_word 0
      vlenb := to_ac_word 0 }

/-- A concrete state for evaluating the behaviours: `state_at 0x1000` with the
values `x1`, `x2`, `x3` in the registers 1, 2 and 3. -/
def state_regs (x1 x2 x3 : Int) : State :=
  (((state_at 0x1000).setRB 1 (to_ac_word x1)).setRB 2 (to_ac_word x2)).setRB 3
    (to_ac_word x3)

/-! ## Immediates as the instruction formats define them -/

/-- The I-type immediate of a decoded instruction: the 12-bit value with bit 11
`imm4`, bits 10..5 `imm3`, bits 4..1 `imm2` and bit 0 `imm1`, sign-extended. -/
def I_imm (imm4 imm3 imm2 imm1 : Nat) : Int :=
  sign_extend ((imm4 * 2 ^ 11 + imm3 * 2 ^ 5 + imm2 * 2 + imm1 : Nat) : Int) 12

/-- The SB-type (branch) offset of a decoded instruction: twice the 12-bit value
with bit 11 `imm4`, bit 10 `imm3`, bits 9..4 `imm2` and bits 3..0 `imm1`, a
13-bit even value, sign-extended. -/
def SB_imm (imm4 imm3 imm2 imm1 : Nat) : Int :=
  sign_extend ((2 * (imm4 * 2 ^ 11 + imm3 * 2 ^ 10 + imm2 * 2 ^ 4 + imm1) : Nat) : Int) 13

/-- The UJ-type (JAL) offset of a decoded instruction: twice the 20-bit value
with bit 19 `imm4`, bits 18..11 `imm3`, bit 10 `imm2` and bits 9..0 `imm1`, a
21-bit even value, sign-extended. -/
def UJ_imm (imm4 imm3 imm2 imm1 : Nat) : Int :=
  sign_extend ((2 * (imm4 * 2 ^ 19 + imm3 * 2 ^ 11 + imm2 * 2 ^ 10 + imm1) : Nat) : Int) 21

/-- The register banks and control registers other than the integer bank and
the program counter agree in two states, and so does the memory. -/
def State.same_rest (s t : State) : Prop :=
  t.RBF = s.RBF ∧ t.RBV = s.RBV ∧ t.DM = s.DM ∧ t.fcsr = s.fcsr ∧ t.frm = s.frm ∧
    t.fflags = s.fflags ∧ t.vstart = s.vstart ∧ t.vl = s.vl ∧ t.vtype = s.vtype ∧
    t.vlenb = s.vlenb

/-- What a conditional branch at instruction address `a` with offset `o` is to
do from state `s`, `t` being the state after its body: the program counter is
`(a + o) mod 2^32` when the condition `taken` holds and `a + 4` otherwise, and
no register, CSR or memory cell differs from `s`. -/
def branch_post (s : State) (a : ac_word) (taken : Prop) [Decidable taken] (o : Int)
    (t : State) : Prop :=
  t.ac_pc = (if taken then to_ac_word (a.val + o) else to_ac_word (a.val + 4)) ∧
    t.RB = s.RB ∧ s.same_rest t

/-! ## Further integer instructions: AUIPC, shifts, set-less-than-immediate -/

/-- Behaviour `ac_behavior(AUIPC)`: `offset = imm << 12; RB[rd] = ac_pc + offset - 4;`
with `offset` an `unsigned int` and `imm` the 20-bit field of the U-type
format. -/
def AUIPC (rd : Fin 32) (imm : Nat) (s : State) : State :=
  let offset : ac_word := to_ac_word ((imm <<< 12 : Nat) : Int)
  s.setRB rd (to_ac_word (s.ac_pc.val + offset.val - 4))

/-- Behaviour `ac_behavior(SLL)`: `RB[rd] = RB[rs1] << RB[rs2];`, a shift of an
unsigned 32-bit value by the whole register value.  C++ defines the result only
for a count below the width 32. -/
def SLL (rd rs1 rs2 : Fin 32) (s : State) : Option State :=
  if (s.RB rs2).val < 32 then
    some (s.setRB rd (to_ac_word (((s.RB rs1).val <<< (s.RB rs2).val : Nat) : Int)))
  else none

/-- Behaviour `ac_behavior(SRL)`: `RB[rd] = RB[rs1] >> RB[rs2];`, a shift of an
unsigned 32-bit value; defined only for a count below 32. -/
def SRL (rd rs1 rs2 : Fin 32) (s : State) : Option State :=
  if (s.RB rs2).val < 32 then
    some (s.setRB rd (to_ac_word (((s.RB rs1).val >>> (s.RB rs2).val : Nat) : Int)))
  else none

/-- Behaviour `ac_behavior(SRA)`: `RB[rd] = ((ac_Sword)RB[rs1]) >> RB[rs2];`, the
two's-complement right shift of an `int`; defined only for a count below 32. -/
def SRA (rd rs1 rs2 : Fin 32) (s : State) : Option State :=
  if (s.RB rs2).val < 32 then
    some (s.setRB rd (to_ac_word (ac_Sword (s.RB rs1) >>> (s.RB rs2).val)))
  else none

/-- Behaviour `ac_behavior(SRAI)`: with `shamt = (imm2 << 1) | imm1`, when
`(RB[rs1] >> 31) == 1` the result is
`(RB[rs1] >> shamt) | (0xFFFFFFFF << (32 - shamt))`, otherwise `RB[rs1] >> shamt`.
All shifts are on unsigned 32-bit values, so each is defined only for a count
from 0 to 31: `shamt` must be below 32, and on the first branch `32 - shamt` too. -/
def SRAI (rd rs1 : Fin 32) (imm2 imm1 : Nat) (s : State) : Option State :=
  let shamt : Nat := (imm2 <<< 1) ||| imm1
  if (s.RB rs1).val >>> 31 = 1 then
    if shamt < 32 ∧ 0 < shamt then
      some (s.setRB rd (to_ac_word ((((s.RB rs1).val >>> shamt) |||
        (to_ac_word ((0xFFFFFFFF <<< (32 - shamt) : Nat) : Int)).val : Nat) : Int)))
    else none
  else
    if shamt < 32 then
      some (s.setRB rd (to_ac_word (((s.RB rs1).val >>> shamt : Nat) : Int)))
    else none

/-- Behaviour `ac_behavior(SLTI)`: the test is `RB[rs1] < sign_ext` with `RB[rs1]`
an unsigned word and `sign_ext` an `int`, which C++ compares as unsigned values
(the `int` is converted). -/
def SLTI (rd rs1 : Fin 32) (imm4 imm3 imm2 imm1 : Nat) (s : State) : State :=
  let imm : Nat := (imm4 <<< 11) ||| (imm3 <<< 5) ||| (imm2 <<< 1) ||| imm1
  let sign_ext : Int := sign_extend imm 12
  if (s.RB rs1).val < (to_ac_word sign_ext).val then s.setRB rd (to_ac_word 1)
  else s.setRB rd (to_ac_word 0)

/-- Behaviour `ac_behavior(SLTIU)`: the test is
`(ac_Uword)RB[rs1] < (ac_Uword)sign_ext`. -/
def SLTIU (rd rs1 : Fin 32) (imm4 imm3 imm2 imm1 : Nat) (s : State) : State :=
  let imm : Nat := (imm4 <<< 11) ||| (imm3 <<< 5) ||| (imm2 <<< 1) ||| imm1
  let sign_ext : Int := sign_extend imm 12
  if ac_Uword (s.RB rs1) < ac_Uword (to_ac_word sign_ext) then s.setRB rd (to_ac_word 1)
  else s.setRB rd (to_ac_word 0)

/-! ## Multiply extension: MULHSU -/

/-- Conversion of a value to the C++ type `long long` (two's complement, 64
bits). -/
def to_long_long (z : Int) : Int :=
  if z % 2 ^ 64 < 2 ^ 63 then z % 2 ^ 64 else z % 2 ^ 64 - 2 ^ 64

/-- Behaviour `ac_behavior(MULHSU)`: `mult = RB[rs1]; mult *= (ac_Uword)RB[rs2];
half = mult >> 32; RB[rd] = half;` with `mult` a `long long` and `half` an `int`.
The first assignment converts the unsigned word `RB[rs1]` as it is, without the
`(ac_Sword)` cast that MULH has. -/
def MULHSU (rd rs1 rs2 : Fin 32) (s : State) : State :=
  let mult : Int := to_long_long (s.RB rs1).val
  let mult : Int := to_long_long (mult * ac_Uword (s.RB rs2))
  let half : Int := to_int (mult >>> (32 : Nat))
  s.setRB rd (to_ac_word half)

/-! ## Data memory and the atomic instructions -/

/-- The low eight bits of a number, as a memory byte. -/
def to_byte (n : Nat) : Fin 256 := ⟨n % 256, Nat.mod_lt n (by decide)⟩

/-- Modelled from the spec: the memory primitive `read(addr) → u32` of the
external memory (`DM.read`, from the ArchC library, not among the sources): the
word made of the four bytes at `addr .. addr + 3`, least significant byte first
as RISC-V lays words out. -/
def DM_read (s : State) (addr : ac_word) : ac_word :=
  to_ac_word (((s.DM addr).val + 2 ^ 8 * (s.DM (to_ac_word (addr.val + 1))).val
    + 2 ^ 16 * (s.DM (to_ac_word (addr.val + 2))).val
    + 2 ^ 24 * (s.DM (to_ac_word (addr.val + 3))).val : Nat) : Int)

/-- Modelled from the spec: the memory primitive `write(addr, u32)` of the
external memory (`DM.write`, from the ArchC library, not among the sources): the
four bytes at `addr .. addr + 3` receive the bytes of `v`, least significant
first; no other byte changes. -/
def DM_write (s : State) (addr v : ac_word) : State :=
  { s with DM := fun x =>
      if x = addr then to_byte v.val
      else if x = to_ac_word (addr.val + 1) then to_byte (v.val / 2 ^ 8)
      else if x = to_ac_word (addr.val + 2) then to_byte (v.val / 2 ^ 16)
      else if x = to_ac_word (addr.val + 3) then to_byte (v.val / 2 ^ 24)
      else s.DM x }

/-- Behaviour `ac_behavior(AMOSWAP_W)`: `RB[rd] = DM.read(RB[rs1]); temp = RB[rs2];
RB[rs2] = RB[rd]; RB[rd] = temp; DM.write(RB[rs1], RB[rd]);` with `temp` an
`int`. -/
def AMOSWAP_W (rd rs1 rs2 : Fin 32) (s : State) : State :=
  let s1 : State := s.setRB rd (DM_read s (s.RB rs1))
  let temp : Int := ac_Sword (s1.RB rs2)
  let s2 : State := s1.setRB rs2 (s1.RB rd)
  let s3 : State := s2.setRB rd (to_ac_word temp)
  DM_write s3 (s3.RB rs1) (s3.RB rd)

/-- Behaviour `ac_behavior(AMOADD_W)`: `RB[rd] = DM.read(RB[rs1]);
DM.write(RB[rs1], ((ac_Sword)RB[rd] + (ac_Sword)RB[rs2]));`, the sum reduced
modulo `2 ^ 32` when it is stored. -/
def AMOADD_W (rd rs1 rs2 : Fin 32) (s : State) : State :=
  let s1 : State := s.setRB rd (DM_read s (s.RB rs1))
  DM_write s1 (s1.RB rs1) (to_ac_word (ac_Sword (s1.RB rd) + ac_Sword (s1.RB rs2)))

/-- Behaviour `ac_behavior(AMOXOR_W)`: as AMOADD_W with `RB[rd] ^ RB[rs2]`. -/
def AMOXOR_W (rd rs1 rs2 : Fin 32) (s : State) : State :=
  let s1 : State := s.setRB rd (DM_read s (s.RB rs1))
  DM_write s1 (s1.RB rs1) (to_ac_word (((s1.RB rd).val ^^^ (s1.RB rs2).val : Nat) : Int))

/-- Behaviour `ac_behavior(AMOAND_W)`: as AMOADD_W with `RB[rd] & RB[rs2]`. -/
def AMOAND_W (rd rs1 rs2 : Fin 32) (s : State) : State :=
  let s1 : State := s.setRB rd (DM_read s (s.RB rs1))
  DM_write s1 (s1.RB rs1) (to_ac_word (((s1.RB rd).val &&& (s1.RB rs2).val : Nat) : Int))

/-- Behaviour `ac_behavior(AMOOR_W)`: as AMOADD_W with `RB[rd] | RB[rs2]`. -/
def AMOOR_W (rd rs1 rs2 : Fin 32) (s : State) : State :=
  let s1 : State := s.setRB rd (DM_read s (s.RB rs1))
  DM_write s1 (s1.RB rs1) (to_ac_word (((s1.RB rd).val ||| (s1.RB rs2).val : Nat) : Int))

/-- Behaviour `ac_behavior(AMOMIN_W)`: `RB[rd] = DM.read(RB[rs1]);` then
`RB[rd]` is stored back when `RB[rd] < RB[rs2]` and `RB[rs2]` otherwise; the
comparison is on the register values as they are (unsigned words). -/
def AMOMIN_W (rd rs1 rs2 : Fin 32) (s : State) : State :=
  let s1 : State := s.setRB rd (DM_read s (s.RB rs1))
  if (s1.RB rd).val < (s1.RB rs2).val then DM_write s1 (s1.RB rs1) (s1.RB rd)
  else DM_write s1 (s1.RB rs1) (s1.RB rs2)

/-- Behaviour `ac_behavior(AMOMAX_W)`: as AMOMIN_W with the test
`RB[rd] > RB[rs2]`. -/
def AMOMAX_W (rd rs1 rs2 : Fin 32) (s : State) : State :=
  let s1 : State := s.setRB rd (DM_read s (s.RB rs1))
  if (s1.RB rd).val > (s1.RB rs2).val then DM_write s1 (s1.RB rs1) (s1.RB rd)
  else DM_write s1 (s1.RB rs1) (s1.RB rs2)

/-- Behaviour `ac_behavior(AMOMINU_W)`: as AMOMIN_W with the test
`(ac_Uword)RB[rd] < (ac_Uword)RB[rs2]`. -/
def AMOMINU_W (rd rs1 rs2 : Fin 32) (s : State) : State :=
  let s1 : State := s.setRB rd (DM_read s (s.RB rs1))
  if ac_Uword (s1.RB rd) < ac_Uword (s1.RB rs2) then DM_write s1 (s1.RB rs1) (s1.RB rd)
  else DM_write s1 (s1.RB rs1) (s1.RB rs2)

/-- Behaviour `ac_behavior(AMOMAXU_W)`: as AMOMIN_W with the test
`(ac_Uword)RB[rd] > (ac_Uword)RB[rs2]`. -/
def AMOMAXU_W (rd rs1 rs2 : Fin 32) (s : State) : State :=
  let s1 : State := s.setRB rd (DM_read s (s.RB rs1))
  if ac_Uword (s1.RB rd) > ac_Uword (s1.RB rs2) then DM_write s1 (s1.RB rs1) (s1.RB rd)
  else DM_write s1 (s1.RB rs1) (s1.RB rs2)

/-! ## Control and status registers -/

/-- The control and status registers the model recognizes. -/
inductive CSR where
  | fcsr
  | frm
  | fflags
  | vstart
  | vl
  | vtype
  | vlenb
  deriving DecidableEq

/-- The value of a control and status register. -/
def State.csr (s : State) : CSR → ac_word
  | .fcsr => s.fcsr
  | .frm => s.frm
  | .fflags => s.fflags
  | .vstart => s.vstart
  | .vl => s.vl
  | .vtype => s.vtype
  | .vlenb => s.vlenb

/-- The assignment of a value to a control and status register. -/
def State.setCSR (s : State) (c : CSR) (v : ac_word) : State :=
  match c with
  | .fcsr => { s with fcsr := v }
  | .frm => { s with frm := v }
  | .fflags => { s with fflags := v }
  | .vstart => { s with vstart := v }
  | .vl => { s with vl := v }
  | .vtype => { s with vtype := v }
  | .vlenb => { s with vlenb := v }

/-- Behaviour `ac_behavior(CSRRW)`: `ac_word tmp = RB[rd];
ac_reg<ac_word> mapped = csr_map(csr); if (rd != 0x0) RB[rd] = mapped;
mapped = tmp;`.  The function `csr_map` and the class `ac_reg` are not among the
sources: `c` is the recognized register `csr_map(csr)` yields, and `shared` says
whether the assignment to the local object `mapped`, which is declared by value,
reaches that register. -/
def CSRRW (shared : Bool) (rd : Fin 32) (c : CSR) (s : State) : State :=
  let tmp : ac_word := s.RB rd
  let mapped : ac_word := s.csr c
  let s1 : State := if rd ≠ 0 then s.setRB rd mapped else s
  if shared then s1.setCSR c tmp else s1

/-! ## Vector configuration -/

/-- Behaviour `ac_behavior(VSETVLI)`: `vtype = (imm2 & 0x1f);
int sewf8 = 1 << (vtype >> 3); int lmul = 1 << (vtype & 0x7);
int vlmax = lmul * (vlenb & 0xff) / sewf8; int avl = RB[rs1];
vl = (avl < vlmax) ? avl : vlmax; RB[rd] = vl;`.  The requested length `avl` is
an `int`. -/
def VSETVLI (rd rs1 : Fin 32) (imm2 : Nat) (s : State) : State :=
  let vtype : Nat := imm2 &&& 0x1f
  let sewf8 : Nat := 1 <<< (vtype >>> 3)
  let lmul : Nat := 1 <<< (vtype &&& 0x7)
  let vlmax : Int := ((lmul * (s.vlenb.val &&& 0xff) / sewf8 : Nat) : Int)
  let avl : Int := ac_Sword (s.RB rs1)
  let vl : ac_word := to_ac_word (if avl < vlmax then avl else vlmax)
  { s with vtype := to_ac_word (vtype : Int), vl := vl, RB := Function.update s.RB rd vl }

/-- A concrete state for evaluating the memory instructions: `state_regs x1 x2 x3`
with the word `w` stored at address `addr`. -/
def state_mem (x1 x2 x3 : Int) (addr w : Int) : State :=
  DM_write (state_regs x1 x2 x3) (to_ac_word addr) (to_ac_word w)

/-- The element width in bytes a `vtype` value selects: `SEW = 1 << (vtype >> 3)`. -/
def SEW (vtype : Nat) : Nat := 1 <<< (vtype >>> 3)

/-- The length multiplier a `vtype` value selects: `LMUL = 1 << (vtype & 7)`. -/
def LMUL (vtype : Nat) : Nat := 1 <<< (vtype &&& 7)

/-- The maximum vector length for a `vtype` value with 128-bit registers:
`VLMAX = LMUL · 16 / SEW`. -/
def VLMAX (vtype : Nat) : Nat := LMUL vtype * 16 / SEW vtype

/-! ## The vector register bank as a `v128` pointer sees it -/

/-- Byte `j` of the vector register bank.  The bank is one array of 128 words;
a `v128 *` aimed at `&RBV[4 * r]` overlays 16 bytes on the four words of register
`r`, so that byte `j` of the bank is byte `j % 4` of the word `j / 4`, the least
significant byte of a word coming first (the byte order of the host the model
runs on).  The bank has 512 bytes; the callers check that bound. -/
def RBV_byte (R : Fin 128 → ac_word) (j : Nat) : Nat :=
  if h : j < 512 then (R ⟨j / 4, by omega⟩).val / 2 ^ (8 * (j % 4)) % 256 else 0

/-- The bank after byte `j` received the low eight bits of `b`. -/
def RBV_set_byte (R : Fin 128 → ac_word) (j b : Nat) : Fin 128 → ac_word :=
  if h : j < 512 then
    Function.update R ⟨j / 4, by omega⟩
      (to_ac_word (((R ⟨j / 4, by omega⟩).val - RBV_byte R j * 2 ^ (8 * (j % 4))
        + b % 256 * 2 ^ (8 * (j % 4)) : Nat) : Int))
  else R

/-- The `w` bytes of the bank from byte `off` on, read as one unsigned number,
least significant byte first. -/
def velem (R : Fin 128 → ac_word) : Nat → Nat → Nat
  | 0, _ => 0
  | w + 1, off => RBV_byte R off + 256 * velem R w (off + 1)

/-- The bank after the `w` bytes from byte `off` on received the low `w` bytes of
`v`, least significant byte first. -/
def vset_elem (R : Fin 128 → ac_word) (w off v : Nat) : Fin 128 → ac_word :=
  match w with
  | 0 => R
  | w + 1 => vset_elem (RBV_set_byte R off v) w (off + 1) (v / 256)

/-- The method `get8` of `v128`, `return this->b[i]`, for a pointer aimed at
register `p`. -/
def get8 (R : Fin 128 → ac_word) (p i : Nat) : Nat := velem R 1 (16 * p + i)

/-- The method `get16` of `v128`, `return this->h[i]`, for a pointer aimed at
register `p`. -/
def get16 (R : Fin 128 → ac_word) (p i : Nat) : Nat := velem R 2 (16 * p + 2 * i)

/-- The method `get32` of `v128`, `return this->w[i]`, for a pointer aimed at
register `p`. -/
def get32 (R : Fin 128 → ac_word) (p i : Nat) : Nat := velem R 4 (16 * p + 4 * i)

/-- The method `set8` of `v128`, `this->b[i] = v`, for a pointer aimed at
register `p`. -/
def set8 (R : Fin 128 → ac_word) (p i v : Nat) : Fin 128 → ac_word :=
  vset_elem R 1 (16 * p + i) v

/-- The method `set16` of `v128`, `this->h[i] = v`, for a pointer aimed at
register `p`. -/
def set16 (R : Fin 128 → ac_word) (p i v : Nat) : Fin 128 → ac_word :=
  vset_elem R 2 (16 * p + 2 * i) v

/-- The method `set32` of `v128`, `this->w[i] = v`, for a pointer aimed at
register `p`. -/
def set32 (R : Fin 128 → ac_word) (p i v : Nat) : Fin 128 → ac_word :=
  vset_elem R 4 (16 * p + 4 * i) v

/-- The accessor of the branch an element loop takes: `get8` under `sew == 1`,
`get16` under `sew == 2`, `get32` under `sew == 4`. -/
def lane_get (sew : Nat) (R : Fin 128 → ac_word) (p idx : Nat) : Nat :=
  if sew = 1 then get8 R p idx else if sew = 2 then get16 R p idx else get32 R p idx

/-- The assignment of the branch an element loop takes: `set8` under `sew == 1`,
`set16` under `sew == 2`, `set32` under `sew == 4`. -/
def lane_set (sew : Nat) (R : Fin 128 → ac_word) (p idx v : Nat) : Fin 128 → ac_word :=
  if sew = 1 then set8 R p idx v else if sew = 2 then set16 R p idx v else set32 R p idx v

/-- The casts `( int8_t )`, `( int16_t )`, `( int32_t )` of the branches
`sew == 1`, `sew == 2`, `sew == 4`, applied to an unsigned value. -/
def lane_int (sew n : Nat) : Int :=
  if n % 2 ^ (8 * sew) < 2 ^ (8 * sew - 1) then ((n % 2 ^ (8 * sew) : Nat) : Int)
  else ((n % 2 ^ (8 * sew) : Nat) : Int) - 2 ^ (8 * sew)

/-- The casts `( uint8_t )`, `( uint16_t )`, `( uint32_t )` of the branches
`sew == 1`, `sew == 2`, `sew == 4`. -/
def lane_uint (sew n : Nat) : Nat := n % 2 ^ (8 * sew)

/-- The element loop the vector behaviours share,
`for (int el = 0; el < vl; el++) { int idx = el % vlmax; ...; if ( idx == vlmax-1 ) v++; }`,
after `n` passes: the value the passes built and the number of times the
pointers were advanced.  `body inc idx el` is the text of one pass, with `inc`
the advances made so far.  `el % vlmax` has no result when `vlmax` is zero. -/
def striping {α : Type} (vlmax : Nat) (body : Nat → Nat → Nat → α → Option α) (a : α) :
    Nat → Option (α × Nat)
  | 0 => some (a, 0)
  | n + 1 =>
    match striping vlmax body a n with
    | none => none
    | some (x, inc) =>
      if vlmax = 0 then none
      else
        match body inc (n % vlmax) n x with
        | none => none
        | some y => some (y, if n % vlmax = vlmax - 1 then inc + 1 else inc)

/-- The declarations `int sew = 1 << ( vtype >> 3 ); int vlmax = 128 / ( 8 * sew );`
as a function of the shift count: from 29 on the product `8 * sew` wraps to zero
or the shift has no result. -/
def vlmax_128 (k : Nat) : Option Nat :=
  if k < 29 then some (128 / (8 * (1 <<< k))) else none

/-- The declarations `int sew = 1 << ( vtype >> 3 ); int vlmax = 16 / ( sew );` as
a function of the shift count: from 32 on the shift has no result. -/
def vlmax_16 (k : Nat) : Option Nat :=
  if k < 32 then some (16 / (1 <<< k)) else none

/-- One pass of the loop of a behaviour with three pointers
`v0 = &RBV[4 * vd]`, `v1 = &RBV[4 * rs1]`, `v2 = &RBV[4 * rs2]`, each advanced
`inc` times: lane `idx` of `v0` receives the value `f` makes of lane `idx` of `v1`
and lane `idx` of `v2` (converted to the `uint32_t` parameter of the `set`
method), in the branch of `sew`; nothing happens when `sew` is none of 1, 2, 4.
A pointer advanced past register 31 points outside the bank: the access has no
result. -/
def VV_pass (f : Nat → Nat → Nat → Option Int) (sew vd rs1 rs2 : Nat) (inc idx _el : Nat)
    (R : Fin 128 → ac_word) : Option (Fin 128 → ac_word) :=
  if sew = 1 ∨ sew = 2 ∨ sew = 4 then
    if vd + inc < 32 ∧ rs1 + inc < 32 ∧ rs2 + inc < 32 then
      match f sew (lane_get sew R (rs1 + inc) idx) (lane_get sew R (rs2 + inc) idx) with
      | none => none
      | some z => some (lane_set sew R (vd + inc) idx (to_ac_word z).val)
    else none
  else some R

/-- The behaviours with three pointers: `int sew = 1 << ( vtype >> 3 )`, the
declaration of `vlmax`, and the element loop over `VV_pass`.  The trace output is
not modelled. -/
def VV_form (vlmax : Nat → Option Nat) (f : Nat → Nat → Nat → Option Int) (vd rs1 rs2 : Nat)
    (s : State) : Option State :=
  match vlmax (s.vtype.val >>> 3) with
  | none => none
  | some vlmax =>
    match striping vlmax (VV_pass f (1 <<< (s.vtype.val >>> 3)) vd rs1 rs2) s.RBV s.vl.val with
    | none => none
    | some (R, _) => some { s with RBV := R }

/-- The behaviours with two pointers `v0 = &RBV[4 * vd]`, `v1 = &RBV[4 * src]`:
each pass assigns to lane `idx` of `v0` the value `g` makes of lane `idx` of `v1`.
It is the three-pointer loop with both source pointers on `src`. -/
def VX_form (vlmax : Nat → Option Nat) (g : Nat → Nat → Option Int) (vd src : Nat)
    (s : State) : Option State :=
  VV_form vlmax (fun sew a _ => g sew a) vd src src s

/-! ## Vector arithmetic -/

/-- Behaviour `ac_behavior(VADDVV)`:
`v0->set8( idx, ( int8_t ) v1->get8( idx ) + ( int8_t ) v2->get8( idx ) )` and the
same for 16 and 32 bits. -/
def VADDVV (vd rs1 rs2 : Fin 32) (s : State) : Option State :=
  VV_form vlmax_128 (fun sew a1 a2 => some (lane_int sew a1 + lane_int sew a2))
    vd.val rs1.val rs2.val s

/-- Behaviour `ac_behavior(VSUBVV)`:
`v0->set8( idx, ( int8_t ) v2->get8( idx ) - ( int8_t ) v1->get8( idx ) )` and the
same for 16 and 32 bits. -/
def VSUBVV (vd rs1 rs2 : Fin 32) (s : State) : Option State :=
  VV_form vlmax_128 (fun sew a1 a2 => some (lane_int sew a2 - lane_int sew a1))
    vd.val rs1.val rs2.val s

/-- Behaviour `ac_behavior(VMULVV)`, with `int vlmax = 16 / ( sew )`:
`v0->set8( idx, ( int8_t ) v2->get8( idx ) * ( int8_t ) v1->get8( idx ) )` and the
same for 16 and 32 bits. -/
def VMULVV (vd rs1 rs2 : Fin 32) (s : State) : Option State :=
  VV_form vlmax_16 (fun sew a1 a2 => some (lane_int sew a2 * lane_int sew a1))
    vd.val rs1.val rs2.val s

/-- Behaviour `ac_behavior(VANDVV)`:
`v0->set8( idx, ( int8_t ) v2->get8( idx ) & ( int8_t ) v1->get8( idx ) )` and the
same for 16 and 32 bits. -/
def VANDVV (vd rs1 rs2 : Fin 32) (s : State) : Option State :=
  VV_form vlmax_128 (fun sew a1 a2 => some (Int.land (lane_int sew a2) (lane_int sew a1)))
    vd.val rs1.val rs2.val s

/-- Behaviour `ac_behavior(VORVV)`:
`v0->set8( idx, ( int8_t ) v2->get8( idx ) | ( int8_t ) v1->get8( idx ) )` and the
same for 16 and 32 bits. -/
def VORVV (vd rs1 rs2 : Fin 32) (s : State) : Option State :=
  VV_form vlmax_128 (fun sew a1 a2 => some (Int.lor (lane_int sew a2) (lane_int sew a1)))
    vd.val rs1.val rs2.val s

/-- Behaviour `ac_behavior(VXORVV)`:
`v0->set8( idx, ( int8_t ) v2->get8( idx ) ^ ( int8_t ) v1->get8( idx ) )` and the
same for 16 and 32 bits. -/
def VXORVV (vd rs1 rs2 : Fin 32) (s : State) : Option State :=
  VV_form vlmax_128 (fun sew a1 a2 => some (Int.xor (lane_int sew a2) (lane_int sew a1)))
    vd.val rs1.val rs2.val s

/-- Behaviour `ac_behavior(VADDVI)`: `v128 *v1 = ( v128 * ) &RBV[ 4 * rs1 ];
int imm = sign_extend( rs1, 5 );` and
`v0->set8( idx, ( int8_t ) v1->get8( idx ) + imm )`, the same for 16 and 32 bits.
The source pointer is made from the field `rs1`; the field `rs2` is not used. -/
def VADDVI (vd rs1 _rs2 : Fin 32) (s : State) : Option State :=
  VX_form vlmax_128 (fun sew a => some (lane_int sew a + sign_extend rs1.val 5))
    vd.val rs1.val s

/-- Behaviour `ac_behavior(VANDVI)`: `v128 *v1 = ( v128 * ) &RBV[ 4 * rs2 ];
int imm = sign_extend( rs1, 5 );` and
`v0->set8( idx, ( int8_t ) v1->get8( idx ) & imm )`, the same for 16 and 32 bits. -/
def VANDVI (vd rs1 rs2 : Fin 32) (s : State) : Option State :=
  VX_form vlmax_128 (fun sew a => some (Int.land (lane_int sew a) (sign_extend rs1.val 5)))
    vd.val rs2.val s

/-- Behaviour `ac_behavior(VORVI)`: `v128 *v1 = ( v128 * ) &RBV[ 4 * rs2 ];
int imm = sign_extend( rs1, 5 );` and
`v0->set8( idx, ( int8_t ) v1->get8( idx ) | imm )`, the same for 16 and 32 bits. -/
def VORVI (vd rs1 rs2 : Fin 32) (s : State) : Option State :=
  VX_form vlmax_128 (fun sew a => some (Int.lor (lane_int sew a) (sign_extend rs1.val 5)))
    vd.val rs2.val s

/-- Behaviour `ac_behavior(VXORVI)`: `v128 *v1 = ( v128 * ) &RBV[ 4 * rs2 ];
int imm = sign_extend( rs1, 5 );` and
`v0->set8( idx, ( int8_t ) v1->get8( idx ) ^ imm )`, the same for 16 and 32 bits. -/
def VXORVI (vd rs1 rs2 : Fin 32) (s : State) : Option State :=
  VX_form vlmax_128 (fun sew a => some (Int.xor (lane_int sew a) (sign_extend rs1.val 5)))
    vd.val rs2.val s

/-- Behaviour `ac_behavior(VMINUVV)`: `if ( v2->get8( idx ) < v1->get8( idx ) )
v0->set8( idx, v2->get8( idx ) ); else v0->set8( idx, v1->get8( idx ) );` and the
same for 16 and 32 bits; the operands are `uint32_t`. -/
def VMINUVV (vd rs1 rs2 : Fin 32) (s : State) : Option State :=
  VV_form vlmax_128 (fun _ a1 a2 => some (if a2 < a1 then (a2 : Int) else (a1 : Int)))
    vd.val rs1.val rs2.val s

/-- Behaviour `ac_behavior(VMAXUVV)`: `if ( v2->get8( idx ) > v1->get8( idx ) )
v0->set8( idx, v2->get8( idx ) ); else v0->set8( idx, v1->get8( idx ) );` and the
same for 16 and 32 bits. -/
def VMAXUVV (vd rs1 rs2 : Fin 32) (s : State) : Option State :=
  VV_form vlmax_128 (fun _ a1 a2 => some (if a2 > a1 then (a2 : Int) else (a1 : Int)))
    vd.val rs1.val rs2.val s

/-- Behaviour `ac_behavior(VMINUVX)`, with `v1 = &RBV[4 * rs2]`:
`if ( ( uint8_t ) RB[rs1] < v1->get8( idx ) ) v0->set8( idx, ( uint8_t ) RB[rs1] );
else v0->set8( idx, v1->get8( idx ) );` and the same for 16 and 32 bits. -/
def VMINUVX (vd rs1 rs2 : Fin 32) (s : State) : Option State :=
  VX_form vlmax_128 (fun sew a =>
      some (if lane_uint sew (s.RB rs1).val < a then (lane_uint sew (s.RB rs1).val : Int)
        else (a : Int)))
    vd.val rs2.val s

/-- Behaviour `ac_behavior(VMAXUVX)`, with `v1 = &RBV[4 * rs2]`:
`if ( ( uint8_t ) RB[rs1] > v1->get8( idx ) ) v0->set8( idx, ( uint8_t ) RB[rs1] );
else v0->set8( idx, v1->get8( idx ) );` and the same for 16 and 32 bits. -/
def VMAXUVX (vd rs1 rs2 : Fin 32) (s : State) : Option State :=
  VX_form vlmax_128 (fun sew a =>
      some (if lane_uint sew (s.RB rs1).val > a then (lane_uint sew (s.RB rs1).val : Int)
        else (a : Int)))
    vd.val rs2.val s

/-! ## Vector shifts -/

/-- The C++ shift `x << c` of a `uint32_t` operand: no result for a count of 32
or more; the bits shifted out are lost when the value is stored. -/
def shl32 (x c : Nat) : Option Int :=
  if c < 32 then some ((x <<< c : Nat) : Int) else none

/-- The C++ shift `x >> c` of a `uint32_t` operand: no result for a count of 32
or more. -/
def shr32 (x c : Nat) : Option Int :=
  if c < 32 then some ((x >>> c : Nat) : Int) else none

/-- Behaviour `ac_behavior(VSLLVV)`:
`v0->set8( idx, v2->get8( idx ) << ( uint8_t ) v1->get8( idx ) )` and the same for
16 and 32 bits; the shifted operand is the `uint32_t` the accessor returns. -/
def VSLLVV (vd rs1 rs2 : Fin 32) (s : State) : Option State :=
  VV_form vlmax_128 (fun sew a1 a2 => shl32 a2 (lane_uint sew a1)) vd.val rs1.val rs2.val s

/-- Behaviour `ac_behavior(VSLLVX)`, with `v1 = &RBV[4 * rs2]`:
`v0->set8( idx, v1->get8( idx ) << ( uint8_t ) RB[rs1] )` and the same for 16 and
32 bits. -/
def VSLLVX (vd rs1 rs2 : Fin 32) (s : State) : Option State :=
  VX_form vlmax_128 (fun sew a => shl32 a (lane_uint sew (s.RB rs1).val)) vd.val rs2.val s

/-- Behaviour `ac_behavior(VSLLVI)`, with `v1 = &RBV[4 * rs2]` and `int imm = rs1`:
`v0->set8( idx, v1->get8( idx ) << imm )` and the same for 16 and 32 bits. -/
def VSLLVI (vd rs1 rs2 : Fin 32) (s : State) : Option State :=
  VX_form vlmax_128 (fun _ a => shl32 a rs1.val) vd.val rs2.val s

/-- Behaviour `ac_behavior(VSRLVV)`:
`v0->set8( idx, v2->get8( idx ) >> ( uint8_t ) v1->get8( idx ) )` and the same for
16 and 32 bits. -/
def VSRLVV (vd rs1 rs2 : Fin 32) (s : State) : Option State :=
  VV_form vlmax_128 (fun sew a1 a2 => shr32 a2 (lane_uint sew a1)) vd.val rs1.val rs2.val s

/-- Behaviour `ac_behavior(VSRLVX)`, with `v1 = &RBV[4 * rs2]`:
`v0->set8( idx, v1->get8( idx ) >> ( uint8_t ) RB[rs1] )` and the same for 16 and
32 bits. -/
def VSRLVX (vd rs1 rs2 : Fin 32) (s : State) : Option State :=
  VX_form vlmax_128 (fun sew a => shr32 a (lane_uint sew (s.RB rs1).val)) vd.val rs2.val s

/-- Behaviour `ac_behavior(VSRLVI)`, with `v1 = &RBV[4 * rs2]` and `int imm = rs1`:
`v0->set8( idx, v1->get8( idx ) >> imm )` and the same for 16 and 32 bits. -/
def VSRLVI (vd rs1 rs2 : Fin 32) (s : State) : Option State :=
  VX_form vlmax_128 (fun _ a => shr32 a rs1.val) vd.val rs2.val s

/-! ## Vector comparisons -/

/-- Behaviour `ac_behavior(VMSEQVV)`:
`v0->set8( idx, ( v2->get8( idx ) == ( uint8_t ) v1->get8( idx ) ) ? 1 : 0 )` and
the same for 16 and 32 bits. -/
def VMSEQVV (vd rs1 rs2 : Fin 32) (s : State) : Option State :=
  VV_form vlmax_128 (fun sew a1 a2 => some (if a2 = lane_uint sew a1 then 1 else 0))
    vd.val rs1.val rs2.val s

/-- Behaviour `ac_behavior(VMSNEVV)`:
`v0->set8( idx, ( v2->get8( idx ) != ( uint8_t ) v1->get8( idx ) ) ? 1 : 0 )` and
the same for 16 and 32 bits. -/
def VMSNEVV (vd rs1 rs2 : Fin 32) (s : State) : Option State :=
  VV_form vlmax_128 (fun sew a1 a2 => some (if a2 ≠ lane_uint sew a1 then 1 else 0))
    vd.val rs1.val rs2.val s

/-! ## Vector reductions -/

/-- One pass of the loop of VREDSUMVS, on the running `int sum` with the pointer
`v2 = &RBV[4 * rs2]` advanced `inc` times:
`sum += sign_extend( v2->get8( idx ), 8 )` under `sew == 1`,
`sum += sign_extend( v2->get16( idx ), 16 )` under `sew == 2` and
`sum += ( int8_t ) v2->get32( idx )` under `sew == 4`. -/
def VREDSUMVS_pass (R : Fin 128 → ac_word) (sew rs2 : Nat) (inc idx _el : Nat) (sum : Int) :
    Option Int :=
  if sew = 1 ∨ sew = 2 ∨ sew = 4 then
    if rs2 + inc < 32 then
      some (to_int (sum +
        (if sew = 1 then sign_extend (get8 R (rs2 + inc) idx) 8
         else if sew = 2 then sign_extend (get16 R (rs2 + inc) idx) 16
         else lane_int 1 (get32 R (rs2 + inc) idx))))
    else none
  else some sum

/-- Behaviour `ac_behavior(VREDSUMVS)`: `int sum` starts from element 0 of
`v1 = &RBV[4 * rs1]` (`sign_extend( v1->get8( 0 ), 8 )`,
`sign_extend( v1->get16( 0 ), 16 )`, `v1->get32( 0 )`), the loop adds the elements
of `v2`, with `int vlmax = 16 / sew`, and the sum is assigned to element 0 of
`v0 = &RBV[4 * vd]` by `set8`, `set16`, `set32`.  When `sew` is none of 1, 2, 4
the variable `sum` is never read and nothing is assigned. -/
def VREDSUMVS (vd rs1 rs2 : Fin 32) (s : State) : Option State :=
  match vlmax_16 (s.vtype.val >>> 3) with
  | none => none
  | some vlmax =>
    match striping vlmax (VREDSUMVS_pass s.RBV (1 <<< (s.vtype.val >>> 3)) rs2.val)
        (if 1 <<< (s.vtype.val >>> 3) = 1 then sign_extend (get8 s.RBV rs1.val 0) 8
         else if 1 <<< (s.vtype.val >>> 3) = 2 then sign_extend (get16 s.RBV rs1.val 0) 16
         else if 1 <<< (s.vtype.val >>> 3) = 4 then to_int (get32 s.RBV rs1.val 0)
         else 0)
        s.vl.val with
    | none => none
    | some (sum, _) =>
      if 1 <<< (s.vtype.val >>> 3) = 1 ∨ 1 <<< (s.vtype.val >>> 3) = 2
          ∨ 1 <<< (s.vtype.val >>> 3) = 4 then
        some { s with
          RBV := lane_set (1 <<< (s.vtype.val >>> 3)) s.RBV vd.val 0 (to_ac_word sum).val }
      else some s

/-- One pass of the loop of VWREDSUMUVS, on the running `int sum` with the
pointer `v2 = &RBV[4 * rs2]` advanced `inc` times: `sum += v2->get8( idx )` under
`sew == 1` and `sum += v2->get16( idx )` under `sew == 2`. -/
def VWREDSUMUVS_pass (R : Fin 128 → ac_word) (sew rs2 : Nat) (inc idx _el : Nat) (sum : Int) :
    Option Int :=
  if sew = 1 ∨ sew = 2 then
    if rs2 + inc < 32 then
      some (to_int (sum + ((lane_get sew R (rs2 + inc) idx : Nat) : Int)))
    else none
  else some sum

/-- Behaviour `ac_behavior(VWREDSUMUVS)`: `int sum` starts from the element 0 of
twice the width of `v1 = &RBV[4 * rs1]` (`v1->get16( 0 )` under `sew == 1`,
`v1->get32( 0 )` under `sew == 2`), the loop adds the elements of `v2`, with
`int vlmax = 16 / sew`, and the sum is assigned to the element 0 of twice the
width of `v0 = &RBV[4 * vd]` (`set16`, `set32`).  When `sew` is neither 1 nor 2
the variable `sum` is never read and nothing is assigned. -/
def VWREDSUMUVS (vd rs1 rs2 : Fin 32) (s : State) : Option State :=
  match vlmax_16 (s.vtype.val >>> 3) with
  | none => none
  | some vlmax =>
    match striping vlmax (VWREDSUMUVS_pass s.RBV (1 <<< (s.vtype.val >>> 3)) rs2.val)
        (if 1 <<< (s.vtype.val >>> 3) = 1 then to_int (get16 s.RBV rs1.val 0)
         else if 1 <<< (s.vtype.val >>> 3) = 2 then to_int (get32 s.RBV rs1.val 0)
         else 0)
        s.vl.val with
    | none => none
    | some (sum, _) =>
      if 1 <<< (s.vtype.val >>> 3) = 1 then
        some { s with RBV := set16 s.RBV vd.val 0 (to_ac_word sum).val }
      else if 1 <<< (s.vtype.val >>> 3) = 2 then
        some { s with RBV := set32 s.RBV vd.val 0 (to_ac_word sum).val }
      else some s

/-- Element `i` of the register group that starts at vector register `r`, for
elements of `w` bytes: the `w` bytes at the flat byte offset `r · 16 + i · w` of
the vector register file, as an unsigned number. -/
def vgroup_elem (R : Fin 128 → ac_word) (w r i : Nat) : Nat := velem R w (16 * r + w * i)

/-- A concrete state for evaluating the vector behaviours: `state_regs x1 x2 x3`
with `vtype` and `vl` as given and word `i` of the vector register bank holding
`R i`. -/
def state_vec (x1 x2 x3 : Int) (vtype vl : Nat) (R : Nat → Nat) : State :=
  { state_regs x1 x2 x3 with
    vtype := to_ac_word vtype
    vl := to_ac_word vl
    RBV := fun i => to_ac_word (R i.val) }

/-! ## Statements about lanes, and example states of the vector unit -/

/-- What a lane-wise instruction is to leave behind: the result `r` of the
behaviour is a state, and for every `i < vl` element `i` of the group that starts
at `vd` holds `op` of the elements `i` that the groups starting at `vs1` and `vs2`
held in `s`, the state before the instruction. -/
def lanes_post (s : State) (r : Option State) (vd vs1 vs2 : Nat) (op : Nat → Nat → Nat) : Prop :=
  ∃ t, r = some t ∧ ∀ i, i < s.vl.val →
    vgroup_elem t.RBV (SEW s.vtype.val) vd i
      = op (vgroup_elem s.RBV (SEW s.vtype.val) vs1 i) (vgroup_elem s.RBV (SEW s.vtype.val) vs2 i)

/-- The first `n` elements of `w` bytes of the group that starts at register `r`. -/
def group_elems (R : Fin 128 → ac_word) (w r n : Nat) : List Nat :=
  (List.range n).map (vgroup_elem R w r)

/-- A concrete state for evaluating the vector behaviours: `x1` in register 1,
the words of `l1` in vector register 1 and the words of `l2` in vector register
2 (at most four each), every other vector register zero. -/
def state_two_vectors (x1 : Int) (vtype vl : Nat) (l1 l2 : List Nat) : State :=
  state_vec x1 0 0 vtype vl
    (fun i => if 4 ≤ i ∧ i < 8 then l1.getD (i - 4) 0
      else if 8 ≤ i ∧ i < 12 then l2.getD (i - 8) 0 else 0)

/-! ## Vector loads and stores -/

/-- Modelled from the spec: the memory primitive `read_byte(addr) → u8` of the
external memory (`DM.read_byte`, from the ArchC library, not among the
sources): the byte at `addr`. -/
def DM_read_byte (s : State) (addr : ac_word) : Nat := (s.DM addr).val

/-- Modelled from the spec: the memory primitive `read_half(addr) → u16` of the
external memory (`DM.read_half`, from the ArchC library, not among the
sources): the two bytes at `addr` and `addr + 1`, least significant first. -/
def DM_read_half (s : State) (addr : ac_word) : Nat :=
  (s.DM addr).val + 2 ^ 8 * (s.DM (to_ac_word (addr.val + 1))).val

/-- Modelled from the spec: the memory primitive `write_byte(addr, u8)` of the
external memory (`DM.write_byte`, from the ArchC library, not among the
sources): the byte at `addr` receives the low eight bits of `v`; no other byte
changes. -/
def DM_write_byte (s : State) (addr : ac_word) (v : Nat) : State :=
  { s with DM := fun x => if x = addr then to_byte v else s.DM x }

/-- Modelled from the spec: the memory primitive `write_half(addr, u16)` of the
external memory (`DM.write_half`, from the ArchC library, not among the
sources): the bytes at `addr` and `addr + 1` receive the low sixteen bits of
`v`, least significant byte first; no other byte changes. -/
def DM_write_half (s : State) (addr : ac_word) (v : Nat) : State :=
  { s with DM := fun x =>
      if x = addr then to_byte v
      else if x = to_ac_word (addr.val + 1) then to_byte (v / 2 ^ 8)
      else s.DM x }

/-- The `w` bytes of memory from address `a` on (addresses taken modulo
`2 ^ 32`), read as one unsigned number, least significant byte first: the
memory value of `w` bytes at `a`. -/
def DM_elem (DM : ac_word → Fin 256) : Nat → Int → Nat
  | 0, _ => 0
  | w + 1, a => (DM (to_ac_word a)).val + 256 * DM_elem DM w (a + 1)

/-- The element width the vector loads and stores select:
`if ( funct3 == 0 ) eew = 1; else if ( funct3 == 5 ) eew = 2;
else if ( funct3 == 6 ) eew = 4;`.  For another `funct3` the variable `eew` is
read without having been assigned. -/
def VLE_eew (funct3 : Nat) : Option Nat :=
  if funct3 = 0 then some 1 else if funct3 = 5 then some 2
  else if funct3 = 6 then some 4 else none

/-- One pass of the loop of VLE and VLSE, with the pointer `v = &RBV[4 * vd]`
advanced `inc` times and `addr el` the address expression of the pass
(an `int`, converted to the address type of the memory):
`v->set8( idx, DM.read_byte( ... ) )` under `eew == 1`,
`v->set16( idx, DM.read_half( ... ) )` under `eew == 2`,
`v->set32( idx, DM.read( ... ) )` under `eew == 4`. -/
def VLE_pass (s : State) (eew vd : Nat) (addr : Nat → Int) (inc idx el : Nat)
    (R : Fin 128 → ac_word) : Option (Fin 128 → ac_word) :=
  if vd + inc < 32 then
    if eew = 1 then some (set8 R (vd + inc) idx (DM_read_byte s (to_ac_word (addr el))))
    else if eew = 2 then some (set16 R (vd + inc) idx (DM_read_half s (to_ac_word (addr el))))
    else if eew = 4 then some (set32 R (vd + inc) idx (DM_read s (to_ac_word (addr el))).val)
    else some R
  else none

/-- Behaviour `ac_behavior(VLE)`: `int addr = RB[rs1]`,
`int vlmax = 128 / ( 8 * eew )`, and the element loop, whose pass `el` reads
memory at `addr + el * eew`.  The trace output is not modelled. -/
def VLE (funct3 : Nat) (vd rs1 : Fin 32) (s : State) : Option State :=
  match VLE_eew funct3 with
  | none => none
  | some eew =>
    match striping (128 / (8 * eew))
        (VLE_pass s eew vd.val (fun el => ac_Sword (s.RB rs1) + (el : Int) * (eew : Int)))
        s.RBV s.vl.val with
    | none => none
    | some (R, _) => some { s with RBV := R }

/-- Behaviour `ac_behavior(VLSE)`: as VLE with `int stride = RB[rs2]` and the
address `addr + el * stride`. -/
def VLSE (funct3 : Nat) (vd rs1 rs2 : Fin 32) (s : State) : Option State :=
  match VLE_eew funct3 with
  | none => none
  | some eew =>
    match striping (128 / (8 * eew))
        (VLE_pass s eew vd.val (fun el => ac_Sword (s.RB rs1) + (el : Int) * ac_Sword (s.RB rs2)))
        s.RBV s.vl.val with
    | none => none
    | some (R, _) => some { s with RBV := R }

/-- One pass of the loop of VSE, on the state the earlier passes left, with the
pointer `v = &RBV[4 * vd]` advanced `inc` times:
`DM.write_byte( addr + el * eew, v->get8( idx ) )` under `eew == 1`,
`DM.write_half( addr + el * eew, v->get16( idx ) )` under `eew == 2`,
`DM.write( addr + el * eew, v->get32( idx ) )` under `eew == 4`. -/
def VSE_pass (eew vd : Nat) (addr : Nat → Int) (inc idx el : Nat) (t : State) : Option State :=
  if vd + inc < 32 then
    if eew = 1 then some (DM_write_byte t (to_ac_word (addr el)) (get8 t.RBV (vd + inc) idx))
    else if eew = 2 then some (DM_write_half t (to_ac_word (addr el)) (get16 t.RBV (vd + inc) idx))
    else if eew = 4 then
      some (DM_write t (to_ac_word (addr el)) (to_ac_word (get32 t.RBV (vd + inc) idx : Nat)))
    else some t
  else none

/-- Behaviour `ac_behavior(VSE)`: `int addr = RB[rs1]`,
`int vlmax = 128 / ( 8 * eew )`, and the element loop, whose pass `el` writes
memory at `addr + el * eew`.  The trace output is not modelled. -/
def VSE (funct3 : Nat) (vd rs1 : Fin 32) (s : State) : Option State :=
  match VLE_eew funct3 with
  | none => none
  | some eew =>
    match striping (128 / (8 * eew))
        (VSE_pass eew vd.val (fun el => ac_Sword (s.RB rs1) + (el : Int) * (eew : Int)))
        s s.vl.val with
    | none => none
    | some (t, _) => some t

/-- A concrete state for evaluating the vector loads and stores:
`state_vec x1 x2 x3 vtype vl` with all vector registers zero and the byte
`mem a` at every memory address `a`. -/
def state_bytes (x1 x2 x3 : Int) (vtype vl : Nat) (mem : Nat → Nat) : State :=
  { state_vec x1 x2 x3 vtype vl (fun _ => 0) with DM := fun a => to_byte (mem a.val) }

/-! ## Moves between a scalar register and element 0 -/

/-- Behaviour `ac_behavior(VMVSX)`: `int copy = RB[rs1];
int sew = 1 << ( vtype >> 3 ); v128 *v0 = ( v128 * ) &RBV[ 4 * vd ];` and
`v0->set8( 0, copy )` under `sew == 1`, `v0->set16( 0, copy )` under `sew == 2`,
`v0->set32( 0, copy )` under `sew == 4`; nothing is assigned for another `sew`.
The shift has no result for a count of 32 or more. -/
def VMVSX (vd rs1 : Fin 32) (s : State) : Option State :=
  if s.vtype.val >>> 3 < 32 then
    let copy : Int := ac_Sword (s.RB rs1)
    let sew : Nat := 1 <<< (s.vtype.val >>> 3)
    if sew = 1 then some { s with RBV := set8 s.RBV vd.val 0 (to_ac_word copy).val }
    else if sew = 2 then some { s with RBV := set16 s.RBV vd.val 0 (to_ac_word copy).val }
    else if sew = 4 then some { s with RBV := set32 s.RBV vd.val 0 (to_ac_word copy).val }
    else some s
  else none

/-- Behaviour `ac_behavior(VMVXS)`: `int copy; int sew = 1 << ( vtype >> 3 );
v128 *v0 = ( v128 * ) &RBV[ 4 * rs2 ];`, then
`copy = sign_extend( v0->get8( 0 ), 8 )` under `sew == 1`,
`copy = sign_extend( v0->get16( 0 ), 16 )` under `sew == 2`,
`copy = ( int32_t ) v0->get32( 0 )` under `sew == 4`, and `RB[vd] = copy;`, the
destination being the field `vd`.  For another `sew` the variable `copy` is read
without having been assigned. -/
def VMVXS (vd rs2 : Fin 32) (s : State) : Option State :=
  if s.vtype.val >>> 3 < 32 then
    let sew : Nat := 1 <<< (s.vtype.val >>> 3)
    if sew = 1 then some (s.setRB vd (to_ac_word (sign_extend (get8 s.RBV rs2.val 0) 8)))
    else if sew = 2 then some (s.setRB vd (to_ac_word (sign_extend (get16 s.RBV rs2.val 0) 16)))
    else if sew = 4 then some (s.setRB vd (to_ac_word (to_int (get32 s.RBV rs2.val 0))))
    else none
  else none

/-! ## Floating-point sign injection, loads, stores and moves -/

/-- Modelled from the spec: the field `parts.sign` of the union `float_cast` of
`riscv_bhv_macros.H`, which is not among the sources: the sign bit, bit 31, of a
single-precision bit pattern. -/
def float_cast_sign (bits : Nat) : Nat := bits / 2 ^ 31 % 2

/-- Modelled from the spec: the field `parts.sign` of the union `double_cast` of
`riscv_bhv_macros.H`, which is not among the sources: the sign bit, bit 63, of a
double-precision bit pattern. -/
def double_cast_sign (bits : Nat) : Nat := bits / 2 ^ 63 % 2

/-- The value `ac_behavior(FSGNJ_S)` hands to `save_float`, as a function of the
bit patterns `load_float(rs1)` and `load_float(rs2)` returned:
`f1.parts.sign = f2.parts.sign;` leaves the exponent and mantissa bits of `f1`
and replaces its sign bit.  Modelled from the spec: `load_float`, `save_float`
and `float_cast` belong to `riscv_bhv_macros.H`, which is not among the sources;
passing a value through a `float` variable is taken to keep its bits, which C++
guarantees for values that are not NaN. -/
def FSGNJ_S_bits (f1 f2 : Nat) : Nat := f1 % 2 ^ 31 + 2 ^ 31 * float_cast_sign f2

/-- The value `ac_behavior(FSGNJ_D)` hands to `save_double`, as a function of the
bit patterns `load_double(rs1)` and `load_double(rs2)` returned:
`d1.parts.sign = d2.parts.sign;`.  Modelled from the spec, as `FSGNJ_S_bits`. -/
def FSGNJ_D_bits (d1 d2 : Nat) : Nat := d1 % 2 ^ 63 + 2 ^ 63 * double_cast_sign d2

/-- A single-precision bit pattern is a NaN: exponent all ones, mantissa not
zero. -/
def is_nan_S (bits : Nat) : Prop := bits / 2 ^ 23 % 2 ^ 8 = 255 ∧ bits % 2 ^ 23 ≠ 0

/-- A double-precision bit pattern is a NaN: exponent all ones, mantissa not
zero. -/
def is_nan_D (bits : Nat) : Prop := bits / 2 ^ 52 % 2 ^ 11 = 2047 ∧ bits % 2 ^ 52 ≠ 0

/-- Behaviour `ac_behavior(FLW)`:
`offset = (imm4 << 11) | (imm3 << 5) | (imm2 << 1) | imm1;
sign_ext = sign_extend(offset, 12); RBF[rd] = DM.read(RB[rs1] + sign_ext);`. -/
def FLW (rd rs1 : Fin 32) (imm4 imm3 imm2 imm1 : Nat) (s : State) : State :=
  let offset : Nat := (imm4 <<< 11) ||| (imm3 <<< 5) ||| (imm2 <<< 1) ||| imm1
  let sign_ext : Int := sign_extend offset 12
  let loaded : ac_word := DM_read s (to_ac_word ((s.RB rs1).val + sign_ext))
  { s with RBF := Function.update s.RBF ⟨rd.val, by omega⟩ loaded }

/-- Behaviour `ac_behavior(FMV_S_X)`:
`memcpy(&RBF[rd], &RB[rs1], sizeof(uint32_t));`. -/
def FMV_S_X (rd rs1 : Fin 32) (s : State) : State :=
  { s with RBF := Function.update s.RBF ⟨rd.val, by omega⟩ (s.RB rs1) }

/-- Behaviour `ac_behavior(FSD)`:
`imm = (imm4 << 11) | (imm3 << 5) | (imm2 << 1) | imm1;
sign_ext = sign_extend(imm, 12); DM.write(RB[rs1] + sign_ext, RBF[rs2 * 2]);
DM.write(RB[rs1] + sign_ext + 4, RBF[rs2 * 2 + 1]);`. -/
def FSD (rs1 rs2 : Fin 32) (imm4 imm3 imm2 imm1 : Nat) (s : State) : State :=
  let imm : Nat := (imm4 <<< 11) ||| (imm3 <<< 5) ||| (imm2 <<< 1) ||| imm1
  let sign_ext : Int := sign_extend imm 12
  let s1 : State := DM_write s (to_ac_word ((s.RB rs1).val + sign_ext))
    (s.RBF ⟨rs2.val * 2, by omega⟩)
  DM_write s1 (to_ac_word ((s1.RB rs1).val + sign_ext + 4)) (s1.RBF ⟨rs2.val * 2 + 1, by omega⟩)

/-! ## Vector comparisons for order, and with an immediate -/

/-- Behaviour `ac_behavior(VMSLTVV)`:
`v0->set8( idx, ( v2->get8( idx ) < v1->get8( idx ) ) ? 1 : 0 )` and the same for
16 and 32 bits; both operands are the `uint32_t` the accessors return. -/
def VMSLTVV (vd rs1 rs2 : Fin 32) (s : State) : Option State :=
  VV_form vlmax_128 (fun _ a1 a2 => some (if a2 < a1 then 1 else 0)) vd.val rs1.val rs2.val s

/-- Behaviour `ac_behavior(VMSLEVV)`:
`v0->set8( idx, ( v2->get8( idx ) <= v1->get8( idx ) ) ? 1 : 0 )` and the same
for 16 and 32 bits. -/
def VMSLEVV (vd rs1 rs2 : Fin 32) (s : State) : Option State :=
  VV_form vlmax_128 (fun _ a1 a2 => some (if a2 ≤ a1 then 1 else 0)) vd.val rs1.val rs2.val s

/-- Behaviour `ac_behavior(VMSLTVX)`, with `v1 = &RBV[4 * rs2]`:
`v0->set8( idx, ( v1->get8( idx ) < RB[rs1] ) ? 1 : 0 )` and the same for 16 and
32 bits; the register is compared as it is. -/
def VMSLTVX (vd rs1 rs2 : Fin 32) (s : State) : Option State :=
  VX_form vlmax_128 (fun _ a => some (if a < (s.RB rs1).val then 1 else 0)) vd.val rs2.val s

/-- Behaviour `ac_behavior(VMSLEVX)`, with `v1 = &RBV[4 * rs2]`:
`v0->set8( idx, ( v1->get8( idx ) <= RB[rs1] ) ? 1 : 0 )` and the same for 16
and 32 bits. -/
def VMSLEVX (vd rs1 rs2 : Fin 32) (s : State) : Option State :=
  VX_form vlmax_128 (fun _ a => some (if a ≤ (s.RB rs1).val then 1 else 0)) vd.val rs2.val s

/-- Behaviour `ac_behavior(VMSEQVI)`: `v128 *v1 = ( v128 * ) &RBV[ 4 * rs1 ];
int imm = sign_extend( rs1, 5 );` and
`v0->set8( idx, ( v1->get8( idx ) == imm ) ? 1 : 0 )`, the same for 16 and 32
bits.  The source pointer is made from the field `rs1`, the field `rs2` is not
used; the comparison is between the `uint32_t` the accessor returns and the
`int`, which C++ converts to `unsigned int`. -/
def VMSEQVI (vd rs1 _rs2 : Fin 32) (s : State) : Option State :=
  VX_form vlmax_128
    (fun _ a => some (if a = (to_ac_word (sign_extend rs1.val 5)).val then 1 else 0))
    vd.val rs1.val s

/-- Behaviour `ac_behavior(VMSNEVI)`: as VMSEQVI with
`( v1->get8( idx ) != imm ) ? 1 : 0`. -/
def VMSNEVI (vd rs1 _rs2 : Fin 32) (s : State) : Option State :=
  VX_form vlmax_128
    (fun _ a => some (if a ≠ (to_ac_word (sign_extend rs1.val 5)).val then 1 else 0))
    vd.val rs1.val s

/-! ## Basic facts about words and field assembly -/

theorem to_ac_word_val (z : Int) : ((to_ac_word z).val : Int) = z % 2 ^ 32 := by
  unfold to_ac_word
  have h1 : 0 ≤ z % 2 ^ 32 := Int.emod_nonneg z (by norm_num)
  simp only []
  omega

theorem to_ac_word_eq_iff (x y : Int) :
    to_ac_word x = to_ac_word y ↔ x % 2 ^ 32 = y % 2 ^ 32 := by
  constructor
  · intro h
    have := congrArg (fun w : ac_word => (w.val : Int)) h
    simpa [to_ac_word_val] using this
  · intro h
    unfold to_ac_word
    simp only [h]

theorem to_ac_word_of_val (w : ac_word) : to_ac_word (w.val : Int) = w := by
  apply Fin.ext
  have h := to_ac_word_val (w.val : Int)
  have hw := w.isLt
  omega

theorem to_ac_word_natCast_val (n : Nat) (h : n < 2 ^ 32) :
    (to_ac_word (n : Int)).val = n := by
  have := to_ac_word_val (n : Int)
  omega

theorem to_ac_word_to_int (z : Int) : to_ac_word (to_int z) = to_ac_word z := by
  have h := to_ac_word_val z
  rw [to_ac_word_eq_iff]
  unfold to_int ac_Sword
  split <;> omega

theorem or_eq_add_of_dvd {a b i : Nat} (hb : b < 2 ^ i) (ha : 2 ^ i ∣ a) :
    a ||| b = a + b := by
  obtain ⟨k, rfl⟩ := ha
  exact (Nat.mul_add_lt_is_or hb k).symm

theorem SB_offset_eq (imm4 imm3 imm2 imm1 : Nat) (h4 : imm4 < 2) (h3 : imm3 < 2)
    (h2 : imm2 < 64) (h1 : imm1 < 16) :
    SB_offset imm4 imm3 imm2 imm1 =
      if imm4 = 1 then 0xFFFFE000 + 2 * (imm4 * 2 ^ 11 + imm3 * 2 ^ 10 + imm2 * 2 ^ 4 + imm1)
      else 2 * (imm4 * 2 ^ 11 + imm3 * 2 ^ 10 + imm2 * 2 ^ 4 + imm1) := by
  unfold SB_offset
  simp only [Nat.shiftLeft_eq]
  have e1 : imm4 * 2 ^ 11 ||| imm3 * 2 ^ 10 = imm4 * 2 ^ 11 + imm3 * 2 ^ 10 :=
    or_eq_add_of_dvd (i := 11) (by omega) (Dvd.intro_left _ rfl)
  have e2 : (imm4 * 2 ^ 11 + imm3 * 2 ^ 10) ||| imm2 * 2 ^ 4
      = imm4 * 2 ^ 11 + imm3 * 2 ^ 10 + imm2 * 2 ^ 4 :=
    or_eq_add_of_dvd (i := 10) (by omega) ⟨imm4 * 2 + imm3, by ring⟩
  have e3 : (imm4 * 2 ^ 11 + imm3 * 2 ^ 10 + imm2 * 2 ^ 4) ||| imm1
      = imm4 * 2 ^ 11 + imm3 * 2 ^ 10 + imm2 * 2 ^ 4 + imm1 :=
    or_eq_add_of_dvd (i := 4) (by omega) ⟨imm4 * 2 ^ 7 + imm3 * 2 ^ 6 + imm2, by ring⟩
  rw [e1, e2, e3]
  split
  · next h =>
    subst h
    have e4 : (1 * 2 ^ 11 + imm3 * 2 ^ 10 + imm2 * 2 ^ 4 + imm1) * 2 ^ 1
        = 2 ^ 12 ||| (2 * (imm3 * 2 ^ 10 + imm2 * 2 ^ 4 + imm1)) := by
      rw [or_eq_add_of_dvd (i := 12) (by omega) (dvd_refl _)]
      ring
    have e5 : (2 ^ 12 ||| 4294963200 : Nat) = 4294963200 := by decide
    rw [e4, Nat.or_assoc, Nat.or_comm _ 4294963200, ← Nat.or_assoc, e5,
      or_eq_add_of_dvd (i := 12) (by omega) ⟨1048575, by norm_num⟩]
    ring
  · ring

/-- The offset the branch behaviours add is the sign-extended SB-type offset,
modulo `2 ^ 32`. -/
theorem SB_offset_sign_extend (imm4 imm3 imm2 imm1 : Nat) (h4 : imm4 < 2) (h3 : imm3 < 2)
    (h2 : imm2 < 64) (h1 : imm1 < 16) (z : Int) :
    to_ac_word (z + (SB_offset imm4 imm3 imm2 imm1 : Nat)) =
      to_ac_word (z + SB_imm imm4 imm3 imm2 imm1) := by
  rw [to_ac_word_eq_iff, SB_offset_eq imm4 imm3 imm2 imm1 h4 h3 h2 h1]
  unfold SB_imm sign_extend
  by_cases h : imm4 = 1
  · subst h
    simp only [if_true]
    push_cast
    split <;> omega
  · have h0 : imm4 = 0 := by omega
    subst h0
    simp only [h, if_false]
    push_cast
    split <;> omega

@[simp] theorem setRB_RB_same (s : State) (r : Fin 32) (v : ac_word) :
    (s.setRB r v).RB r = v := by
  simp [State.setRB]

theorem setRB_RB_other (s : State) (r q : Fin 32) (v : ac_word) (h : q ≠ r) :
    (s.setRB r v).RB q = s.RB q := by
  simp [State.setRB, Function.update, h]

theorem instruction_RB_zero (s : State) : (instruction s).RB 0 = to_ac_word 0 := by
  simp [instruction]

theorem instruction_RB_other (s : State) (r : Fin 32) (h : r ≠ 0) :
    (instruction s).RB r = s.RB r := by
  simp [instruction, State.setRB, State.setPC, Function.update, h]

theorem instruction_ac_pc (s : State) :
    (instruction s).ac_pc = to_ac_word (s.ac_pc.val + 4) := by
  simp [instruction, State.setRB, State.setPC]

theorem instruction_same_rest (s : State) : s.same_rest (instruction s) := by
  simp [State.same_rest, instruction, State.setRB, State.setPC]

theorem JALR_RB (rd rs1 : Fin 32) (imm4 imm3 imm2 imm1 : Nat) (s : State) (q : Fin 32) :
    (JALR rd rs1 imm4 imm3 imm2 imm1 s).RB q =
      if q = rd ∧ rd ≠ 0 then s.ac_pc else s.RB q := by
  unfold JALR
  by_cases hrd : rd = 0
  · simp [hrd, State.setPC]
  · by_cases hq : q = rd
    · subst hq
      simp [hrd, State.setPC, State.setRB]
    · simp [hrd, hq, State.setPC, State.setRB, Function.update]

theorem JAL_RB (rd : Fin 32) (imm4 imm3 imm2 imm1 : Nat) (s : State) (q : Fin 32) :
    (JAL rd imm4 imm3 imm2 imm1 s).RB q =
      if q = rd ∧ rd ≠ 0 then s.ac_pc else s.RB q := by
  unfold JAL
  by_cases hrd : rd = 0
  · simp [hrd, State.setPC]
  · by_cases hq : q = rd
    · subst hq
      simp [hrd, State.setPC, State.setRB]
    · simp [hrd, hq, State.setPC, State.setRB, Function.update]

/-- C4: when `x[rs2]` is 0, for every value of `x[rs1]` (and every choice of
`rd`, `rs1`, `rs2`), DIV and DIVU write `0xFFFFFFFF` to `rd`, and REM and REMU
write the value of `x[rs1]` to `rd`. -/
theorem div_rem_by_zero (s : State) (rd rs1 rs2 : Fin 32) (h : s.RB rs2 = to_ac_word 0) :
    DIV rd rs1 rs2 s = some (s.setRB rd (to_ac_word 0xFFFFFFFF)) ∧
      DIVU rd rs1 rs2 s = s.setRB rd (to_ac_word 0xFFFFFFFF) ∧
      REM rd rs1 rs2 s = s.setRB rd (s.RB rs1) ∧
      REMU rd rs1 rs2 s = s.setRB rd (s.RB rs1) ∧
      ((s.setRB rd (to_ac_word 0xFFFFFFFF)).RB rd).val = 0xFFFFFFFF ∧
      (s.setRB rd (s.RB rs1)).RB rd = s.RB rs1 := by
  have e : to_ac_word (-1) = to_ac_word 0xFFFFFFFF := by decide
  refine ⟨?_, ?_, ?_, ?_, ?_, ?_⟩
  · simp [DIV, h, e]
  · simp [DIVU, h, e]
  · simp [REM, h]
  · simp [REMU, h]
  · rw [setRB_RB_same]; decide
  · rw [setRB_RB_same]

/-- Witness for `div_rem_by_zero`: `DIV x3, x1, x0` and `REM x3, x1, x0` with
`x1 = 5` executed as full steps leave `0xFFFFFFFF` and 5 in `x3`. -/
theorem div_rem_by_zero_witness :
    (step (Instr.DIV 3 1 0) ((state_at 0x1000).setRB 1 (to_ac_word 5))).map
        (fun t => (t.RB 3).val) = some 0xFFFFFFFF ∧
      (step (Instr.REM 3 1 0) ((state_at 0x1000).setRB 1 (to_ac_word 5))).map
        (fun t => (t.RB 3).val) = some 5 := by
  have h := div_rem_by_zero (instruction ((state_at 0x1000).setRB 1 (to_ac_word 5))) 3 1 0
    (instruction_RB_zero _)
  refine ⟨?_, ?_⟩
  · simp only [step, behavior, h.1, Option.map_some', h.2.2.2.2.1]
  · simp only [step, behavior, h.2.2.1, Option.map_some', h.2.2.2.2.2]
    decide

/-- C2 (the code at the failing input): with `x1 = 0xFFFFFFE1` (-31) and
`x2 = 0xFFFFFFFF` (-1), a pair with non-zero divisor that is not
(INT32_MIN, -1), DIV writes -31 and REM writes 0, so that
`DIV·x2 + REM` is 31 and not -31.  With `x1 = 0xFFFFFFF9` (-7) and `x2 = 2`, DIV
writes -3 and REM writes 1 (the unsigned remainder), so that `DIV·x2 + REM` is
-5 and not -7. -/
theorem DIV_REM_identity_fails :
    ac_Sword ((state_regs 0xFFFFFFE1 0xFFFFFFFF 0).RB 1) = -31 ∧
      ac_Sword ((state_regs 0xFFFFFFE1 0xFFFFFFFF 0).RB 2) = -1 ∧
      (DIV 3 1 2 (state_regs 0xFFFFFFE1 0xFFFFFFFF 0)).map (fun t => ac_Sword (t.RB 3))
        = some (-31) ∧
      ac_Sword ((REM 3 1 2 (state_regs 0xFFFFFFE1 0xFFFFFFFF 0)).RB 3) = 0 ∧
      (DIV 3 1 2 (state_regs 0xFFFFFFE1 0xFFFFFFFF 0)).map (fun t =>
        to_int (ac_Sword (t.RB 3) * ac_Sword ((state_regs 0xFFFFFFE1 0xFFFFFFFF 0).RB 2)
          + ac_Sword ((REM 3 1 2 (state_regs 0xFFFFFFE1 0xFFFFFFFF 0)).RB 3))) = some 31 ∧
      ac_Sword ((state_regs 0xFFFFFFF9 2 0).RB 1) = -7 ∧
      ac_Sword ((state_regs 0xFFFFFFF9 2 0).RB 2) = 2 ∧
      (DIV 3 1 2 (state_regs 0xFFFFFFF9 2 0)).map (fun t => ac_Sword (t.RB 3)) = some (-3) ∧
      ac_Sword ((REM 3 1 2 (state_regs 0xFFFFFFF9 2 0)).RB 3) = 1 ∧
      (DIV 3 1 2 (state_regs 0xFFFFFFF9 2 0)).map (fun t =>
        to_int (ac_Sword (t.RB 3) * ac_Sword ((state_regs 0xFFFFFFF9 2 0).RB 2)
          + ac_Sword ((REM 3 1 2 (state_regs 0xFFFFFFF9 2 0)).RB 3))) = some (-5) := by
  decide

/-- C3 (the code at the failing input): with `x1 = 0xFFFFFFE1`,
`x2 = 0xFFFFFFFF` and 7 in `x3` beforehand, DIVU and REMU both leave 7 in `x3`
(neither writes `rd`), and `DIVU·x2 + REMU` is not `x1`, neither exactly nor
modulo `2 ^ 32`. -/
theorem DIVU_REMU_identity_fails :
    ((state_regs 0xFFFFFFE1 0xFFFFFFFF 7).RB 1).val = 0xFFFFFFE1 ∧
      ((state_regs 0xFFFFFFE1 0xFFFFFFFF 7).RB 2).val = 0xFFFFFFFF ∧
      ((state_regs 0xFFFFFFE1 0xFFFFFFFF 7).RB 3).val = 7 ∧
      ((DIVU 3 1 2 (state_regs 0xFFFFFFE1 0xFFFFFFFF 7)).RB 3).val = 7 ∧
      ((REMU 3 1 2 (state_regs 0xFFFFFFE1 0xFFFFFFFF 7)).RB 3).val = 7 ∧
      ((DIVU 3 1 2 (state_regs 0xFFFFFFE1 0xFFFFFFFF 7)).RB 3).val
          * ((state_regs 0xFFFFFFE1 0xFFFFFFFF 7).RB 2).val
          + ((REMU 3 1 2 (state_regs 0xFFFFFFE1 0xFFFFFFFF 7)).RB 3).val
        ≠ ((state_regs 0xFFFFFFE1 0xFFFFFFFF 7).RB 1).val ∧
      to_ac_word (((DIVU 3 1 2 (state_regs 0xFFFFFFE1 0xFFFFFFFF 7)).RB 3).val
          * ((state_regs 0xFFFFFFE1 0xFFFFFFFF 7).RB 2).val
          + ((REMU 3 1 2 (state_regs 0xFFFFFFE1 0xFFFFFFFF 7)).RB 3).val : Nat)
        ≠ (state_regs 0xFFFFFFE1 0xFFFFFFFF 7).RB 1 := by
  decide

/-- Away from the operand pair `(0xFFFFFFE1, 0xFFFFFFFF)`, DIVU and REMU with a
non-zero divisor write the unsigned quotient and remainder: `q·v + r = u` and
`r < v`. -/
theorem DIVU_REMU_identity_elsewhere (s : State) (rd rs1 rs2 : Fin 32)
    (hv : (s.RB rs2).val ≠ 0)
    (hx : ¬ ((s.RB rs1).val = 0xFFFFFFE1 ∧ (s.RB rs2).val = 0xFFFFFFFF)) :
    ((DIVU rd rs1 rs2 s).RB rd).val * (s.RB rs2).val + ((REMU rd rs1 rs2 s).RB rd).val
        = (s.RB rs1).val ∧
      ((REMU rd rs1 rs2 s).RB rd).val < (s.RB rs2).val := by
  have h0 : ¬ s.RB rs2 = to_ac_word 0 := by
    intro h
    apply hv
    rw [h]
    decide
  have h1 : ¬ (s.RB rs1 = to_ac_word (Int.xor (-2) 31) ∧ s.RB rs2 = to_ac_word (-1)) := by
    rintro ⟨ha, hb⟩
    apply hx
    rw [ha, hb]
    decide
  have hu := (s.RB rs1).isLt
  have hq : (s.RB rs1).val / (s.RB rs2).val < 2 ^ 32 :=
    lt_of_le_of_lt (Nat.div_le_self _ _) hu
  have hr : (s.RB rs1).val % (s.RB rs2).val < (s.RB rs2).val :=
    Nat.mod_lt _ (Nat.pos_of_ne_zero hv)
  have hr2 : (s.RB rs1).val % (s.RB rs2).val < 2 ^ 32 :=
    lt_of_le_of_lt (Nat.mod_le _ _) hu
  have eq := to_ac_word_natCast_val _ hq
  have er := to_ac_word_natCast_val _ hr2
  simp only [DIVU, REMU, h0, h1, if_false, setRB_RB_same, ac_Uword, eq, er]
  exact ⟨Nat.div_add_mod' _ _, hr⟩

/-- Witness for `DIVU_REMU_identity_elsewhere`: 17 divided by 5. -/
theorem DIVU_REMU_identity_elsewhere_witness :
    ((DIVU 3 1 2 (((state_at 0x1000).setRB 1 (to_ac_word 17)).setRB 2
        (to_ac_word 5))).RB 3).val * 5 +
      ((REMU 3 1 2 (((state_at 0x1000).setRB 1 (to_ac_word 17)).setRB 2
        (to_ac_word 5))).RB 3).val = 17 :=
  (DIVU_REMU_identity_elsewhere (((state_at 0x1000).setRB 1 (to_ac_word 17)).setRB 2
    (to_ac_word 5)) 3 1 2 (by decide) (by decide)).1

/-- C5 (the code at the failing input): with `x1 = 0xFFFFFFE1` (-31) and
`x2 = 0xFFFFFFFF` (-1), a pair with non-zero divisor other than
`(0x80000000, 0xFFFFFFFF)`, DIV writes `0xFFFFFFE1` although the exact quotient
truncated toward zero is 31; with `x1 = 0x80000000` and `x2 = 0xFFFFFFFF` the
behaviour reaches the C++ division `INT_MIN / -1`, which has no defined result,
and does not write `0x80000000`. -/
theorem DIV_overflow_guard_wrong_constant :
    ((state_regs 0xFFFFFFE1 0xFFFFFFFF 0).RB 1).val = 0xFFFFFFE1 ∧
      ((state_regs 0xFFFFFFE1 0xFFFFFFFF 0).RB 2).val = 0xFFFFFFFF ∧
      (DIV 3 1 2 (state_regs 0xFFFFFFE1 0xFFFFFFFF 0)).map (fun t => (t.RB 3).val)
        = some 0xFFFFFFE1 ∧
      (to_ac_word (Int.tdiv (ac_Sword ((state_regs 0xFFFFFFE1 0xFFFFFFFF 0).RB 1))
        (ac_Sword ((state_regs 0xFFFFFFE1 0xFFFFFFFF 0).RB 2)))).val = 31 ∧
      ((state_regs 0x80000000 0xFFFFFFFF 0).RB 1).val = 0x80000000 ∧
      ((state_regs 0x80000000 0xFFFFFFFF 0).RB 2).val = 0xFFFFFFFF ∧
      (DIV 3 1 2 (state_regs 0x80000000 0xFFFFFFFF 0)).map (fun t => (t.RB 3).val)
        = none := by
  decide

theorem JAL_offset_eq (imm4 imm3 imm2 imm1 : Nat) (h4 : imm4 < 2) (h3 : imm3 < 256)
    (h2 : imm2 < 2) (h1 : imm1 < 1024) :
    JAL_offset imm4 imm3 imm2 imm1 =
      if imm4 = 1 then 0xFFE00000 + 2 * (imm4 * 2 ^ 19 + imm3 * 2 ^ 11 + imm2 * 2 ^ 10 + imm1)
      else 2 * (imm4 * 2 ^ 19 + imm3 * 2 ^ 11 + imm2 * 2 ^ 10 + imm1) := by
  unfold JAL_offset
  simp only [Nat.shiftLeft_eq]
  have e1 : imm4 * 2 ^ 19 ||| imm3 * 2 ^ 11 = imm4 * 2 ^ 19 + imm3 * 2 ^ 11 :=
    or_eq_add_of_dvd (i := 19) (by omega) (Dvd.intro_left _ rfl)
  have e2 : (imm4 * 2 ^ 19 + imm3 * 2 ^ 11) ||| imm2 * 2 ^ 10
      = imm4 * 2 ^ 19 + imm3 * 2 ^ 11 + imm2 * 2 ^ 10 :=
    or_eq_add_of_dvd (i := 11) (by omega) ⟨imm4 * 2 ^ 8 + imm3, by ring⟩
  have e3 : (imm4 * 2 ^ 19 + imm3 * 2 ^ 11 + imm2 * 2 ^ 10) ||| imm1
      = imm4 * 2 ^ 19 + imm3 * 2 ^ 11 + imm2 * 2 ^ 10 + imm1 :=
    or_eq_add_of_dvd (i := 10) (by omega) ⟨imm4 * 2 ^ 9 + imm3 * 2 + imm2, by ring⟩
  rw [e1, e2, e3]
  split
  · next h =>
    subst h
    have e4 : (1 * 2 ^ 19 + imm3 * 2 ^ 11 + imm2 * 2 ^ 10 + imm1) * 2 ^ 1
        = 2 ^ 20 ||| (2 * (imm3 * 2 ^ 11 + imm2 * 2 ^ 10 + imm1)) := by
      rw [or_eq_add_of_dvd (i := 20) (by omega) (dvd_refl _)]
      ring
    have e5 : (2 ^ 20 ||| 4293918720 : Nat) = 4293918720 := by decide
    rw [e4, Nat.or_assoc, Nat.or_comm _ 4293918720, ← Nat.or_assoc, e5,
      or_eq_add_of_dvd (i := 20) (by omega) ⟨4095, by norm_num⟩]
    ring
  · ring

/-- The offset the JAL behaviour adds is the sign-extended UJ-type offset, modulo
`2 ^ 32`. -/
theorem JAL_offset_sign_extend (imm4 imm3 imm2 imm1 : Nat) (h4 : imm4 < 2) (h3 : imm3 < 256)
    (h2 : imm2 < 2) (h1 : imm1 < 1024) (z : Int) :
    to_ac_word (z + (JAL_offset imm4 imm3 imm2 imm1 : Nat)) =
      to_ac_word (z + UJ_imm imm4 imm3 imm2 imm1) := by
  rw [to_ac_word_eq_iff, JAL_offset_eq imm4 imm3 imm2 imm1 h4 h3 h2 h1]
  unfold UJ_imm sign_extend
  by_cases h : imm4 = 1
  · subst h
    simp only [if_true]
    push_cast
    split <;> omega
  · have h0 : imm4 = 0 := by omega
    subst h0
    simp only [h, if_false]
    push_cast
    split <;> omega

/-- What JAL does to the program counter: the sum of the instruction's own
address (`ac_pc - 4`) and the sign-extended offset, reduced modulo `2 ^ 32`, is
OR-ed with the top four bits of the incremented program counter. -/
theorem JAL_ac_pc (s : State) (rd : Fin 32) (imm4 imm3 imm2 imm1 : Nat) (h4 : imm4 < 2)
    (h3 : imm3 < 256) (h2 : imm2 < 2) (h1 : imm1 < 1024) :
    (JAL rd imm4 imm3 imm2 imm1 s).ac_pc =
      to_ac_word (((s.ac_pc.val &&& 0xF0000000) |||
        (to_ac_word ((s.ac_pc.val : Int) - 4 + UJ_imm imm4 imm3 imm2 imm1)).val : Nat)) := by
  have e : to_ac_word (to_int ((s.ac_pc.val : Int) + (JAL_offset imm4 imm3 imm2 imm1 : Nat) - 4))
      = to_ac_word ((s.ac_pc.val : Int) - 4 + UJ_imm imm4 imm3 imm2 imm1) := by
    rw [to_ac_word_to_int, ← JAL_offset_sign_extend imm4 imm3 imm2 imm1 h4 h3 h2 h1]
    congr 1
    ring
  unfold JAL
  simp only [State.setPC, e]

/-- Witness for `JAL_ac_pc`: a JAL at `0x1000` with offset 8. -/
theorem JAL_ac_pc_witness :
    (JAL 1 0 0 0 4 (instruction (state_at 0x1000))).ac_pc =
      to_ac_word ((((instruction (state_at 0x1000)).ac_pc.val &&& 0xF0000000) |||
        (to_ac_word (((instruction (state_at 0x1000)).ac_pc.val : Int) - 4
          + UJ_imm 0 0 0 4)).val : Nat)) :=
  JAL_ac_pc (instruction (state_at 0x1000)) 1 0 0 0 4 (by decide) (by decide) (by decide)
    (by decide)

/-- C6 (the code at the failing input): a JAL at address `0x10000000` with offset
-8 (fields `imm4 = 1`, `imm3 = 0xFF`, `imm2 = 1`, `imm1 = 0x3FC`) leaves the
program counter at `0x1FFFFFF8`, not at `0x10000000 - 8 = 0x0FFFFFF8`; a JAL at
`0x0FFFFFFC` with offset 0 leaves it at `0x1FFFFFFC`, not at `0x0FFFFFFC`. -/
theorem JAL_target_fails :
    (state_at 0x10000000).ac_pc.val = 0x10000000 ∧
      (step (Instr.JAL 0 1 0xFF 1 0x3FC) (state_at 0x10000000)).map (fun t => t.ac_pc.val)
        = some 0x1FFFFFF8 ∧
      UJ_imm 1 0xFF 1 0x3FC = -8 ∧
      (to_ac_word ((state_at 0x10000000).ac_pc.val + UJ_imm 1 0xFF 1 0x3FC)).val
        = 0x0FFFFFF8 ∧
      (state_at 0x0FFFFFFC).ac_pc.val = 0x0FFFFFFC ∧
      (step (Instr.JAL 0 0 0 0 0) (state_at 0x0FFFFFFC)).map (fun t => t.ac_pc.val)
        = some 0x1FFFFFFC ∧
      UJ_imm 0 0 0 0 = 0 ∧
      (to_ac_word ((state_at 0x0FFFFFFC).ac_pc.val + UJ_imm 0 0 0 0)).val
        = 0x0FFFFFFC := by
  have e1 : UJ_imm 1 0xFF 1 0x3FC = -8 := by
    norm_num [UJ_imm, sign_extend]
  have e2 : UJ_imm 0 0 0 0 = 0 := by
    norm_num [UJ_imm, sign_extend]
  refine ⟨by decide, by decide, e1, ?_, by decide, by decide, e2, ?_⟩
  · rw [e1]; decide
  · rw [e2]; decide

/-- C7: for JAL and for JALR with `rd ≠ 0`, whatever the immediate fields and
(for JALR) the base register, after the instruction `rd` holds the incremented
program counter the body saw, which is the address of the jump plus 4. -/
theorem JAL_JALR_link (s : State) (rd rs1 : Fin 32) (imm4 imm3 imm2 imm1 : Nat)
    (hrd : rd ≠ 0) :
    (JAL rd imm4 imm3 imm2 imm1 s).RB rd = s.ac_pc ∧
      (JALR rd rs1 imm4 imm3 imm2 imm1 s).RB rd = s.ac_pc ∧
      (step (Instr.JAL rd imm4 imm3 imm2 imm1) s).map (fun t => t.RB rd)
        = some (to_ac_word (s.ac_pc.val + 4)) ∧
      (step (Instr.JALR rd rs1 imm4 imm3 imm2 imm1) s).map (fun t => t.RB rd)
        = some (to_ac_word (s.ac_pc.val + 4)) := by
  refine ⟨?_, ?_, ?_, ?_⟩
  · rw [JAL_RB]; simp [hrd]
  · rw [JALR_RB]; simp [hrd]
  · simp only [step, behavior, Option.map_some', JAL_RB, instruction_ac_pc]
    simp [hrd]
  · simp only [step, behavior, Option.map_some', JALR_RB, instruction_ac_pc]
    simp [hrd]

/-- Witness for `JAL_JALR_link`: `JAL x1, +8` and `JALR x1, x1, 0` at `0x1000`
leave `0x1004` in `x1`. -/
theorem JAL_JALR_link_witness :
    (step (Instr.JAL 1 0 0 0 4) (state_at 0x1000)).map (fun t => t.RB 1)
        = some (to_ac_word (0x1004)) ∧
      (step (Instr.JALR 1 1 0 0 0 0) (state_at 0x1000)).map (fun t => t.RB 1)
        = some (to_ac_word (0x1004)) :=
  ⟨(JAL_JALR_link (state_at 0x1000) 1 1 0 0 0 4 (by decide)).2.2.1,
    (JAL_JALR_link (state_at 0x1000) 1 1 0 0 0 0 (by decide)).2.2.2⟩

/-- C8 (as stated, refuted): the full step of `ADD x0, x1, x2` from a state with
`x1 = 1` returns a state in which `x[0]` holds 1; the full step of a JAL with
`rd = 0` from that state leaves 0 in `x[0]`, so it does not leave every integer
register `x[0..31]` unchanged. -/
theorem JAL_rd0_registers_counterexample :
    step (Instr.ADD 0 1 2) ((state_at 0x1000).setRB 1 (to_ac_word 1))
        = some (ADD 0 1 2 (instruction ((state_at 0x1000).setRB 1 (to_ac_word 1)))) ∧
      ((ADD 0 1 2 (instruction ((state_at 0x1000).setRB 1 (to_ac_word 1)))).RB 0).val = 1 ∧
      (step (Instr.JAL 0 0 0 0 4)
        (ADD 0 1 2 (instruction ((state_at 0x1000).setRB 1 (to_ac_word 1))))).map
          (fun t => (t.RB 0).val) = some 0 ∧
      ¬ ∀ (s : State) (imm4 imm3 imm2 imm1 : Nat) (t : State),
          step (Instr.JAL 0 imm4 imm3 imm2 imm1) s = some t → t.RB = s.RB := by
  refine ⟨rfl, by decide, by decide, fun h => ?_⟩
  have h1 := h (ADD 0 1 2 (instruction ((state_at 0x1000).setRB 1 (to_ac_word 1))))
    0 0 0 4 _ rfl
  have h2 := congrFun h1 0
  revert h2
  decide

/-- C8 (amended): for every state, the full step of a JAL with `rd = 0` returns a
state in which every integer register `x[1..31]`, every `f` and `v` register,
every CSR and the memory are unchanged and `x[0]` is 0 (so `x[0]` too is
unchanged whenever it was 0 before the step); the body of JAL itself changes
nothing but the program counter. -/
theorem JAL_rd0_frame (s : State) (imm4 imm3 imm2 imm1 : Nat) :
    (∃ t, step (Instr.JAL 0 imm4 imm3 imm2 imm1) s = some t ∧
        (∀ r, r ≠ 0 → t.RB r = s.RB r) ∧ t.RB 0 = to_ac_word 0 ∧
        (s.RB 0 = to_ac_word 0 → t.RB = s.RB) ∧ s.same_rest t) ∧
      JAL 0 imm4 imm3 imm2 imm1 s = s.setPC (JAL 0 imm4 imm3 imm2 imm1 s).ac_pc := by
  have hb : ∀ u : State, JAL 0 imm4 imm3 imm2 imm1 u
      = u.setPC (JAL 0 imm4 imm3 imm2 imm1 u).ac_pc := by
    intro u
    simp [JAL, State.setPC]
  refine ⟨⟨_, rfl, ?_, ?_, ?_, ?_⟩, hb s⟩
  · intro r hr
    rw [JAL_RB]
    simp only [ne_eq, not_true_eq_false, and_false, if_false]
    exact instruction_RB_other s r hr
  · rw [JAL_RB]
    simp only [ne_eq, not_true_eq_false, and_false, if_false]
    exact instruction_RB_zero s
  · intro h0
    funext r
    rw [JAL_RB]
    simp only [ne_eq, not_true_eq_false, and_false, if_false]
    by_cases hr : r = 0
    · rw [hr, instruction_RB_zero, h0]
    · exact instruction_RB_other s r hr
  · rw [hb]
    exact instruction_same_rest s

/-- Witness for `JAL_rd0_frame`: from the initial state at `0x1000`, where
`x[0]` is 0, the step of `JAL x0, +8` returns a state with the same integer
registers. -/
theorem JAL_rd0_frame_witness :
    ∃ t, step (Instr.JAL 0 0 0 0 4) (state_at 0x1000) = some t ∧
      t.RB = (state_at 0x1000).RB := by
  obtain ⟨t, ht, _, _, h, _⟩ := (JAL_rd0_frame (state_at 0x1000) 0 0 0 4).1
  exact ⟨t, ht, h rfl⟩

theorem I_field_eq (imm4 imm3 imm2 imm1 : Nat) (h3 : imm3 < 64) (h2 : imm2 < 16)
    (h1 : imm1 < 2) :
    (imm4 <<< 11) ||| (imm3 <<< 5) ||| (imm2 <<< 1) ||| imm1
      = imm4 * 2 ^ 11 + imm3 * 2 ^ 5 + imm2 * 2 + imm1 := by
  simp only [Nat.shiftLeft_eq]
  have e1 : imm4 * 2 ^ 11 ||| imm3 * 2 ^ 5 = imm4 * 2 ^ 11 + imm3 * 2 ^ 5 :=
    or_eq_add_of_dvd (i := 11) (by omega) (Dvd.intro_left _ rfl)
  have e2 : (imm4 * 2 ^ 11 + imm3 * 2 ^ 5) ||| imm2 * 2 ^ 1
      = imm4 * 2 ^ 11 + imm3 * 2 ^ 5 + imm2 * 2 ^ 1 :=
    or_eq_add_of_dvd (i := 5) (by omega) ⟨imm4 * 2 ^ 6 + imm3, by ring⟩
  have e3 : (imm4 * 2 ^ 11 + imm3 * 2 ^ 5 + imm2 * 2 ^ 1) ||| imm1
      = imm4 * 2 ^ 11 + imm3 * 2 ^ 5 + imm2 * 2 ^ 1 + imm1 :=
    or_eq_add_of_dvd (i := 1) (by omega) ⟨imm4 * 2 ^ 10 + imm3 * 2 ^ 4 + imm2, by ring⟩
  rw [e1, e2, e3, pow_one]

theorem clear_bit0 (w : ac_word) :
    (to_ac_word ((ac_Sword w >>> (1 : Nat)) <<< 1)).val = w.val - w.val % 2 := by
  have hs : (ac_Sword w >>> (1 : Nat)) <<< 1 = ac_Sword w / 2 * 2 := by
    have := Int.shiftLeft_eq_mul_pow (ac_Sword w >>> (1 : Nat)) 1
    simp only [Nat.cast_one, pow_one, Nat.cast_ofNat] at this
    rw [this, Int.shiftRight_eq_div_pow]
    simp
  rw [hs]
  have hw := w.isLt
  by_cases h : w.val < 2 ^ 31
  · have hS : ac_Sword w = (w.val : Int) := by
      unfold ac_Sword
      rw [if_pos h]
    have hz := to_ac_word_val ((w.val : Int) / 2 * 2)
    rw [hS]
    omega
  · have hS : ac_Sword w = (w.val : Int) - 2 ^ 32 := by
      unfold ac_Sword
      rw [if_neg h]
    have hz := to_ac_word_val (((w.val : Int) - 2 ^ 32) / 2 * 2)
    rw [hS]
    omega

/-- Every value in the 12-bit signed range is the I-type immediate of some field
values. -/
theorem I_imm_covers (o : Int) (hlo : -2048 ≤ o) (hhi : o < 2048) :
    ∃ imm4 imm3 imm2 imm1 : Nat, imm4 < 2 ∧ imm3 < 64 ∧ imm2 < 16 ∧ imm1 < 2 ∧
      I_imm imm4 imm3 imm2 imm1 = o := by
  refine ⟨((o % 4096) / 2048).toNat, ((o % 2048) / 32).toNat, ((o % 32) / 2).toNat,
    (o % 2).toNat, by omega, by omega, by omega, by omega, ?_⟩
  unfold I_imm sign_extend
  push_cast
  have e1 : (((o % 4096) / 2048).toNat : Int) = (o % 4096) / 2048 := by omega
  have e2 : (((o % 2048) / 32).toNat : Int) = (o % 2048) / 32 := by omega
  have e3 : (((o % 32) / 2).toNat : Int) = (o % 32) / 2 := by omega
  have e4 : ((o % 2).toNat : Int) = o % 2 := by omega
  rw [e1, e2, e3, e4]
  split <;> omega

/-- C9: for every value `v` of `x[rs1]` and every 12-bit immediate, JALR sets the
program counter to `(v + sign-extended imm) mod 2^32` with bit 0 cleared, where
`v` is the value of `rs1` before the link write (`rd` and `rs1` are arbitrary,
`rd = rs1` included; `imm4` is the sign bit of the immediate). -/
theorem JALR_target (s : State) (rd rs1 : Fin 32) (imm4 imm3 imm2 imm1 : Nat)
    (h3 : imm3 < 64) (h2 : imm2 < 16) (h1 : imm1 < 2) :
    (JALR rd rs1 imm4 imm3 imm2 imm1 s).ac_pc.val =
      (to_ac_word ((s.RB rs1).val + I_imm imm4 imm3 imm2 imm1)).val
        - (to_ac_word ((s.RB rs1).val + I_imm imm4 imm3 imm2 imm1)).val % 2 := by
  have hpc : (JALR rd rs1 imm4 imm3 imm2 imm1 s).ac_pc =
      to_ac_word (to_int ((ac_Sword (to_ac_word ((s.RB rs1).val + I_imm imm4 imm3 imm2 imm1))
        >>> (1 : Nat)) <<< 1)) := by
    unfold JALR I_imm
    simp only [I_field_eq imm4 imm3 imm2 imm1 h3 h2 h1, State.setPC, to_int]
  rw [hpc, to_ac_word_to_int]
  exact clear_bit0 _

/-- Witness for `JALR_target`: `JALR x1, x1, 3` with `x1 = 0x2000` jumps to
`0x2002`. -/
theorem JALR_target_witness :
    (JALR 1 1 0 0 1 1 (instruction ((state_at 0x1000).setRB 1 (to_ac_word 0x2000)))).ac_pc.val
      = 0x2002 := by
  rw [JALR_target _ 1 1 0 0 1 1 (by decide) (by decide) (by decide)]
  decide

/-- Every even offset in the 13-bit signed range is the SB-type offset of some
field values. -/
theorem SB_imm_covers (o : Int) (hlo : -4096 ≤ o) (hhi : o < 4096) (hev : o % 2 = 0) :
    ∃ imm4 imm3 imm2 imm1 : Nat, imm4 < 2 ∧ imm3 < 2 ∧ imm2 < 64 ∧ imm1 < 16 ∧
      SB_imm imm4 imm3 imm2 imm1 = o := by
  refine ⟨((o % 8192) / 4096).toNat, ((o % 4096) / 2048).toNat, ((o % 2048) / 32).toNat,
    ((o % 32) / 2).toNat, by omega, by omega, by omega, by omega, ?_⟩
  unfold SB_imm sign_extend
  push_cast
  have e1 : (((o % 8192) / 4096).toNat : Int) = (o % 8192) / 4096 := by omega
  have e2 : (((o % 4096) / 2048).toNat : Int) = (o % 4096) / 2048 := by omega
  have e3 : (((o % 2048) / 32).toNat : Int) = (o % 2048) / 32 := by omega
  have e4 : (((o % 32) / 2).toNat : Int) = (o % 32) / 2 := by omega
  rw [e1, e2, e3, e4]
  split <;> omega

theorem SB_addr_eq (s : State) (a : ac_word) (imm4 imm3 imm2 imm1 : Nat) (h4 : imm4 < 2)
    (h3 : imm3 < 2) (h2 : imm2 < 64) (h1 : imm1 < 16)
    (hpc : s.ac_pc = to_ac_word (a.val + 4)) :
    SB_addr imm4 imm3 imm2 imm1 s = to_ac_word (a.val + SB_imm imm4 imm3 imm2 imm1) := by
  unfold SB_addr
  have e : ((s.ac_pc.val : Int) + (SB_offset imm4 imm3 imm2 imm1 : Nat) - 4)
      = ((s.ac_pc.val : Int) - 4) + (SB_offset imm4 imm3 imm2 imm1 : Nat) := by ring
  rw [e, SB_offset_sign_extend imm4 imm3 imm2 imm1 h4 h3 h2 h1, to_ac_word_eq_iff]
  have hv := to_ac_word_val ((a.val : Int) + 4)
  rw [← hpc] at hv
  omega

/-- C10: for each of BEQ, BNE, BLT, BGE, BLTU, BGEU at instruction address `a`
(the body sees the program counter `a + 4`) with SB-type offset `o`: when its
condition holds on `x[rs1]`, `x[rs2]` (equal, not equal, signed `<`, signed `≥`,
unsigned `<`, unsigned `≥`) the program counter becomes `(a + o) mod 2^32`,
otherwise it is `a + 4`; in both cases no register is modified. -/
theorem branch_semantics (s : State) (a : ac_word) (rs1 rs2 : Fin 32)
    (imm4 imm3 imm2 imm1 : Nat) (h4 : imm4 < 2) (h3 : imm3 < 2) (h2 : imm2 < 64)
    (h1 : imm1 < 16) (hpc : s.ac_pc = to_ac_word (a.val + 4)) :
    branch_post s a (s.RB rs1 = s.RB rs2) (SB_imm imm4 imm3 imm2 imm1)
        (BEQ rs1 rs2 imm4 imm3 imm2 imm1 s) ∧
      branch_post s a (s.RB rs1 ≠ s.RB rs2) (SB_imm imm4 imm3 imm2 imm1)
        (BNE rs1 rs2 imm4 imm3 imm2 imm1 s) ∧
      branch_post s a (ac_Sword (s.RB rs1) < ac_Sword (s.RB rs2)) (SB_imm imm4 imm3 imm2 imm1)
        (BLT rs1 rs2 imm4 imm3 imm2 imm1 s) ∧
      branch_post s a (ac_Sword (s.RB rs1) ≥ ac_Sword (s.RB rs2)) (SB_imm imm4 imm3 imm2 imm1)
        (BGE rs1 rs2 imm4 imm3 imm2 imm1 s) ∧
      branch_post s a ((s.RB rs1).val < (s.RB rs2).val) (SB_imm imm4 imm3 imm2 imm1)
        (BLTU rs1 rs2 imm4 imm3 imm2 imm1 s) ∧
      branch_post s a ((s.RB rs1).val ≥ (s.RB rs2).val) (SB_imm imm4 imm3 imm2 imm1)
        (BGEU rs1 rs2 imm4 imm3 imm2 imm1 s) := by
  have hA := SB_addr_eq s a imm4 imm3 imm2 imm1 h4 h3 h2 h1 hpc
  have hB : to_ac_word (to_int ((s.ac_pc.val : Int) + (SB_offset imm4 imm3 imm2 imm1 : Nat) - 4))
      = to_ac_word (a.val + SB_imm imm4 imm3 imm2 imm1) := by
    rw [to_ac_word_to_int]
    exact hA
  have post : ∀ (c : Prop) [Decidable c],
      branch_post s a c (SB_imm imm4 imm3 imm2 imm1)
        (if c then s.setPC (to_ac_word (a.val + SB_imm imm4 imm3 imm2 imm1)) else s) := by
    intro c _
    by_cases hc : c
    · simp [branch_post, hc, State.setPC, State.same_rest]
    · simp [branch_post, hc, hpc, State.same_rest]
  refine ⟨?_, ?_, ?_, ?_, ?_, ?_⟩
  · simpa only [BEQ, hA] using post (s.RB rs1 = s.RB rs2)
  · simpa only [BNE, hA] using post (s.RB rs1 ≠ s.RB rs2)
  · simpa only [BLT, hA] using post (ac_Sword (s.RB rs1) < ac_Sword (s.RB rs2))
  · simpa only [BGE, hA] using post (ac_Sword (s.RB rs1) ≥ ac_Sword (s.RB rs2))
  · simpa only [BLTU, hA, ac_Uword] using post ((s.RB rs1).val < (s.RB rs2).val)
  · have hc : (ac_Uword (s.RB rs1) > ac_Uword (s.RB rs2) ∨
        ac_Uword (s.RB rs1) = ac_Uword (s.RB rs2)) ↔ (s.RB rs1).val ≥ (s.RB rs2).val := by
      unfold ac_Uword
      omega
    have hp := post ((s.RB rs1).val ≥ (s.RB rs2).val)
    unfold BGEU
    rw [hB]
    by_cases hg : (s.RB rs1).val ≥ (s.RB rs2).val
    · rw [if_pos (hc.mpr hg)]
      rw [if_pos hg] at hp
      exact hp
    · rw [if_neg (fun h => hg (hc.mp h))]
      rw [if_neg hg] at hp
      exact hp

/-- Witness for `branch_semantics`: at `0x1000` with `x1 = x2 = 7`,
`BEQ x1, x2, +0x20` sets the program counter to `0x1020`. -/
theorem branch_semantics_witness :
    (BEQ 1 2 0 0 1 0 (instruction (((state_at 0x1000).setRB 1 (to_ac_word 7)).setRB 2
      (to_ac_word 7)))).ac_pc.val = 0x1020 := by
  have h := (branch_semantics (instruction (((state_at 0x1000).setRB 1 (to_ac_word 7)).setRB 2
    (to_ac_word 7))) (to_ac_word 0x1000) 1 2 0 0 1 0 (by decide) (by decide) (by decide)
    (by decide) (by decide)).1.1
  rw [h]
  decide

/-! ## AUIPC, shifts, SLTI, MULHSU -/

/-- C11: for every instruction address `a` (the program counter before the step)
and every immediate field `imm`, the full step of AUIPC writes
`(a + (imm << 12)) mod 2^32` to `rd` and leaves the program counter at `a + 4`;
the body itself adds `imm << 12` to `ac_pc - 4` and does not touch `ac_pc`. -/
theorem AUIPC_result (s : State) (rd : Fin 32) (imm : Nat) :
    (AUIPC rd imm (instruction s)).RB rd = to_ac_word (s.ac_pc.val + imm * 2 ^ 12) ∧
      (AUIPC rd imm (instruction s)).ac_pc = to_ac_word (s.ac_pc.val + 4) ∧
      (AUIPC rd imm s).RB rd = to_ac_word ((s.ac_pc.val : Int) - 4 + imm * 2 ^ 12) ∧
      (AUIPC rd imm s).ac_pc = s.ac_pc := by
  have body : ∀ t : State,
      (AUIPC rd imm t).RB rd = to_ac_word ((t.ac_pc.val : Int) - 4 + imm * 2 ^ 12) := by
    intro t
    unfold AUIPC
    simp only [setRB_RB_same, Nat.shiftLeft_eq]
    rw [to_ac_word_eq_iff]
    have h := to_ac_word_val ((imm * 2 ^ 12 : Nat) : Int)
    push_cast at h ⊢
    omega
  refine ⟨?_, ?_, body s, rfl⟩
  · rw [body, instruction_ac_pc, to_ac_word_eq_iff]
    have h := to_ac_word_val ((s.ac_pc.val : Int) + 4)
    omega
  · exact instruction_ac_pc s

/-- For a shift count `x[rs2]` below 32, SLL, SRL and SRA write the left shift,
the zero-filling right shift and the sign-replicating right shift of `x[rs1]` by
that count. -/
theorem shift_count_below_32 (s : State) (rd rs1 rs2 : Fin 32) (h : (s.RB rs2).val < 32) :
    SLL rd rs1 rs2 s
        = some (s.setRB rd (to_ac_word ((s.RB rs1).val * 2 ^ (s.RB rs2).val : Nat))) ∧
      SRL rd rs1 rs2 s
        = some (s.setRB rd (to_ac_word ((s.RB rs1).val / 2 ^ (s.RB rs2).val : Nat))) ∧
      SRA rd rs1 rs2 s
        = some (s.setRB rd (to_ac_word (ac_Sword (s.RB rs1) / 2 ^ (s.RB rs2).val))) := by
  refine ⟨?_, ?_, ?_⟩
  · simp only [SLL, h, if_true, Nat.shiftLeft_eq]
  · simp only [SRL, h, if_true, Nat.shiftRight_eq_div_pow]
  · simp only [SRA, h, if_true, Int.shiftRight_eq_div_pow]
    push_cast
    rfl

/-- Witness for `shift_count_below_32`: `-8` shifted by 1. -/
theorem shift_count_below_32_witness :
    SLL 3 1 2 (state_regs (-8) 1 0)
        = some ((state_regs (-8) 1 0).setRB 3
            (to_ac_word (((state_regs (-8) 1 0).RB 1).val
              * 2 ^ ((state_regs (-8) 1 0).RB 2).val : Nat))) :=
  (shift_count_below_32 (state_regs (-8) 1 0) 3 1 2 (by decide)).1

/-- The comparison SLTI makes is the one SLTIU makes: both write 1 exactly when
`x[rs1]`, as an unsigned word, is below the sign-extended immediate converted
to an unsigned word. -/
theorem SLTI_SLTIU_unsigned (s : State) (rd rs1 : Fin 32) (imm4 imm3 imm2 imm1 : Nat)
    (h3 : imm3 < 64) (h2 : imm2 < 16) (h1 : imm1 < 2) :
    SLTI rd rs1 imm4 imm3 imm2 imm1 s = SLTIU rd rs1 imm4 imm3 imm2 imm1 s ∧
      SLTIU rd rs1 imm4 imm3 imm2 imm1 s
        = s.setRB rd (to_ac_word
            (if (s.RB rs1).val < (to_ac_word (I_imm imm4 imm3 imm2 imm1)).val
              then 1 else 0)) := by
  refine ⟨rfl, ?_⟩
  unfold SLTIU I_imm ac_Uword
  simp only [I_field_eq imm4 imm3 imm2 imm1 h3 h2 h1]
  split <;> rfl

/-- Witness for `SLTI_SLTIU_unsigned`: 3 against the immediate 5. -/
theorem SLTI_SLTIU_unsigned_witness :
    SLTI 3 1 0 0 2 1 (state_regs 3 0 0) = SLTIU 3 1 0 0 2 1 (state_regs 3 0 0) :=
  (SLTI_SLTIU_unsigned (state_regs 3 0 0) 3 1 0 0 2 1 (by decide) (by decide) (by decide)).1

/-- C14 (the code at the failing input): with `x1 = 0xFFFFFFFF` (-1 as a signed
integer) and immediate 0, -1 is less than 0 but SLTI writes 0; with `x1 = 0` and
immediate -1 (all fields set), 0 is not less than -1 but SLTI writes 1. -/
theorem SLTI_compares_unsigned :
    ac_Sword ((state_regs 0xFFFFFFFF 0 7).RB 1) = -1 ∧ I_imm 0 0 0 0 = 0 ∧
      ((SLTI 3 1 0 0 0 0 (state_regs 0xFFFFFFFF 0 7)).RB 3).val = 0 ∧
      ac_Sword ((state_regs 0 0 7).RB 1) = 0 ∧ I_imm 1 63 15 1 = -1 ∧
      ((SLTI 3 1 1 63 15 1 (state_regs 0 0 7)).RB 3).val = 1 := by
  have e1 : I_imm 0 0 0 0 = 0 := by norm_num [I_imm, sign_extend]
  have e2 : I_imm 1 63 15 1 = -1 := by norm_num [I_imm, sign_extend]
  exact ⟨by decide, e1, by decide, by decide, e2, by decide⟩

/-- MULHSU writes the high word of the product of the two operands both taken
as unsigned. -/
theorem MULHSU_unsigned_high (s : State) (rd rs1 rs2 : Fin 32) :
    MULHSU rd rs1 rs2 s
      = s.setRB rd (to_ac_word (((s.RB rs1).val * (s.RB rs2).val / 2 ^ 32 : Nat) : Int)) := by
  have ha := (s.RB rs1).isLt
  have hb := (s.RB rs2).isLt
  have hp : (s.RB rs1).val * (s.RB rs2).val < 2 ^ 64 := by
    calc (s.RB rs1).val * (s.RB rs2).val < 2 ^ 32 * 2 ^ 32 :=
          Nat.mul_lt_mul'' ha hb
      _ = 2 ^ 64 := by norm_num
  have e1 : to_long_long ((s.RB rs1).val : Int) = (s.RB rs1).val := by
    unfold to_long_long
    split <;> omega
  have e2 : ((s.RB rs1).val : Int) * ((ac_Uword (s.RB rs2) : Nat) : Int)
      = (((s.RB rs1).val * (s.RB rs2).val : Nat) : Int) := by
    unfold ac_Uword
    push_cast
    rfl
  have key : to_ac_word (to_int (to_long_long
        ((((s.RB rs1).val * (s.RB rs2).val : Nat) : Int)) >>> (32 : Nat)))
      = to_ac_word (((s.RB rs1).val * (s.RB rs2).val / 2 ^ 32 : Nat) : Int) := by
    rw [to_ac_word_to_int, to_ac_word_eq_iff, Int.shiftRight_eq_div_pow]
    generalize (s.RB rs1).val * (s.RB rs2).val = p at hp
    unfold to_long_long
    push_cast
    split <;> omega
  unfold MULHSU
  simp only [e1, e2, key]

/-- C15 (the code at the failing input): with `x1 = 0xFFFFFFFF` (-1 as a signed
integer) and `x2 = 1`, the product signed(a) × unsigned(b) is -1, whose bits
[63:32] are `0xFFFFFFFF`; MULHSU writes 0. -/
theorem MULHSU_rs1_not_signed :
    ac_Sword ((state_regs 0xFFFFFFFF 1 7).RB 1) = -1 ∧
      ((state_regs 0xFFFFFFFF 1 7).RB 2).val = 1 ∧
      (to_ac_word (ac_Sword ((state_regs 0xFFFFFFFF 1 7).RB 1)
        * ((state_regs 0xFFFFFFFF 1 7).RB 2).val / 2 ^ 32)).val = 0xFFFFFFFF ∧
      ((MULHSU 3 1 2 (state_regs 0xFFFFFFFF 1 7)).RB 3).val = 0 := by
  refine ⟨by decide, by decide, ?_, ?_⟩
  · have e1 : ac_Sword ((state_regs 0xFFFFFFFF 1 7).RB 1) = -1 := by decide
    have e2 : ((state_regs 0xFFFFFFFF 1 7).RB 2).val = 1 := by decide
    rw [e1, e2]
    decide
  · rw [MULHSU_unsigned_high, setRB_RB_same]
    decide

theorem SRAI_fill_val (k : Nat) (hk1 : 0 < k) (hk : k < 32) :
    (to_ac_word ((0xFFFFFFFF <<< (32 - k) : Nat) : Int)).val = 2 ^ 32 - 2 ^ (32 - k) := by
  interval_cases k <;> decide

theorem SRAI_negative_value (x k : Nat) (hx : x < 2 ^ 32) (hneg : 2 ^ 31 ≤ x) (hk1 : 0 < k)
    (hk : k < 32) :
    to_ac_word (((x >>> k) ||| (to_ac_word ((0xFFFFFFFF <<< (32 - k) : Nat) : Int)).val : Nat)
        : Int)
      = to_ac_word (((x : Int) - 2 ^ 32) / 2 ^ k) := by
  have hdvd : 2 ^ (32 - k) ∣ 2 ^ 32 - 2 ^ (32 - k) := by
    refine ⟨2 ^ k - 1, ?_⟩
    interval_cases k <;> norm_num
  have hlt : x / 2 ^ k < 2 ^ (32 - k) := by
    apply Nat.div_lt_of_lt_mul
    rw [← pow_add]
    have : k + (32 - k) = 32 := by omega
    rw [this]
    exact hx
  rw [SRAI_fill_val k hk1 hk, Nat.shiftRight_eq_div_pow, Nat.or_comm,
    or_eq_add_of_dvd hlt hdvd, to_ac_word_eq_iff]
  interval_cases k <;> norm_num <;> omega

/-- Except for a negative `x[rs1]` with shift amount 0, SRAI writes the
arithmetic right shift of `x[rs1]`: `floor(signed(x[rs1]) / 2^shamt)` as a 32-bit
two's-complement value. -/
theorem SRAI_arithmetic (s : State) (rd rs1 : Fin 32) (imm2 imm1 : Nat) (h2 : imm2 < 16)
    (h1 : imm1 < 2) (hok : (s.RB rs1).val < 2 ^ 31 ∨ 0 < imm2 * 2 + imm1) :
    SRAI rd rs1 imm2 imm1 s
      = some (s.setRB rd (to_ac_word (ac_Sword (s.RB rs1) / 2 ^ (imm2 * 2 + imm1)))) := by
  have hsh : (imm2 <<< 1) ||| imm1 = imm2 * 2 + imm1 := by
    rw [Nat.shiftLeft_eq, pow_one]
    exact or_eq_add_of_dvd (i := 1) (by omega) (Dvd.intro_left _ rfl)
  have hx := (s.RB rs1).isLt
  have hk : imm2 * 2 + imm1 < 32 := by omega
  have hc : (s.RB rs1).val >>> 31 = 1 ↔ 2 ^ 31 ≤ (s.RB rs1).val := by
    rw [Nat.shiftRight_eq_div_pow]
    omega
  unfold SRAI
  simp only [hsh, hc]
  by_cases hneg : 2 ^ 31 ≤ (s.RB rs1).val
  · have hk1 : 0 < imm2 * 2 + imm1 := by omega
    have hS : ac_Sword (s.RB rs1) = ((s.RB rs1).val : Int) - 2 ^ 32 := by
      unfold ac_Sword
      rw [if_neg (by omega)]
    rw [if_pos hneg, if_pos ⟨hk, hk1⟩, hS,
      SRAI_negative_value (s.RB rs1).val (imm2 * 2 + imm1) hx hneg hk1 hk]
  · have hS : ac_Sword (s.RB rs1) = ((s.RB rs1).val : Int) := by
      unfold ac_Sword
      rw [if_pos (by omega)]
    rw [if_neg hneg, if_pos hk, hS, Nat.shiftRight_eq_div_pow]
    push_cast
    rfl

/-- Witness for `SRAI_arithmetic`: `-8` shifted by 1 is `-4`. -/
theorem SRAI_arithmetic_witness :
    (SRAI 3 1 0 1 (state_regs (-8) 0 0)).map (fun t => ac_Sword (t.RB 3)) = some (-4) := by
  rw [SRAI_arithmetic (state_regs (-8) 0 0) 3 1 0 1 (by decide) (by decide)
    (Or.inr (by decide))]
  decide

/-- C13 (the code at the failing input): with `x1 = 0x80000000` (negative) and
shift amount 0 (`imm2 = 0`, `imm1 = 0`) the arithmetic shift is `x1` itself;
SRAI takes its first branch and evaluates `0xFFFFFFFF << (32 - 0)`, a shift by
the full width 32, which has no defined result in C++. -/
theorem SRAI_shamt_zero_negative :
    ((state_regs 0x80000000 0 7).RB 1).val = 0x80000000 ∧
      ac_Sword ((state_regs 0x80000000 0 7).RB 1) = -2 ^ 31 ∧
      (to_ac_word (ac_Sword ((state_regs 0x80000000 0 7).RB 1) / 2 ^ 0)).val = 0x80000000 ∧
      (SRAI 3 1 0 0 (state_regs 0x80000000 0 7)).map (fun t => (t.RB 3).val) = none := by
  refine ⟨by decide, by decide, ?_, by decide⟩
  have e1 : ac_Sword ((state_regs 0x80000000 0 7).RB 1) = -2147483648 := by decide
  rw [e1]
  decide

/-! ## Memory and the atomic instructions -/

theorem to_ac_word_add_ne_self (a : ac_word) (i : Nat) (h0 : 0 < i) (hi : i < 4) :
    to_ac_word ((a.val : Int) + i) ≠ a := by
  intro h
  have h1 := congrArg (fun w : ac_word => (w.val : Int)) h
  simp only [to_ac_word_val] at h1
  have ha := a.isLt
  omega

theorem to_ac_word_add_ne_add (a : ac_word) (i j : Nat) (hi : i < 4) (hj : j < 4)
    (hij : i ≠ j) : to_ac_word ((a.val : Int) + i) ≠ to_ac_word ((a.val : Int) + j) := by
  rw [Ne, to_ac_word_eq_iff]
  omega

/-- A word read back from the address it was written to is the word written. -/
theorem DM_read_write_same (s : State) (a v : ac_word) : DM_read (DM_write s a v) a = v := by
  have h10 := to_ac_word_add_ne_self a 1 (by decide) (by decide)
  have h20 := to_ac_word_add_ne_self a 2 (by decide) (by decide)
  have h30 := to_ac_word_add_ne_self a 3 (by decide) (by decide)
  have h21 := to_ac_word_add_ne_add a 2 1 (by decide) (by decide) (by decide)
  have h31 := to_ac_word_add_ne_add a 3 1 (by decide) (by decide) (by decide)
  have h32 := to_ac_word_add_ne_add a 3 2 (by decide) (by decide) (by decide)
  simp only [Nat.cast_ofNat, Nat.cast_one] at h10 h20 h30 h21 h31 h32
  apply Fin.ext
  have hv := v.isLt
  have hr := to_ac_word_natCast_val
    (v.val % 256 + 2 ^ 8 * (v.val / 2 ^ 8 % 256) + 2 ^ 16 * (v.val / 2 ^ 16 % 256)
      + 2 ^ 24 * (v.val / 2 ^ 24 % 256)) (by omega)
  simp only [DM_read, DM_write, if_true, h10, h20, h30, h21, h31, h32, if_false, to_byte]
  omega

/-- A write of a word leaves every byte outside the four bytes of that word as
it was. -/
theorem DM_write_other (s : State) (a v x : ac_word) (h0 : x ≠ a)
    (h1 : x ≠ to_ac_word (a.val + 1)) (h2 : x ≠ to_ac_word (a.val + 2))
    (h3 : x ≠ to_ac_word (a.val + 3)) : (DM_write s a v).DM x = s.DM x := by
  simp only [DM_write, h0, h1, h2, h3, if_false]

/-- Every atomic instruction other than AMOSWAP leaves in `rd` the word that was
in memory at address `x[rs1]` before the instruction, and leaves `rs2` (when
distinct from `rd`) unchanged. -/
theorem AMO_rd_holds_old_word (s : State) (rd rs1 rs2 : Fin 32) :
    ((AMOADD_W rd rs1 rs2 s).RB rd = DM_read s (s.RB rs1) ∧
        (rs2 ≠ rd → (AMOADD_W rd rs1 rs2 s).RB rs2 = s.RB rs2)) ∧
      ((AMOXOR_W rd rs1 rs2 s).RB rd = DM_read s (s.RB rs1) ∧
        (rs2 ≠ rd → (AMOXOR_W rd rs1 rs2 s).RB rs2 = s.RB rs2)) ∧
      ((AMOAND_W rd rs1 rs2 s).RB rd = DM_read s (s.RB rs1) ∧
        (rs2 ≠ rd → (AMOAND_W rd rs1 rs2 s).RB rs2 = s.RB rs2)) ∧
      ((AMOOR_W rd rs1 rs2 s).RB rd = DM_read s (s.RB rs1) ∧
        (rs2 ≠ rd → (AMOOR_W rd rs1 rs2 s).RB rs2 = s.RB rs2)) ∧
      ((AMOMIN_W rd rs1 rs2 s).RB rd = DM_read s (s.RB rs1) ∧
        (rs2 ≠ rd → (AMOMIN_W rd rs1 rs2 s).RB rs2 = s.RB rs2)) ∧
      ((AMOMAX_W rd rs1 rs2 s).RB rd = DM_read s (s.RB rs1) ∧
        (rs2 ≠ rd → (AMOMAX_W rd rs1 rs2 s).RB rs2 = s.RB rs2)) ∧
      ((AMOMINU_W rd rs1 rs2 s).RB rd = DM_read s (s.RB rs1) ∧
        (rs2 ≠ rd → (AMOMINU_W rd rs1 rs2 s).RB rs2 = s.RB rs2)) ∧
      ((AMOMAXU_W rd rs1 rs2 s).RB rd = DM_read s (s.RB rs1) ∧
        (rs2 ≠ rd → (AMOMAXU_W rd rs1 rs2 s).RB rs2 = s.RB rs2)) := by
  refine ⟨⟨?_, fun h => ?_⟩, ⟨?_, fun h => ?_⟩, ⟨?_, fun h => ?_⟩, ⟨?_, fun h => ?_⟩,
    ⟨?_, fun h => ?_⟩, ⟨?_, fun h => ?_⟩, ⟨?_, fun h => ?_⟩, ⟨?_, fun h => ?_⟩⟩
  all_goals
    simp only [AMOADD_W, AMOXOR_W, AMOAND_W, AMOOR_W, AMOMIN_W, AMOMAX_W, AMOMINU_W,
      AMOMAXU_W]
    repeat' split
    all_goals first
      | exact setRB_RB_same _ _ _
      | exact setRB_RB_other _ _ _ _ h

/-- Witness for `AMO_rd_holds_old_word`: AMOADD.W with the word 5 in memory. -/
theorem AMO_rd_holds_old_word_witness :
    (AMOADD_W 3 1 2 (state_mem 0x100 9 0 0x100 5)).RB 2 = (state_mem 0x100 9 0 0x100 5).RB 2 :=
  (AMO_rd_holds_old_word (state_mem 0x100 9 0 0x100 5) 3 1 2).1.2 (by decide)

/-- C16 (the code at the failing input): AMOSWAP.W with `rd = x3`, `rs1 = x1`,
`rs2 = x2`, `x1 = 0x100`, `x2 = 9` and the word 5 in memory at `0x100`: the
memory word before the instruction is 5, yet afterwards `x3` holds 9 (the old
`x2`) and `x2`, distinct from `rd`, holds 5 instead of its old value 9. -/
theorem AMOSWAP_swaps_registers :
    (DM_read (state_mem 0x100 9 0 0x100 5) ((state_mem 0x100 9 0 0x100 5).RB 1)).val = 5 ∧
      ((state_mem 0x100 9 0 0x100 5).RB 2).val = 9 ∧
      ((AMOSWAP_W 3 1 2 (state_mem 0x100 9 0 0x100 5)).RB 3).val = 9 ∧
      ((AMOSWAP_W 3 1 2 (state_mem 0x100 9 0 0x100 5)).RB 2).val = 5 := by
  decide

theorem to_ac_word_ac_Sword_add (a b : ac_word) :
    to_ac_word (ac_Sword a + ac_Sword b) = to_ac_word ((a.val : Int) + b.val) := by
  rw [to_ac_word_eq_iff]
  unfold ac_Sword
  split <;> split <;> omega

/-- When `rd` differs from `rs1` and from `rs2`, AMOADD.W leaves the memory word
at the address in `x[rs1]` equal to (old memory word + `x[rs2]`) mod 2^32 and
changes no byte outside that word. -/
theorem AMOADD_distinct_registers (s : State) (rd rs1 rs2 : Fin 32) (h1 : rs1 ≠ rd)
    (h2 : rs2 ≠ rd) :
    DM_read (AMOADD_W rd rs1 rs2 s) (s.RB rs1)
        = to_ac_word (((DM_read s (s.RB rs1)).val : Int) + (s.RB rs2).val) ∧
      ∀ x : ac_word, x ≠ s.RB rs1 → x ≠ to_ac_word ((s.RB rs1).val + 1) →
        x ≠ to_ac_word ((s.RB rs1).val + 2) → x ≠ to_ac_word ((s.RB rs1).val + 3) →
        (AMOADD_W rd rs1 rs2 s).DM x = s.DM x := by
  have e1 : (s.setRB rd (DM_read s (s.RB rs1))).RB rs1 = s.RB rs1 :=
    setRB_RB_other _ _ _ _ h1
  have e2 : (s.setRB rd (DM_read s (s.RB rs1))).RB rs2 = s.RB rs2 :=
    setRB_RB_other _ _ _ _ h2
  unfold AMOADD_W
  simp only [e1, e2, setRB_RB_same]
  refine ⟨?_, fun x h0 ha hb hc => ?_⟩
  · rw [DM_read_write_same, to_ac_word_ac_Sword_add]
  · rw [DM_write_other _ _ _ _ h0 ha hb hc]
    rfl

/-- Witness for `AMOADD_distinct_registers`: 5 in memory plus 9 in `x2`. -/
theorem AMOADD_distinct_registers_witness :
    (DM_read (AMOADD_W 3 1 2 (state_mem 0x100 9 0 0x100 5))
      ((state_mem 0x100 9 0 0x100 5).RB 1)).val = 14 := by
  rw [(AMOADD_distinct_registers (state_mem 0x100 9 0 0x100 5) 3 1 2 (by decide)
    (by decide)).1]
  decide

/-- C17 (the code at the failing input): with `x1 = 0x100`, `x2 = 3` and the
word `0x200` in memory at `0x100`, the memory word at `0x100` should become
`0x203`.  With `rd = rs1 = x1` AMOADD.W leaves `0x200` at `0x100` and writes
`0x203` at address `0x200`, the loaded word; with `rd = rs2 = x2` it leaves
`0x400` at `0x100`, twice the loaded word. -/
theorem AMOADD_operands_overwritten :
    ((state_mem 0x100 3 0 0x100 0x200).RB 1).val = 0x100 ∧
      ((state_mem 0x100 3 0 0x100 0x200).RB 2).val = 3 ∧
      (DM_read (state_mem 0x100 3 0 0x100 0x200) (to_ac_word 0x100)).val = 0x200 ∧
      (DM_read (state_mem 0x100 3 0 0x100 0x200) (to_ac_word 0x200)).val = 0 ∧
      (DM_read (AMOADD_W 1 1 2 (state_mem 0x100 3 0 0x100 0x200)) (to_ac_word 0x100)).val
        = 0x200 ∧
      (DM_read (AMOADD_W 1 1 2 (state_mem 0x100 3 0 0x100 0x200)) (to_ac_word 0x200)).val
        = 0x203 ∧
      (DM_read (AMOADD_W 2 1 2 (state_mem 0x100 3 0 0x100 0x200)) (to_ac_word 0x100)).val
        = 0x400 := by
  decide

/-! ## CSRRW and VSETVLI -/

/-- CSRRW writes the old value of the CSR to `rd` when `rd ≠ 0` and leaves the
integer registers untouched when `rd = 0`, whether or not the assignment to
`mapped` reaches the CSR. -/
theorem CSRRW_rd (shared : Bool) (s : State) (rd : Fin 32) (c : CSR) :
    (rd ≠ 0 → (CSRRW shared rd c s).RB rd = s.csr c) ∧
      (rd = 0 → (CSRRW shared rd c s).RB = s.RB) := by
  have hcsr : ∀ (t : State) (v : ac_word), (t.setCSR c v).RB = t.RB := by
    intro t v
    cases c <;> rfl
  refine ⟨fun h => ?_, fun h => ?_⟩
  · unfold CSRRW
    simp only [h, ne_eq, not_false_eq_true, if_true]
    cases shared
    · exact setRB_RB_same _ _ _
    · simp only [if_true, hcsr]
      exact setRB_RB_same _ _ _
  · unfold CSRRW
    simp only [h, ne_eq, not_true_eq_false, if_false]
    cases shared
    · rfl
    · simp only [if_true, hcsr]

/-- Witness for `CSRRW_rd`: reading `vl = 2` into `x3`. -/
theorem CSRRW_rd_witness :
    (CSRRW true 3 CSR.vl ((state_regs 5 0 9).setCSR CSR.vl (to_ac_word 2))).RB 3
      = ((state_regs 5 0 9).setCSR CSR.vl (to_ac_word 2)).csr CSR.vl :=
  (CSRRW_rd true ((state_regs 5 0 9).setCSR CSR.vl (to_ac_word 2)) 3 CSR.vl).1 (by decide)

/-- C18 (the code at the failing input): CSRRW with `rd = x3`, source register
`x1 = 5`, `x3 = 9` and `vl = 2`: `x3` receives the old CSR value 2, but the
behaviour never reads `rs1`; it assigns the old value of `rd`, 9, to `mapped`,
so afterwards the CSR holds 9 if that assignment reaches it and still 2 if it
does not, in neither case the 5 of the source register. -/
theorem CSRRW_ignores_rs1 :
    (((state_regs 5 0 9).setCSR CSR.vl (to_ac_word 2)).RB 1).val = 5 ∧
      (((state_regs 5 0 9).setCSR CSR.vl (to_ac_word 2)).RB 3).val = 9 ∧
      (((state_regs 5 0 9).setCSR CSR.vl (to_ac_word 2)).csr CSR.vl).val = 2 ∧
      ((CSRRW true 3 CSR.vl ((state_regs 5 0 9).setCSR CSR.vl (to_ac_word 2))).RB 3).val
        = 2 ∧
      ((CSRRW true 3 CSR.vl ((state_regs 5 0 9).setCSR CSR.vl (to_ac_word 2))).csr
        CSR.vl).val = 9 ∧
      ((CSRRW false 3 CSR.vl ((state_regs 5 0 9).setCSR CSR.vl (to_ac_word 2))).csr
        CSR.vl).val = 2 := by
  decide

/-- For a requested length `x[rs1]` below `2 ^ 31` and `vlenb = 16`, VSETVLI
installs `vtype = vtypei & 0x1f`, sets `vl = min(x[rs1], VLMAX)` and writes that
`vl` to `rd`. -/
theorem VSETVLI_small_avl (s : State) (rd rs1 : Fin 32) (imm2 : Nat)
    (hvlenb : s.vlenb.val = 16) (ha : (s.RB rs1).val < 2 ^ 31) :
    (VSETVLI rd rs1 imm2 s).vl.val = min (s.RB rs1).val (VLMAX (imm2 &&& 0x1f)) ∧
      (VSETVLI rd rs1 imm2 s).RB rd = (VSETVLI rd rs1 imm2 s).vl ∧
      (VSETVLI rd rs1 imm2 s).vtype.val = imm2 &&& 0x1f := by
  have hS : ac_Sword (s.RB rs1) = ((s.RB rs1).val : Int) := by
    unfold ac_Sword
    rw [if_pos ha]
  have h16 : (16 &&& 255 : Nat) = 16 := by decide
  have hvt : imm2 &&& 0x1f < 2 ^ 32 :=
    lt_of_le_of_lt Nat.and_le_right (by norm_num)
  refine ⟨?_, ?_, ?_⟩
  · simp only [VSETVLI, hS, hvlenb, h16, VLMAX, LMUL, SEW]
    generalize (1 <<< (imm2 &&& 31 &&& 7) * 16 / 1 <<< ((imm2 &&& 31) >>> 3) : Nat) = m
    by_cases hlt : (s.RB rs1).val < m
    · have hlt' : ((s.RB rs1).val : Int) < (m : Int) := by exact_mod_cast hlt
      rw [if_pos hlt', to_ac_word_of_val, Nat.min_eq_left (le_of_lt hlt)]
    · have hlt' : ¬ ((s.RB rs1).val : Int) < (m : Int) := by
        intro h
        exact hlt (by exact_mod_cast h)
      rw [if_neg hlt', Nat.min_eq_right (by omega)]
      exact to_ac_word_natCast_val m (by omega)
  · simp only [VSETVLI, Function.update_same]
  · simp only [VSETVLI]
    exact to_ac_word_natCast_val _ hvt

/-- Witness for `VSETVLI_small_avl`: a request for 100 elements with SEW 1 and
LMUL 1 yields 16. -/
theorem VSETVLI_small_avl_witness :
    (VSETVLI 5 1 0 (state_regs 100 0 0)).vl.val = 16 := by
  rw [(VSETVLI_small_avl (state_regs 100 0 0) 5 1 0 (by decide) (by decide)).1]
  decide

/-- C19 (the code at the failing input): with `x1 = 0x80000000`, `vlenb = 16` and
`vtypei = 0` (SEW 1 byte, LMUL 1, VLMAX 16) the requested length is at least
VLMAX, so `vl` and `rd` should be 16; the behaviour converts the request to an
`int`, finds it negative and below VLMAX, and sets `vl` and `rd` to
`0x80000000`. -/
theorem VSETVLI_avl_as_int :
    ((state_regs 0x80000000 0 0).RB 1).val = 0x80000000 ∧
      (state_regs 0x80000000 0 0).vlenb.val = 16 ∧
      VLMAX (0 &&& 0x1f) = 16 ∧
      min ((state_regs 0x80000000 0 0).RB 1).val (VLMAX (0 &&& 0x1f)) = 16 ∧
      (VSETVLI 5 1 0 (state_regs 0x80000000 0 0)).vl.val = 0x80000000 ∧
      ((VSETVLI 5 1 0 (state_regs 0x80000000 0 0)).RB 5).val = 0x80000000 := by
  decide

/-- With `rs1 = x0`, the full step of VSETVLI sets `vl` to 0 and writes 0 to
`rd`, whatever the state and the `vtype` being installed. -/
theorem VSETVLI_x0_zero (s : State) (rd : Fin 32) (imm2 : Nat) :
    (VSETVLI rd 0 imm2 (instruction s)).vl = to_ac_word 0 ∧
      (VSETVLI rd 0 imm2 (instruction s)).RB rd = to_ac_word 0 := by
  have h0 : ac_Sword ((instruction s).RB 0) = 0 := by
    rw [instruction_RB_zero]
    decide
  have key : ∀ m : Nat, to_ac_word (if (0 : Int) < (m : Int) then 0 else (m : Int))
      = to_ac_word 0 := by
    intro m
    by_cases hm : (0 : Int) < (m : Int)
    · rw [if_pos hm]
    · rw [if_neg hm]
      have : (m : Int) = 0 := by omega
      rw [this]
  refine ⟨?_, ?_⟩
  · simp only [VSETVLI, h0, key]
  · simp only [VSETVLI, h0, key, Function.update_same]

/-- C20 (the code at the failing input): the full step of `VSETVLI x5, x0` with
`vtypei = 0` (SEW 1 byte, LMUL 1) from a state with `vlenb = 16` should set `vl`
to VLMAX = 16 and write 16 to `x5`; the behaviour has no case for `rs1 = x0`,
reads 0 from `x0` as the requested length and sets `vl` and `x5` to 0. -/
theorem VSETVLI_x0_not_vlmax :
    (instruction (state_regs 100 0 0)).vlenb.val = 16 ∧
      VLMAX (0 &&& 0x1f) = 16 ∧
      (VSETVLI 5 0 0 (instruction (state_regs 100 0 0))).vtype.val = 0 ∧
      (VSETVLI 5 0 0 (instruction (state_regs 100 0 0))).vl.val = 0 ∧
      ((VSETVLI 5 0 0 (instruction (state_regs 100 0 0))).RB 5).val = 0 := by
  decide

/-! ## The vector register bank: bytes and elements -/

theorem splice_byte (w b jm km : Nat) (hw : w < 2 ^ 32) (hj : jm < 4) (hk : km < 4) :
    (w - w / 2 ^ (8 * jm) % 256 * 2 ^ (8 * jm) + b % 256 * 2 ^ (8 * jm)) < 2 ^ 32 ∧
    (w - w / 2 ^ (8 * jm) % 256 * 2 ^ (8 * jm) + b % 256 * 2 ^ (8 * jm)) / 2 ^ (8 * km) % 256
      = if km = jm then b % 256 else w / 2 ^ (8 * km) % 256 := by
  have hb : b % 256 < 256 := Nat.mod_lt _ (by norm_num)
  generalize b % 256 = c at hb ⊢
  interval_cases jm <;> interval_cases km <;> norm_num <;> omega

theorem RBV_byte_eq (R : Fin 128 → ac_word) (k : Nat) (hk : k < 512) :
    RBV_byte R k = (R ⟨k / 4, by omega⟩).val / 2 ^ (8 * (k % 4)) % 256 := by
  unfold RBV_byte
  rw [dif_pos hk]

theorem RBV_set_byte_apply (R : Fin 128 → ac_word) (j b : Nat) (hj : j < 512) (i : Fin 128) :
    (RBV_set_byte R j b i).val =
      if i.val = j / 4 then
        (R i).val - (R i).val / 2 ^ (8 * (j % 4)) % 256 * 2 ^ (8 * (j % 4))
          + b % 256 * 2 ^ (8 * (j % 4))
      else (R i).val := by
  have hjm : j % 4 < 4 := Nat.mod_lt _ (by norm_num)
  unfold RBV_set_byte
  rw [dif_pos hj, Function.update_apply, RBV_byte_eq R j hj]
  by_cases h : i.val = j / 4
  · have hi : i = ⟨j / 4, by omega⟩ := Fin.ext h
    rw [if_pos hi, if_pos h, ← hi]
    exact to_ac_word_natCast_val _ (splice_byte (R i).val b (j % 4) 0 (R i).isLt hjm (by norm_num)).1
  · have hi : i ≠ ⟨j / 4, by omega⟩ := fun e => h (congrArg Fin.val e)
    rw [if_neg hi, if_neg h]

theorem RBV_byte_set_byte (R : Fin 128 → ac_word) (j b k : Nat) (hj : j < 512) :
    RBV_byte (RBV_set_byte R j b) k = if k = j then b % 256 else RBV_byte R k := by
  by_cases hk : k < 512
  · have hjm : j % 4 < 4 := Nat.mod_lt _ (by norm_num)
    have hkm : k % 4 < 4 := Nat.mod_lt _ (by norm_num)
    rw [RBV_byte_eq _ k hk, RBV_byte_eq R k hk, RBV_set_byte_apply R j b hj]
    by_cases hw : k / 4 = j / 4
    · rw [if_pos hw, (splice_byte _ b (j % 4) (k % 4) (R ⟨k / 4, by omega⟩).isLt hjm hkm).2]
      by_cases e : k = j
      · rw [if_pos e, if_pos (by rw [e])]
      · rw [if_neg e, if_neg (by omega)]
    · rw [if_neg hw, if_neg (by intro e; rw [e] at hw; exact hw rfl)]
  · unfold RBV_byte
    rw [dif_neg hk, dif_neg hk, if_neg (by omega)]

theorem RBV_byte_lt (R : Fin 128 → ac_word) (j : Nat) : RBV_byte R j < 256 := by
  unfold RBV_byte
  split
  · exact Nat.mod_lt _ (by norm_num)
  · norm_num

theorem RBV_byte_vset_elem (w : Nat) : ∀ (R : Fin 128 → ac_word) (off v k : Nat),
    off + w ≤ 512 →
    RBV_byte (vset_elem R w off v) k
      = if off ≤ k ∧ k < off + w then v / 256 ^ (k - off) % 256 else RBV_byte R k := by
  induction w with
  | zero =>
    intro R off v k _
    rw [if_neg (by omega)]
    rfl
  | succ w ih =>
    intro R off v k h
    show RBV_byte (vset_elem (RBV_set_byte R off v) w (off + 1) (v / 256)) k = _
    rw [ih _ _ _ _ (by omega), RBV_byte_set_byte _ _ _ _ (by omega)]
    by_cases h1 : off + 1 ≤ k ∧ k < off + 1 + w
    · rw [if_pos h1, if_pos (by omega)]
      have e : k - off = (k - (off + 1)) + 1 := by omega
      rw [e, pow_succ, Nat.mul_comm, Nat.div_div_eq_div_mul]
    · rw [if_neg h1]
      by_cases h2 : k = off
      · rw [if_pos h2, if_pos (by omega), h2, Nat.sub_self, pow_zero, Nat.div_one]
      · rw [if_neg h2, if_neg (by omega)]

theorem velem_congr (R T : Fin 128 → ac_word) (w : Nat) : ∀ (off : Nat),
    (∀ k, off ≤ k → k < off + w → RBV_byte R k = RBV_byte T k) →
    velem R w off = velem T w off := by
  induction w with
  | zero => intro off _; rfl
  | succ w ih =>
    intro off h
    show RBV_byte R off + 256 * velem R w (off + 1) = RBV_byte T off + 256 * velem T w (off + 1)
    rw [h off (by omega) (by omega), ih (off + 1) (fun k h1 h2 => h k (by omega) (by omega))]

theorem velem_lt (R : Fin 128 → ac_word) (w : Nat) : ∀ (off : Nat),
    velem R w off < 256 ^ w := by
  induction w with
  | zero => intro off; show 0 < 256 ^ 0; norm_num
  | succ w ih =>
    intro off
    show RBV_byte R off + 256 * velem R w (off + 1) < 256 ^ (w + 1)
    have h1 := RBV_byte_lt R off
    have h2 := ih (off + 1)
    rw [pow_succ]
    omega

theorem velem_of_bytes (R : Fin 128 → ac_word) (w : Nat) : ∀ (off v : Nat),
    (∀ k, off ≤ k → k < off + w → RBV_byte R k = v / 256 ^ (k - off) % 256) →
    velem R w off = v % 256 ^ w := by
  induction w with
  | zero => intro off v _; show 0 = v % 256 ^ 0; rw [pow_zero, Nat.mod_one]
  | succ w ih =>
    intro off v h
    show RBV_byte R off + 256 * velem R w (off + 1) = v % 256 ^ (w + 1)
    have h0 := h off (by omega) (by omega)
    rw [Nat.sub_self, pow_zero, Nat.div_one] at h0
    have h1 : velem R w (off + 1) = v / 256 % 256 ^ w := by
      apply ih
      intro k hk1 hk2
      rw [h k (by omega) (by omega)]
      have e : k - off = (k - (off + 1)) + 1 := by omega
      rw [e, pow_succ, Nat.mul_comm, Nat.div_div_eq_div_mul]
    rw [h0, h1, pow_succ, Nat.mul_comm (256 ^ w) 256, Nat.mod_mul]

theorem velem_vset_elem_same (R : Fin 128 → ac_word) (w off v : Nat) (h : off + w ≤ 512) :
    velem (vset_elem R w off v) w off = v % 256 ^ w := by
  apply velem_of_bytes
  intro k h1 h2
  rw [RBV_byte_vset_elem w R off v k h, if_pos ⟨h1, h2⟩]

theorem velem_vset_elem_other (R : Fin 128 → ac_word) (w off v u o : Nat) (h : off + w ≤ 512)
    (hd : o + u ≤ off ∨ off + w ≤ o) :
    velem (vset_elem R w off v) u o = velem R u o := by
  apply velem_congr
  intro k h1 h2
  rw [RBV_byte_vset_elem w R off v k h, if_neg (by omega)]

theorem lane_get_eq (w : Nat) (h : w = 1 ∨ w = 2 ∨ w = 4) (R : Fin 128 → ac_word)
    (p idx : Nat) : lane_get w R p idx = velem R w (16 * p + w * idx) := by
  rcases h with rfl | rfl | rfl
  · unfold lane_get get8
    rw [if_pos rfl, Nat.one_mul]
  · unfold lane_get get16
    rw [if_neg (by decide), if_pos rfl]
  · unfold lane_get get32
    rw [if_neg (by decide), if_neg (by decide)]

theorem lane_set_eq (w : Nat) (h : w = 1 ∨ w = 2 ∨ w = 4) (R : Fin 128 → ac_word)
    (p idx v : Nat) : lane_set w R p idx v = vset_elem R w (16 * p + w * idx) v := by
  rcases h with rfl | rfl | rfl
  · unfold lane_set set8
    rw [if_pos rfl, Nat.one_mul]
  · unfold lane_set set16
    rw [if_neg (by decide), if_pos rfl]
  · unfold lane_set set32
    rw [if_neg (by decide), if_neg (by decide)]

/-- Element `n` of a group lies at byte `16 * p + w * n`: the pointer has been
advanced `n / (16 / w)` times and the lane index is `n % (16 / w)`. -/
theorem stripe_offset (w : Nat) (h : w = 1 ∨ w = 2 ∨ w = 4) (p n : Nat) :
    16 / w ≠ 0 ∧ 16 * (p + n / (16 / w)) + w * (n % (16 / w)) = 16 * p + w * n ∧
    (if n % (16 / w) = 16 / w - 1 then n / (16 / w) + 1 else n / (16 / w))
      = (n + 1) / (16 / w) := by
  rcases h with rfl | rfl | rfl <;> norm_num <;> split <;> omega

theorem striping_succ {α : Type} (vlmax : Nat) (body : Nat → Nat → Nat → α → Option α)
    (a x y : α) (n inc : Nat) (hv : vlmax ≠ 0)
    (h : striping vlmax body a n = some (x, inc)) (hb : body inc (n % vlmax) n x = some y) :
    striping vlmax body a (n + 1)
      = some (y, if n % vlmax = vlmax - 1 then inc + 1 else inc) := by
  show (match striping vlmax body a n with
    | none => none
    | some (x, inc) =>
      if vlmax = 0 then none
      else
        match body inc (n % vlmax) n x with
        | none => none
        | some y => some (y, if n % vlmax = vlmax - 1 then inc + 1 else inc)) = _
  rw [h]
  simp only [if_neg hv, hb]

/-- What the loop of a three-pointer behaviour leaves in the bank after `n`
passes, when the three groups lie inside the bank and no source group starts
below the destination and reaches into it: element `i < n` of the destination
holds the value made of the elements `i` the sources held at the start, and no
byte outside the first `n` destination elements has changed. -/
theorem VV_loop (f : Nat → Nat → Nat → Option Int) (g : Nat → Nat → Int) (w vd rs1 rs2 : Nat)
    (R0 : Fin 128 → ac_word) (h : w = 1 ∨ w = 2 ∨ w = 4)
    (hf : ∀ a b, f w a b = some (g a b)) (n : Nat) :
    16 * vd + w * n ≤ 512 → 16 * rs1 + w * n ≤ 512 → 16 * rs2 + w * n ≤ 512 →
    (vd ≤ rs1 ∨ 16 * rs1 + w * n ≤ 16 * vd) → (vd ≤ rs2 ∨ 16 * rs2 + w * n ≤ 16 * vd) →
    ∃ R, striping (16 / w) (VV_pass f w vd rs1 rs2) R0 n = some (R, n / (16 / w)) ∧
      (∀ i, i < n → velem R w (16 * vd + w * i)
        = (to_ac_word (g (velem R0 w (16 * rs1 + w * i)) (velem R0 w (16 * rs2 + w * i)))).val
            % 256 ^ w) ∧
      (∀ b, (b < 16 * vd ∨ 16 * vd + w * n ≤ b) → RBV_byte R b = RBV_byte R0 b) := by
  induction n with
  | zero =>
    intro _ _ _ _ _
    refine ⟨R0, ?_, ?_, ?_⟩
    · rw [Nat.zero_div]; rfl
    · intro i hi; omega
    · intro b _; rfl
  | succ n ih =>
    intro hb0 hb1 hb2 ha1 ha2
    have hmul : w * (n + 1) = w * n + w := Nat.mul_succ w n
    have hwpos : 0 < w := by rcases h with rfl | rfl | rfl <;> norm_num
    rw [hmul] at hb0 hb1 hb2 ha1 ha2
    obtain ⟨R, hR, hel, hframe⟩ := ih (by omega) (by omega) (by omega) (by omega) (by omega)
    obtain ⟨hv, _, hinc⟩ := stripe_offset w h 0 n
    have o0 := (stripe_offset w h vd n).2.1
    have o1 := (stripe_offset w h rs1 n).2.1
    have o2 := (stripe_offset w h rs2 n).2.1
    have hin : vd + n / (16 / w) < 32 ∧ rs1 + n / (16 / w) < 32 ∧ rs2 + n / (16 / w) < 32 := by
      refine ⟨?_, ?_, ?_⟩ <;> omega
    have e1 : velem R w (16 * rs1 + w * n) = velem R0 w (16 * rs1 + w * n) := by
      apply velem_congr
      intro k hk1 hk2
      exact hframe k (by omega)
    have e2 : velem R w (16 * rs2 + w * n) = velem R0 w (16 * rs2 + w * n) := by
      apply velem_congr
      intro k hk1 hk2
      exact hframe k (by omega)
    have hpass : VV_pass f w vd rs1 rs2 (n / (16 / w)) (n % (16 / w)) n R
        = some (vset_elem R w (16 * vd + w * n)
            (to_ac_word (g (velem R0 w (16 * rs1 + w * n))
              (velem R0 w (16 * rs2 + w * n)))).val) := by
      unfold VV_pass
      rw [if_pos h, if_pos hin, lane_get_eq w h, lane_get_eq w h, o1, o2, e1, e2, hf]
      simp only [lane_set_eq w h, o0]
    refine ⟨vset_elem R w (16 * vd + w * n)
      (to_ac_word (g (velem R0 w (16 * rs1 + w * n)) (velem R0 w (16 * rs2 + w * n)))).val,
      ?_, ?_, ?_⟩
    · rw [striping_succ _ _ _ _ _ _ _ hv hR hpass, hinc]
    · intro i hi
      by_cases hin' : i < n
      · have hle : w * i + w ≤ w * n := by
          have := Nat.mul_le_mul_left w (Nat.succ_le_of_lt hin')
          rw [Nat.mul_succ] at this
          exact this
        rw [velem_vset_elem_other _ _ _ _ _ _ (by omega) (by omega)]
        exact hel i hin'
      · have e : i = n := by omega
        rw [e, velem_vset_elem_same _ _ _ _ (by omega)]
    · intro b hb
      rw [hmul] at hb
      rw [RBV_byte_vset_elem _ _ _ _ _ (by omega), if_neg (by omega)]
      exact hframe b (by omega)

theorem to_ac_word_testBit (z : Int) (i : Nat) (hi : i < 32) :
    (to_ac_word z).val.testBit i = z.testBit i := by
  have hv := to_ac_word_val z
  cases z with
  | ofNat m =>
    have e : (to_ac_word (Int.ofNat m)).val = m % 2 ^ 32 := by
      have hc : Int.ofNat m % 2 ^ 32 = ((m % 2 ^ 32 : Nat) : Int) := by
        rw [Int.ofNat_eq_coe]
        omega
      rw [hc] at hv
      exact_mod_cast hv
    rw [e, Nat.testBit_mod_two_pow]
    simp [hi, Int.testBit]
  | negSucc m =>
    have hm : m % 2 ^ 32 < 2 ^ 32 := Nat.mod_lt _ (by norm_num)
    have e : (to_ac_word (Int.negSucc m)).val = 2 ^ 32 - (m % 2 ^ 32 + 1) := by
      rw [Int.negSucc_emod m (by norm_num)] at hv
      omega
    rw [e, Nat.testBit_two_pow_sub_succ hm, Nat.testBit_mod_two_pow]
    simp [hi, Int.testBit]

theorem lane_int_testBit (w a i : Nat) (ha : a < 2 ^ (8 * w)) (hi : i < 8 * w) :
    (lane_int w a).testBit i = a.testBit i := by
  unfold lane_int
  rw [Nat.mod_eq_of_lt ha]
  split
  · rfl
  · have e : ((a : Int) - 2 ^ (8 * w)) = Int.negSucc (2 ^ (8 * w) - (a + 1)) := by
      rw [Int.negSucc_eq]
      have : (((2 ^ (8 * w) - (a + 1) : Nat)) : Int) = 2 ^ (8 * w) - (a + 1) := by
        have h1 : a + 1 ≤ 2 ^ (8 * w) := ha
        push_cast [Nat.cast_sub h1]
        ring
      rw [this]
      ring
    rw [e]
    show (!(Nat.testBit (2 ^ (8 * w) - (a + 1)) i)) = _
    rw [Nat.testBit_two_pow_sub_succ ha]
    simp [hi]

/-- A bitwise operation on the sign-extended lanes, stored back into a lane, is
the bitwise operation on the lanes. -/
theorem lane_bitwise (opZ : Int → Int → Int) (opN : Nat → Nat → Nat) (opB : Bool → Bool → Bool)
    (hZ : ∀ m n k, (opZ m n).testBit k = opB (m.testBit k) (n.testBit k))
    (hN : ∀ m n k, (opN m n).testBit k = opB (m.testBit k) (n.testBit k))
    (hB : opB false false = false)
    (w a b : Nat) (h : w = 1 ∨ w = 2 ∨ w = 4) (ha : a < 256 ^ w) (hb : b < 256 ^ w) :
    (to_ac_word (opZ (lane_int w a) (lane_int w b))).val % 256 ^ w = opN a b := by
  have e256 : 256 ^ w = 2 ^ (8 * w) := by
    rw [pow_mul]
    norm_num
  rw [e256] at ha hb ⊢
  apply Nat.eq_of_testBit_eq
  intro i
  rw [Nat.testBit_mod_two_pow, hN]
  by_cases hi : i < 8 * w
  · have hi32 : i < 32 := by rcases h with rfl | rfl | rfl <;> omega
    rw [to_ac_word_testBit _ _ hi32, hZ, lane_int_testBit w a i ha hi,
      lane_int_testBit w b i hb hi]
    simp [hi]
  · have hp : 2 ^ (8 * w) ≤ 2 ^ i := Nat.pow_le_pow_right (by norm_num) (by omega)
    rw [Nat.testBit_lt_two_pow (lt_of_lt_of_le ha hp),
      Nat.testBit_lt_two_pow (lt_of_lt_of_le hb hp), hB]
    simp [hi]

theorem lane_int_emod (w a : Nat) (h : w = 1 ∨ w = 2 ∨ w = 4) :
    lane_int w a % 256 ^ w = (a : Int) % 256 ^ w := by
  unfold lane_int
  rcases h with rfl | rfl | rfl <;> norm_num <;> split <;> omega

/-- The value an assignment `set8`, `set16`, `set32` of an `int` leaves in the
lane depends on the `int` modulo the lane width only. -/
theorem lane_store (w : Nat) (h : w = 1 ∨ w = 2 ∨ w = 4) (z : Int) :
    (((to_ac_word z).val % 256 ^ w : Nat) : Int) = z % 256 ^ w := by
  have hv := to_ac_word_val z
  rcases h with rfl | rfl | rfl <;> norm_num <;> omega

theorem lane_add (w a b : Nat) (h : w = 1 ∨ w = 2 ∨ w = 4) :
    (to_ac_word (lane_int w a + lane_int w b)).val % 256 ^ w = (a + b) % 256 ^ w := by
  have h1 := lane_store w h (lane_int w a + lane_int w b)
  rw [Int.add_emod, lane_int_emod w a h, lane_int_emod w b h, ← Int.add_emod] at h1
  exact_mod_cast h1

theorem lane_sub (w a b : Nat) (h : w = 1 ∨ w = 2 ∨ w = 4) :
    (to_ac_word (lane_int w a - lane_int w b)).val % 256 ^ w
      = (((a : Int) - (b : Int)) % 256 ^ w).toNat := by
  have h1 := lane_store w h (lane_int w a - lane_int w b)
  rw [Int.sub_emod, lane_int_emod w a h, lane_int_emod w b h, ← Int.sub_emod] at h1
  omega

theorem lane_mul (w a b : Nat) (h : w = 1 ∨ w = 2 ∨ w = 4) :
    (to_ac_word (lane_int w a * lane_int w b)).val % 256 ^ w = (a * b) % 256 ^ w := by
  have h1 := lane_store w h (lane_int w a * lane_int w b)
  rw [Int.mul_emod, lane_int_emod w a h, lane_int_emod w b h, ← Int.mul_emod] at h1
  exact_mod_cast h1

theorem pow_two_eight (w : Nat) : 2 ^ (8 * w) = 256 ^ w := by
  rw [pow_mul]
  norm_num

/-- For an element width of 1, 2 or 4 bytes both declarations of `vlmax` give
`16 / SEW`. -/
theorem SEW_vlmax (v : Nat) (h : SEW v = 1 ∨ SEW v = 2 ∨ SEW v = 4) :
    vlmax_128 (v >>> 3) = some (16 / SEW v) ∧ vlmax_16 (v >>> 3) = some (16 / SEW v) := by
  unfold SEW at h ⊢
  generalize v >>> 3 = k at h ⊢
  have hk : k ≤ 2 := by
    by_contra hc
    have h8 : 2 ^ 3 ≤ 2 ^ k := Nat.pow_le_pow_right (by norm_num) (by omega)
    rw [Nat.one_shiftLeft] at h
    omega
  interval_cases k <;> exact ⟨by decide, by decide⟩

/-- The three-pointer behaviours, element by element: when the element width is
1, 2 or 4 bytes, the three groups of `vl` elements lie inside the register file
and no source group starts below the destination group and reaches into it, the
behaviour returns a state that differs from the old one in the vector registers
only, element `i < vl` of the destination holds the value made of the elements
`i` the sources held before, and no byte outside the destination elements has
changed. -/
theorem VV_form_lanes (vlmax : Nat → Option Nat) (f : Nat → Nat → Nat → Option Int)
    (g : Nat → Nat → Int) (spec : Nat → Nat → Nat) (vd rs1 rs2 : Nat) (s : State)
    (h : SEW s.vtype.val = 1 ∨ SEW s.vtype.val = 2 ∨ SEW s.vtype.val = 4)
    (hv : vlmax (s.vtype.val >>> 3) = some (16 / SEW s.vtype.val))
    (hf : ∀ a b, f (SEW s.vtype.val) a b = some (g a b))
    (hspec : ∀ a b, a < 256 ^ SEW s.vtype.val → b < 256 ^ SEW s.vtype.val →
      (to_ac_word (g a b)).val % 256 ^ SEW s.vtype.val = spec a b)
    (hb0 : 16 * vd + SEW s.vtype.val * s.vl.val ≤ 512)
    (hb1 : 16 * rs1 + SEW s.vtype.val * s.vl.val ≤ 512)
    (hb2 : 16 * rs2 + SEW s.vtype.val * s.vl.val ≤ 512)
    (ha1 : vd ≤ rs1 ∨ 16 * rs1 + SEW s.vtype.val * s.vl.val ≤ 16 * vd)
    (ha2 : vd ≤ rs2 ∨ 16 * rs2 + SEW s.vtype.val * s.vl.val ≤ 16 * vd) :
    ∃ t, VV_form vlmax f vd rs1 rs2 s = some t ∧ t = { s with RBV := t.RBV } ∧
      (∀ i, i < s.vl.val → vgroup_elem t.RBV (SEW s.vtype.val) vd i
        = spec (vgroup_elem s.RBV (SEW s.vtype.val) rs1 i)
            (vgroup_elem s.RBV (SEW s.vtype.val) rs2 i)) ∧
      (∀ b, (b < 16 * vd ∨ 16 * vd + SEW s.vtype.val * s.vl.val ≤ b) →
        RBV_byte t.RBV b = RBV_byte s.RBV b) := by
  have hS : 1 <<< (s.vtype.val >>> 3) = SEW s.vtype.val := rfl
  obtain ⟨R, hR, hel, hframe⟩ :=
    VV_loop f g (SEW s.vtype.val) vd rs1 rs2 s.RBV h hf s.vl.val hb0 hb1 hb2 ha1 ha2
  refine ⟨{ s with RBV := R }, ?_, rfl, ?_, hframe⟩
  · unfold VV_form
    rw [hv]
    simp only [hS, hR]
  · intro i hi
    unfold vgroup_elem
    show velem R _ _ = _
    rw [hel i hi]
    exact hspec _ _ (velem_lt _ _ _) (velem_lt _ _ _)

/-! ## The vector length invariant -/

/-- C21 (the code at the failing input): the state has `vl = 0`, `vtype = 0`,
`vlenb = 16` and `x1 = 0x80000000`.  `VSETVLI x5, x1` with `vtypei = 0` installs
SEW 1 byte and LMUL 1, for which `LMUL · 16 / SEW = 16`; the behaviour reads the
requested length as an `int`, finds it below 16 and sets `vl = 0x80000000`, which
is not at most 16. -/
theorem vl_exceeds_VLMAX :
    (state_regs 0x80000000 0 0).vl.val = 0 ∧
      (state_regs 0x80000000 0 0).vtype.val = 0 ∧
      (state_regs 0x80000000 0 0).vlenb.val = 16 ∧
      (VSETVLI 5 1 0 (state_regs 0x80000000 0 0)).vtype.val = 0 ∧
      (VSETVLI 5 1 0 (state_regs 0x80000000 0 0)).vl.val = 0x80000000 ∧
      LMUL 0 * 16 / SEW 0 = 16 ∧
      ¬ (VSETVLI 5 1 0 (state_regs 0x80000000 0 0)).vl.val
          ≤ LMUL (VSETVLI 5 1 0 (state_regs 0x80000000 0 0)).vtype.val * 16
            / SEW (VSETVLI 5 1 0 (state_regs 0x80000000 0 0)).vtype.val := by
  decide

/-! ## Lane-wise arithmetic -/

theorem VV_form_post (vlmax : Nat → Option Nat) (f : Nat → Nat → Nat → Option Int)
    (g : Nat → Nat → Int) (spec : Nat → Nat → Nat) (vd rs1 rs2 : Nat) (s : State)
    (h : SEW s.vtype.val = 1 ∨ SEW s.vtype.val = 2 ∨ SEW s.vtype.val = 4)
    (hv : vlmax (s.vtype.val >>> 3) = some (16 / SEW s.vtype.val))
    (hf : ∀ a b, f (SEW s.vtype.val) a b = some (g a b))
    (hspec : ∀ a b, a < 256 ^ SEW s.vtype.val → b < 256 ^ SEW s.vtype.val →
      (to_ac_word (g a b)).val % 256 ^ SEW s.vtype.val = spec a b)
    (hb0 : 16 * vd + SEW s.vtype.val * s.vl.val ≤ 512)
    (hb1 : 16 * rs1 + SEW s.vtype.val * s.vl.val ≤ 512)
    (hb2 : 16 * rs2 + SEW s.vtype.val * s.vl.val ≤ 512)
    (ha1 : vd ≤ rs1 ∨ 16 * rs1 + SEW s.vtype.val * s.vl.val ≤ 16 * vd)
    (ha2 : vd ≤ rs2 ∨ 16 * rs2 + SEW s.vtype.val * s.vl.val ≤ 16 * vd) :
    lanes_post s (VV_form vlmax f vd rs1 rs2 s) vd rs1 rs2 spec := by
  obtain ⟨t, ht, _, hl, _⟩ :=
    VV_form_lanes vlmax f g spec vd rs1 rs2 s h hv hf hspec hb0 hb1 hb2 ha1 ha2
  exact ⟨t, ht, hl⟩

theorem lane_and (w a b : Nat) (h : w = 1 ∨ w = 2 ∨ w = 4) (ha : a < 256 ^ w)
    (hb : b < 256 ^ w) :
    (to_ac_word (Int.land (lane_int w a) (lane_int w b))).val % 256 ^ w
      = (a &&& b) % 2 ^ (8 * w) := by
  rw [lane_bitwise Int.land (fun x y => x &&& y) (fun x y => x && y) Int.testBit_land
    Nat.testBit_and rfl w a b h ha hb]
  rw [← pow_two_eight] at hb
  exact (Nat.mod_eq_of_lt (Nat.and_lt_two_pow a hb)).symm

theorem lane_or (w a b : Nat) (h : w = 1 ∨ w = 2 ∨ w = 4) (ha : a < 256 ^ w)
    (hb : b < 256 ^ w) :
    (to_ac_word (Int.lor (lane_int w a) (lane_int w b))).val % 256 ^ w
      = (a ||| b) % 2 ^ (8 * w) := by
  rw [lane_bitwise Int.lor (fun x y => x ||| y) (fun x y => x || y) Int.testBit_lor
    Nat.testBit_or rfl w a b h ha hb]
  rw [← pow_two_eight] at ha hb
  exact (Nat.mod_eq_of_lt (Nat.or_lt_two_pow ha hb)).symm

theorem lane_xor (w a b : Nat) (h : w = 1 ∨ w = 2 ∨ w = 4) (ha : a < 256 ^ w)
    (hb : b < 256 ^ w) :
    (to_ac_word (Int.xor (lane_int w a) (lane_int w b))).val % 256 ^ w
      = (a ^^^ b) % 2 ^ (8 * w) := by
  rw [lane_bitwise Int.xor (fun x y => x ^^^ y) (fun x y => xor x y) Int.testBit_lxor
    Nat.testBit_xor rfl w a b h ha hb]
  rw [← pow_two_eight] at ha hb
  exact (Nat.mod_eq_of_lt (Nat.xor_lt_two_pow ha hb)).symm

/-- A lane value stored as it is comes back unchanged. -/
theorem lane_nat (w n : Nat) (h : w = 1 ∨ w = 2 ∨ w = 4) (hn : n < 256 ^ w) :
    (to_ac_word (n : Int)).val % 256 ^ w = n := by
  have h32 : n < 2 ^ 32 := by
    rcases h with rfl | rfl | rfl <;> norm_num at hn <;> omega
  rw [to_ac_word_natCast_val n h32, Nat.mod_eq_of_lt hn]

/-- The value a comparison stores, 1 or 0, is what the lane holds afterwards. -/
theorem lane_flag (w : Nat) (h : w = 1 ∨ w = 2 ∨ w = 4) (c : Prop) [Decidable c] :
    (to_ac_word (if c then 1 else 0)).val % 256 ^ w = if c then 1 else 0 := by
  have h1 : (to_ac_word 1).val = 1 := by decide
  have h0 : (to_ac_word 0).val = 0 := by decide
  by_cases hc : c
  · rw [if_pos hc, if_pos hc, h1]
    rcases h with rfl | rfl | rfl <;> norm_num
  · rw [if_neg hc, if_neg hc, h0, Nat.zero_mod]

theorem lane_uint_lt (w x : Nat) : lane_uint w x < 256 ^ w := by
  unfold lane_uint
  rw [← pow_two_eight]
  exact Nat.mod_lt _ (by positivity)

theorem lane_uint_of_lt (w a : Nat) (ha : a < 256 ^ w) : lane_uint w a = a := by
  unfold lane_uint
  rw [pow_two_eight]
  exact Nat.mod_eq_of_lt ha

/-- C22 (the code at the counterexample): SEW is 4 bytes, LMUL 2, `vl = 5`, word
`i` of the vector register file holds `i`.  `VADD.VV v2, v4, v1` reads the group
of `vs1 = v1` from byte 16 on and writes the group of `vd = v2` from byte 32 on,
so element 4 of `vs1` is element 0 of `vd`: before the instruction `vs2[4] = 20`
and `vs1[4] = 8`, whose sum is 28, and the behaviour leaves 40 in element 4 of
`vd`, because it read `vs1[4]` after pass 0 had stored `4 + 16 = 20` there. -/
theorem VADDVV_overlap_counterexample :
    SEW (state_vec 0 0 0 0x11 5 (fun i => i)).vtype.val = 4 ∧
      LMUL (state_vec 0 0 0 0x11 5 (fun i => i)).vtype.val = 2 ∧
      (state_vec 0 0 0 0x11 5 (fun i => i)).vl.val = 5 ∧
      vgroup_elem (state_vec 0 0 0 0x11 5 (fun i => i)).RBV 4 4 4 = 20 ∧
      vgroup_elem (state_vec 0 0 0 0x11 5 (fun i => i)).RBV 4 1 4 = 8 ∧
      (VADDVV 2 1 4 (state_vec 0 0 0 0x11 5 (fun i => i))).map
        (fun t => vgroup_elem t.RBV 4 2 4) = some 40 := by
  decide!

/-- C22 (amended): for VADD, VSUB, VMUL, VAND, VOR, VXOR in the .VV form, an
element width of 1, 2 or 4 bytes, groups of `vl` elements that lie inside the
register file and neither source group starting below the destination group and
reaching into it: the behaviour returns a state in which every element `i < vl`
of the destination group is `op(vs2[i], vs1[i]) mod 2^(8·SEW)` of the source
elements as they were before the instruction (VSUB being `vs2 − vs1`). -/
theorem VV_arith_lanes (s : State) (vd rs1 rs2 : Fin 32)
    (h : SEW s.vtype.val = 1 ∨ SEW s.vtype.val = 2 ∨ SEW s.vtype.val = 4)
    (hb0 : 16 * vd.val + SEW s.vtype.val * s.vl.val ≤ 512)
    (hb1 : 16 * rs1.val + SEW s.vtype.val * s.vl.val ≤ 512)
    (hb2 : 16 * rs2.val + SEW s.vtype.val * s.vl.val ≤ 512)
    (ha1 : vd.val ≤ rs1.val ∨ 16 * rs1.val + SEW s.vtype.val * s.vl.val ≤ 16 * vd.val)
    (ha2 : vd.val ≤ rs2.val ∨ 16 * rs2.val + SEW s.vtype.val * s.vl.val ≤ 16 * vd.val) :
    lanes_post s (VADDVV vd rs1 rs2 s) vd.val rs1.val rs2.val
        (fun a b => (b + a) % 2 ^ (8 * SEW s.vtype.val)) ∧
      lanes_post s (VSUBVV vd rs1 rs2 s) vd.val rs1.val rs2.val
        (fun a b => (((b : Int) - (a : Int)) % 2 ^ (8 * SEW s.vtype.val)).toNat) ∧
      lanes_post s (VMULVV vd rs1 rs2 s) vd.val rs1.val rs2.val
        (fun a b => (b * a) % 2 ^ (8 * SEW s.vtype.val)) ∧
      lanes_post s (VANDVV vd rs1 rs2 s) vd.val rs1.val rs2.val
        (fun a b => (b &&& a) % 2 ^ (8 * SEW s.vtype.val)) ∧
      lanes_post s (VORVV vd rs1 rs2 s) vd.val rs1.val rs2.val
        (fun a b => (b ||| a) % 2 ^ (8 * SEW s.vtype.val)) ∧
      lanes_post s (VXORVV vd rs1 rs2 s) vd.val rs1.val rs2.val
        (fun a b => (b ^^^ a) % 2 ^ (8 * SEW s.vtype.val)) := by
  have hv := SEW_vlmax s.vtype.val h
  have hp := pow_two_eight (SEW s.vtype.val)
  have hpz : (2 : Int) ^ (8 * SEW s.vtype.val) = 256 ^ SEW s.vtype.val := by exact_mod_cast hp
  refine ⟨?_, ?_, ?_, ?_, ?_, ?_⟩
  · exact VV_form_post vlmax_128 _
      (fun a b => lane_int (SEW s.vtype.val) a + lane_int (SEW s.vtype.val) b) _ _ _ _ s h hv.1
      (fun _ _ => rfl)
      (fun a b _ _ => by rw [lane_add _ a b h, hp, Nat.add_comm]) hb0 hb1 hb2 ha1 ha2
  · exact VV_form_post vlmax_128 _
      (fun a b => lane_int (SEW s.vtype.val) b - lane_int (SEW s.vtype.val) a) _ _ _ _ s h hv.1
      (fun _ _ => rfl)
      (fun a b _ _ => by rw [lane_sub _ b a h, hpz]) hb0 hb1 hb2 ha1 ha2
  · exact VV_form_post vlmax_16 _
      (fun a b => lane_int (SEW s.vtype.val) b * lane_int (SEW s.vtype.val) a) _ _ _ _ s h hv.2
      (fun _ _ => rfl)
      (fun a b _ _ => by rw [lane_mul _ b a h, hp]) hb0 hb1 hb2 ha1 ha2
  · exact VV_form_post vlmax_128 _
      (fun a b => Int.land (lane_int (SEW s.vtype.val) b) (lane_int (SEW s.vtype.val) a))
      _ _ _ _ s h hv.1 (fun _ _ => rfl)
      (fun a b ha hb => lane_and _ b a h hb ha) hb0 hb1 hb2 ha1 ha2
  · exact VV_form_post vlmax_128 _
      (fun a b => Int.lor (lane_int (SEW s.vtype.val) b) (lane_int (SEW s.vtype.val) a))
      _ _ _ _ s h hv.1 (fun _ _ => rfl)
      (fun a b ha hb => lane_or _ b a h hb ha) hb0 hb1 hb2 ha1 ha2
  · exact VV_form_post vlmax_128 _
      (fun a b => Int.xor (lane_int (SEW s.vtype.val) b) (lane_int (SEW s.vtype.val) a))
      _ _ _ _ s h hv.1 (fun _ _ => rfl)
      (fun a b ha hb => lane_xor _ b a h hb ha) hb0 hb1 hb2 ha1 ha2

/-- Witness for `VV_arith_lanes`, the vector add of the specification: SEW 4
bytes, LMUL 1, `vl = 4`, `v1 = [1, 2, 3, 4]`, `v2 = [10, 20, 30, 40]`;
`VADD.VV v3, v2, v1` leaves `[11, 22, 33, 44]` in `v3`. -/
theorem VV_arith_lanes_witness :
    lanes_post (state_two_vectors 0 0x10 4 [1, 2, 3, 4] [10, 20, 30, 40])
        (VADDVV 3 1 2 (state_two_vectors 0 0x10 4 [1, 2, 3, 4] [10, 20, 30, 40])) 3 1 2
        (fun a b => (b + a) % 2 ^ (8 * 4)) ∧
      (VADDVV 3 1 2 (state_two_vectors 0 0x10 4 [1, 2, 3, 4] [10, 20, 30, 40])).map
        (fun t => group_elems t.RBV 4 3 4) = some [11, 22, 33, 44] :=
  ⟨(VV_arith_lanes (state_two_vectors 0 0x10 4 [1, 2, 3, 4] [10, 20, 30, 40]) 3 1 2
      (by decide) (by decide) (by decide) (by decide) (by decide) (by decide)).1,
    by decide!⟩

/-- C23 (the code at the failing input): SEW is 4 bytes, `vl = 4`, word `i` of
the vector register file holds `i`, so `v2 = [8, 9, 10, 11]` and
`v1 = [4, 5, 6, 7]`.  `VADD.VI v3, v2, 1` has the immediate field (`rs1`) 1 and
the source field `rs2 = 2`; it is to give `[9, 10, 11, 12]`.  The behaviour aims
its source pointer at `RBV[4 * rs1]`, register `v1`, and leaves
`[5, 6, 7, 8]` in `v3`. -/
theorem VADDVI_source_register :
    SEW (state_vec 0 0 0 0x10 4 (fun i => i)).vtype.val = 4 ∧
      (state_vec 0 0 0 0x10 4 (fun i => i)).vl.val = 4 ∧
      sign_extend 1 5 = 1 ∧
      group_elems (state_vec 0 0 0 0x10 4 (fun i => i)).RBV 4 2 4 = [8, 9, 10, 11] ∧
      group_elems (state_vec 0 0 0 0x10 4 (fun i => i)).RBV 4 1 4 = [4, 5, 6, 7] ∧
      (VADDVI 3 1 2 (state_vec 0 0 0 0x10 4 (fun i => i))).map
        (fun t => group_elems t.RBV 4 3 4) = some [5, 6, 7, 8] := by
  decide!

/-! ## Unsigned minimum and maximum -/

/-- C24 (the code at the counterexample): SEW is 4 bytes, LMUL 2, `vl = 5`, word
`i` of the vector register file holds `100 - i`.  For `VMAXU.VV v2, v4, v1` the
group of `vs1 = v1` reaches into the group of `vd = v2`: before the instruction
`vs2[4] = 80` and `vs1[4] = 92`, whose maximum is 92, and the behaviour leaves 96
in element 4 of `vd`, the maximum of 80 and the 96 that pass 0 stored in
`vs1[4]`. -/
theorem VMAXUVV_overlap_counterexample :
    SEW (state_vec 0 0 0 0x11 5 (fun i => 100 - i)).vtype.val = 4 ∧
      (state_vec 0 0 0 0x11 5 (fun i => 100 - i)).vl.val = 5 ∧
      vgroup_elem (state_vec 0 0 0 0x11 5 (fun i => 100 - i)).RBV 4 4 4 = 80 ∧
      vgroup_elem (state_vec 0 0 0 0x11 5 (fun i => 100 - i)).RBV 4 1 4 = 92 ∧
      (VMAXUVV 2 1 4 (state_vec 0 0 0 0x11 5 (fun i => 100 - i))).map
        (fun t => vgroup_elem t.RBV 4 2 4) = some 96 := by
  decide!

/-- C24 (amended): for an element width of 1, 2 or 4 bytes, groups of `vl`
elements inside the register file and no source group starting below the
destination group and reaching into it, VMAXU.VV and VMINU.VV leave in every
element `i < vl` of `vd` the maximum and the minimum of `vs2[i]` and `vs1[i]` as
unsigned numbers, and VMAXU.VX and VMINU.VX those of `vs2[i]` and `x[rs1]`
truncated to SEW bits. -/
theorem VMINU_VMAXU_lanes (s : State) (vd rs1 rs2 : Fin 32)
    (h : SEW s.vtype.val = 1 ∨ SEW s.vtype.val = 2 ∨ SEW s.vtype.val = 4)
    (hb0 : 16 * vd.val + SEW s.vtype.val * s.vl.val ≤ 512)
    (hb2 : 16 * rs2.val + SEW s.vtype.val * s.vl.val ≤ 512)
    (ha2 : vd.val ≤ rs2.val ∨ 16 * rs2.val + SEW s.vtype.val * s.vl.val ≤ 16 * vd.val) :
    (16 * rs1.val + SEW s.vtype.val * s.vl.val ≤ 512 →
      (vd.val ≤ rs1.val ∨ 16 * rs1.val + SEW s.vtype.val * s.vl.val ≤ 16 * vd.val) →
      lanes_post s (VMAXUVV vd rs1 rs2 s) vd.val rs1.val rs2.val (fun a b => max b a) ∧
        lanes_post s (VMINUVV vd rs1 rs2 s) vd.val rs1.val rs2.val (fun a b => min b a)) ∧
      lanes_post s (VMAXUVX vd rs1 rs2 s) vd.val rs2.val rs2.val
        (fun a _ => max a ((s.RB rs1).val % 2 ^ (8 * SEW s.vtype.val))) ∧
      lanes_post s (VMINUVX vd rs1 rs2 s) vd.val rs2.val rs2.val
        (fun a _ => min a ((s.RB rs1).val % 2 ^ (8 * SEW s.vtype.val))) := by
  have hv := SEW_vlmax s.vtype.val h
  refine ⟨fun hb1 ha1 => ⟨?_, ?_⟩, ?_, ?_⟩
  · exact VV_form_post vlmax_128 _ (fun a b => if b > a then (b : Int) else (a : Int)) _ _ _ _ s
      h hv.1 (fun _ _ => rfl)
      (fun a b ha hb => by
        dsimp only
        by_cases hc : b > a
        · rw [if_pos hc, lane_nat _ b h hb, max_eq_left (le_of_lt hc)]
        · rw [if_neg hc, lane_nat _ a h ha, max_eq_right (by omega)])
      hb0 hb1 hb2 ha1 ha2
  · exact VV_form_post vlmax_128 _ (fun a b => if b < a then (b : Int) else (a : Int)) _ _ _ _ s
      h hv.1 (fun _ _ => rfl)
      (fun a b ha hb => by
        dsimp only
        by_cases hc : b < a
        · rw [if_pos hc, lane_nat _ b h hb, min_eq_left (le_of_lt hc)]
        · rw [if_neg hc, lane_nat _ a h ha, min_eq_right (by omega)])
      hb0 hb1 hb2 ha1 ha2
  · exact VV_form_post vlmax_128 _
      (fun a _ => if lane_uint (SEW s.vtype.val) (s.RB rs1).val > a
        then (lane_uint (SEW s.vtype.val) (s.RB rs1).val : Int) else (a : Int)) _ _ _ _ s
      h hv.1 (fun _ _ => rfl)
      (fun a _ ha _ => by
        show (to_ac_word (if lane_uint (SEW s.vtype.val) (s.RB rs1).val > a
          then (lane_uint (SEW s.vtype.val) (s.RB rs1).val : Int) else (a : Int))).val
            % 256 ^ SEW s.vtype.val = max a (lane_uint (SEW s.vtype.val) (s.RB rs1).val)
        by_cases hc : lane_uint (SEW s.vtype.val) (s.RB rs1).val > a
        · rw [if_pos hc, lane_nat _ _ h (lane_uint_lt _ _), max_eq_right (le_of_lt hc)]
        · rw [if_neg hc, lane_nat _ a h ha, max_eq_left (by omega)])
      hb0 hb2 hb2 ha2 ha2
  · exact VV_form_post vlmax_128 _
      (fun a _ => if lane_uint (SEW s.vtype.val) (s.RB rs1).val < a
        then (lane_uint (SEW s.vtype.val) (s.RB rs1).val : Int) else (a : Int)) _ _ _ _ s
      h hv.1 (fun _ _ => rfl)
      (fun a _ ha _ => by
        show (to_ac_word (if lane_uint (SEW s.vtype.val) (s.RB rs1).val < a
          then (lane_uint (SEW s.vtype.val) (s.RB rs1).val : Int) else (a : Int))).val
            % 256 ^ SEW s.vtype.val = min a (lane_uint (SEW s.vtype.val) (s.RB rs1).val)
        by_cases hc : lane_uint (SEW s.vtype.val) (s.RB rs1).val < a
        · rw [if_pos hc, lane_nat _ _ h (lane_uint_lt _ _), min_eq_right (le_of_lt hc)]
        · rw [if_neg hc, lane_nat _ a h ha, min_eq_left (by omega)])
      hb0 hb2 hb2 ha2 ha2

/-- Witness for `VMINU_VMAXU_lanes`, the data of the test `vmaxu.c`: SEW 4 bytes,
`vl = 4`, `v1 = [1, 2, 3, 4]`, `v2 = [8, 7, 5, 3]`; `VMAXU.VV v3, v2, v1` leaves
`[8, 7, 5, 4]` in `v3`. -/
theorem VMINU_VMAXU_lanes_witness :
    lanes_post (state_two_vectors 0 0x10 4 [1, 2, 3, 4] [8, 7, 5, 3])
        (VMAXUVV 3 1 2 (state_two_vectors 0 0x10 4 [1, 2, 3, 4] [8, 7, 5, 3])) 3 1 2
        (fun a b => max b a) ∧
      (VMAXUVV 3 1 2 (state_two_vectors 0 0x10 4 [1, 2, 3, 4] [8, 7, 5, 3])).map
        (fun t => group_elems t.RBV 4 3 4) = some [8, 7, 5, 4] :=
  ⟨((VMINU_VMAXU_lanes (state_two_vectors 0 0x10 4 [1, 2, 3, 4] [8, 7, 5, 3]) 3 1 2
      (by decide) (by decide) (by decide) (by decide)).1 (by decide) (by decide)).1,
    by decide!⟩

/-! ## Vector shifts -/

/-- C25 (the code at the failing input): SEW is 1 byte, `vl = 1`, the shift
operand `vs1[0]` is 8 and `vs2[0]` is 129.  The shift count reduced modulo
`8 · SEW = 8` is 0, so VSLL.VV and VSRL.VV are both to leave 129; the behaviours
shift the 32-bit value by the full count 8 and leave 0 in element 0 of `vd`. -/
theorem vector_shift_count_not_reduced :
    SEW (state_vec 0 0 0 0 1 (fun i => if i = 4 then 8 else if i = 8 then 129 else 0)).vtype.val
        = 1 ∧
      (state_vec 0 0 0 0 1 (fun i => if i = 4 then 8 else if i = 8 then 129 else 0)).vl.val = 1 ∧
      vgroup_elem (state_vec 0 0 0 0 1
        (fun i => if i = 4 then 8 else if i = 8 then 129 else 0)).RBV 1 1 0 = 8 ∧
      vgroup_elem (state_vec 0 0 0 0 1
        (fun i => if i = 4 then 8 else if i = 8 then 129 else 0)).RBV 1 2 0 = 129 ∧
      (129 <<< (8 % 8)) % 2 ^ 8 = 129 ∧ (129 >>> (8 % 8)) % 2 ^ 8 = 129 ∧
      (VSLLVV 3 1 2 (state_vec 0 0 0 0 1
        (fun i => if i = 4 then 8 else if i = 8 then 129 else 0))).map
        (fun t => vgroup_elem t.RBV 1 3 0) = some 0 ∧
      (VSRLVV 3 1 2 (state_vec 0 0 0 0 1
        (fun i => if i = 4 then 8 else if i = 8 then 129 else 0))).map
        (fun t => vgroup_elem t.RBV 1 3 0) = some 0 := by
  decide!

/-! ## Vector comparisons for equality -/

/-- C26 (the code at the counterexample): SEW is 4 bytes, LMUL 2, `vl = 5`, word
`i` of the vector register file holds `i`, except word 20, which holds 0.  For
`VMSEQ.VV v2, v4, v1` the group of `vs1 = v1` reaches into the group of
`vd = v2`: before the instruction `vs2[4] = 0` and `vs1[4] = 8` differ, so
element 4 of `vd` is to be 0; the behaviour leaves 1 there, because pass 0 had
stored the flag 0 in `vs1[4]`. -/
theorem VMSEQVV_overlap_counterexample :
    SEW (state_vec 0 0 0 0x11 5 (fun i => if i = 20 then 0 else i)).vtype.val = 4 ∧
      (state_vec 0 0 0 0x11 5 (fun i => if i = 20 then 0 else i)).vl.val = 5 ∧
      vgroup_elem (state_vec 0 0 0 0x11 5 (fun i => if i = 20 then 0 else i)).RBV 4 4 4 = 0 ∧
      vgroup_elem (state_vec 0 0 0 0x11 5 (fun i => if i = 20 then 0 else i)).RBV 4 1 4 = 8 ∧
      (VMSEQVV 2 1 4 (state_vec 0 0 0 0x11 5 (fun i => if i = 20 then 0 else i))).map
        (fun t => vgroup_elem t.RBV 4 2 4) = some 1 := by
  decide!

/-- C26 (amended): for an element width of 1, 2 or 4 bytes, groups of `vl`
elements inside the register file and no source group starting below the
destination group and reaching into it, VMSEQ.VV and VMSNE.VV leave in every
element `i < vl` of `vd`, a whole element of SEW bytes, exactly 1 when `vs2[i]`
equals (for VMSNE: differs from) `vs1[i]` and exactly 0 otherwise. -/
theorem VMSEQ_VMSNE_lanes (s : State) (vd rs1 rs2 : Fin 32)
    (h : SEW s.vtype.val = 1 ∨ SEW s.vtype.val = 2 ∨ SEW s.vtype.val = 4)
    (hb0 : 16 * vd.val + SEW s.vtype.val * s.vl.val ≤ 512)
    (hb1 : 16 * rs1.val + SEW s.vtype.val * s.vl.val ≤ 512)
    (hb2 : 16 * rs2.val + SEW s.vtype.val * s.vl.val ≤ 512)
    (ha1 : vd.val ≤ rs1.val ∨ 16 * rs1.val + SEW s.vtype.val * s.vl.val ≤ 16 * vd.val)
    (ha2 : vd.val ≤ rs2.val ∨ 16 * rs2.val + SEW s.vtype.val * s.vl.val ≤ 16 * vd.val) :
    lanes_post s (VMSEQVV vd rs1 rs2 s) vd.val rs1.val rs2.val
        (fun a b => if b = a then 1 else 0) ∧
      lanes_post s (VMSNEVV vd rs1 rs2 s) vd.val rs1.val rs2.val
        (fun a b => if b ≠ a then 1 else 0) := by
  have hv := SEW_vlmax s.vtype.val h
  refine ⟨?_, ?_⟩
  · exact VV_form_post vlmax_128 _
      (fun a b => if b = lane_uint (SEW s.vtype.val) a then 1 else 0) _ _ _ _ s
      h hv.1 (fun _ _ => rfl)
      (fun a b ha _ => by dsimp only; rw [lane_flag _ h, lane_uint_of_lt _ a ha]) hb0 hb1 hb2 ha1 ha2
  · exact VV_form_post vlmax_128 _
      (fun a b => if b ≠ lane_uint (SEW s.vtype.val) a then 1 else 0) _ _ _ _ s
      h hv.1 (fun _ _ => rfl)
      (fun a b ha _ => by dsimp only; rw [lane_flag _ h, lane_uint_of_lt _ a ha]) hb0 hb1 hb2 ha1 ha2

/-- Witness for `VMSEQ_VMSNE_lanes`, the data of the test `vmsne.c`: SEW 4 bytes,
`vl = 4`, `v1 = [1, 2, 3, 4]`, `v2 = [1, 2, 4, 3]`; `VMSNE.VV v3, v2, v1` leaves
`[0, 0, 1, 1]` in `v3`. -/
theorem VMSEQ_VMSNE_lanes_witness :
    lanes_post (state_two_vectors 0 0x10 4 [1, 2, 3, 4] [1, 2, 4, 3])
        (VMSNEVV 3 1 2 (state_two_vectors 0 0x10 4 [1, 2, 3, 4] [1, 2, 4, 3])) 3 1 2
        (fun a b => if b ≠ a then 1 else 0) ∧
      (VMSNEVV 3 1 2 (state_two_vectors 0 0x10 4 [1, 2, 3, 4] [1, 2, 4, 3])).map
        (fun t => group_elems t.RBV 4 3 4) = some [0, 0, 1, 1] :=
  ⟨(VMSEQ_VMSNE_lanes (state_two_vectors 0 0x10 4 [1, 2, 3, 4] [1, 2, 4, 3]) 3 1 2
      (by decide) (by decide) (by decide) (by decide) (by decide) (by decide)).2,
    by decide!⟩

/-! ## Reductions -/

/-- C27 (the code at the failing input): SEW is 4 bytes, `vl = 4`,
`vs1[0] = 100` and `vs2 = [200, 200, 200, 200]`, so VREDSUM.VS is to leave
`100 + 800 = 900` in element 0 of `vd`.  Under `sew == 4` the behaviour adds
`( int8_t ) v2->get32( idx )`, the low byte of each element read as a signed
byte, here `-56`, and leaves `100 - 224`, that is `4294967172`. -/
theorem VREDSUMVS_wide_element_as_byte :
    SEW (state_two_vectors 0 0x10 4 [100] [200, 200, 200, 200]).vtype.val = 4 ∧
      (state_two_vectors 0 0x10 4 [100] [200, 200, 200, 200]).vl.val = 4 ∧
      vgroup_elem (state_two_vectors 0 0x10 4 [100] [200, 200, 200, 200]).RBV 4 1 0 = 100 ∧
      group_elems (state_two_vectors 0 0x10 4 [100] [200, 200, 200, 200]).RBV 4 2 4
        = [200, 200, 200, 200] ∧
      (100 + (200 + 200 + 200 + 200)) % 2 ^ 32 = 900 ∧
      (VREDSUMVS 3 1 2 (state_two_vectors 0 0x10 4 [100] [200, 200, 200, 200])).map
        (fun t => vgroup_elem t.RBV 4 3 0) = some 4294967172 ∧
      (VREDSUMVS 3 1 2 (state_two_vectors 0 0x10 4 [100] [1, 2, 3, 4])).map
        (fun t => vgroup_elem t.RBV 4 3 0) = some 110 := by
  decide!

/-! ## The widening reduction -/

theorem group_elems_succ (R : Fin 128 → ac_word) (w r n : Nat) :
    group_elems R w r (n + 1) = group_elems R w r n ++ [vgroup_elem R w r n] := by
  unfold group_elems
  rw [List.range_succ, List.map_append]
  rfl

/-- The loop of VWREDSUMUVS: with the elements of the source group inside the
register file, `n` passes leave in `sum` the start value plus the first `n`
elements, as an `int`. -/
theorem VWREDSUMUVS_loop (R : Fin 128 → ac_word) (w rs2 : Nat) (sum0 : Int)
    (h : w = 1 ∨ w = 2) (n : Nat) :
    16 * rs2 + w * n ≤ 512 →
    ∃ sum, striping (16 / w) (VWREDSUMUVS_pass R w rs2) sum0 n = some (sum, n / (16 / w)) ∧
      to_ac_word sum = to_ac_word (sum0 + ((group_elems R w rs2 n).sum : Nat)) := by
  have h3 : w = 1 ∨ w = 2 ∨ w = 4 := by omega
  induction n with
  | zero =>
    intro _
    refine ⟨sum0, ?_, ?_⟩
    · rw [Nat.zero_div]; rfl
    · simp [group_elems]
  | succ n ih =>
    intro hb
    have hmul : w * (n + 1) = w * n + w := Nat.mul_succ w n
    rw [hmul] at hb
    obtain ⟨sum, hs, hsum⟩ := ih (by omega)
    obtain ⟨hv, _, hinc⟩ := stripe_offset w h3 0 n
    have o2 := (stripe_offset w h3 rs2 n).2.1
    have hin : rs2 + n / (16 / w) < 32 := by omega
    have hpass : VWREDSUMUVS_pass R w rs2 (n / (16 / w)) (n % (16 / w)) n sum
        = some (to_int (sum + ((vgroup_elem R w rs2 n : Nat) : Int))) := by
      unfold VWREDSUMUVS_pass vgroup_elem
      rw [if_pos h, if_pos hin, lane_get_eq w h3, o2]
    refine ⟨to_int (sum + ((vgroup_elem R w rs2 n : Nat) : Int)), ?_, ?_⟩
    · rw [striping_succ _ _ _ _ _ _ _ hv hs hpass, hinc]
    · rw [to_ac_word_to_int, group_elems_succ, List.sum_append, List.sum_singleton]
      rw [to_ac_word_eq_iff] at hsum ⊢
      rw [Nat.cast_add]
      omega

theorem to_ac_word_val_mod (z : Int) (k : Nat) (hk : k ≤ 32) :
    (((to_ac_word z).val % 2 ^ k : Nat) : Int) = z % 2 ^ k := by
  have hv := to_ac_word_val z
  have hd : (2 : Int) ^ k ∣ 2 ^ 32 := pow_dvd_pow 2 hk
  push_cast
  rw [hv, Int.emod_emod_of_dvd _ hd]

/-- What a store of `k` bits keeps of a sum computed as an `int`. -/
theorem sum_store (sum sum0 : Int) (n S k : Nat) (hk : k ≤ 32) (hn : (to_ac_word sum0).val = n)
    (hsum : to_ac_word sum = to_ac_word (sum0 + (S : Int))) :
    (to_ac_word sum).val % 2 ^ k = (n + S) % 2 ^ k := by
  have h1 := to_ac_word_val_mod (sum0 + (S : Int)) k hk
  rw [← hsum] at h1
  have h2 := to_ac_word_val_mod sum0 k hk
  rw [hn] at h2
  push_cast at h2
  have h3 : (sum0 + (S : Int)) % 2 ^ k = ((n : Int) + (S : Int)) % 2 ^ k := by
    rw [Int.add_emod sum0, Int.add_emod (n : Int), ← h2]
  have h5 : ((((to_ac_word sum).val % 2 ^ k : Nat)) : Int) = (((n + S) % 2 ^ k : Nat) : Int) := by
    rw [h1, h3]
    push_cast
    rfl
  exact_mod_cast h5

/-- C28: for SEW of 1 or 2 bytes and a source group `vs2` of `vl` elements
inside the register file, VWREDSUMU.VS returns a state in which the element 0 of
`2·SEW` bytes of `vd` is `(w + Σ_{i<vl} vs2[i]) mod 2^(16·SEW)`, with `w` the
element 0 of `2·SEW` bytes of `vs1` and the `vs2[i]` unsigned elements of SEW
bytes, all as they were before the instruction. -/
theorem VWREDSUMUVS_sum (s : State) (vd rs1 rs2 : Fin 32)
    (h : SEW s.vtype.val = 1 ∨ SEW s.vtype.val = 2)
    (hb : 16 * rs2.val + SEW s.vtype.val * s.vl.val ≤ 512) :
    ∃ t, VWREDSUMUVS vd rs1 rs2 s = some t ∧
      vgroup_elem t.RBV (2 * SEW s.vtype.val) vd.val 0
        = (vgroup_elem s.RBV (2 * SEW s.vtype.val) rs1.val 0
            + (group_elems s.RBV (SEW s.vtype.val) rs2.val s.vl.val).sum)
          % 2 ^ (16 * SEW s.vtype.val) := by
  have h3 : SEW s.vtype.val = 1 ∨ SEW s.vtype.val = 2 ∨ SEW s.vtype.val = 4 := by omega
  have hS : 1 <<< (s.vtype.val >>> 3) = SEW s.vtype.val := rfl
  have hvd := vd.isLt
  have h21 : ¬ ((2 : Nat) = 1) := by decide
  rcases h with h1 | h2
  · obtain ⟨sum, hs, hsum⟩ := VWREDSUMUVS_loop s.RBV (SEW s.vtype.val) rs2.val
      (to_int (get16 s.RBV rs1.val 0)) (Or.inl h1) s.vl.val hb
    refine ⟨{ s with RBV := set16 s.RBV vd.val 0 (to_ac_word sum).val }, ?_, ?_⟩
    · unfold VWREDSUMUVS
      rw [(SEW_vlmax s.vtype.val h3).2]
      simp only [hS] at hs ⊢
      simp only [h1] at hs ⊢
      simp only [if_true, hs]
    · show velem (vset_elem s.RBV 2 (16 * vd.val + 2 * 0) (to_ac_word sum).val)
        (2 * SEW s.vtype.val) (16 * vd.val + 2 * SEW s.vtype.val * 0) = _
      rw [h1] at hsum ⊢
      rw [velem_vset_elem_same _ _ _ _ (by omega)]
      have hg : (to_ac_word (to_int (get16 s.RBV rs1.val 0))).val
          = vgroup_elem s.RBV (2 * 1) rs1.val 0 := by
        rw [to_ac_word_to_int]
        have hlt := velem_lt s.RBV 2 (16 * rs1.val + 2 * 0)
        exact to_ac_word_natCast_val _ (by unfold get16; omega)
      exact sum_store sum _ _ _ 16 (by norm_num) hg hsum
  · obtain ⟨sum, hs, hsum⟩ := VWREDSUMUVS_loop s.RBV (SEW s.vtype.val) rs2.val
      (to_int (get32 s.RBV rs1.val 0)) (Or.inr h2) s.vl.val hb
    refine ⟨{ s with RBV := set32 s.RBV vd.val 0 (to_ac_word sum).val }, ?_, ?_⟩
    · unfold VWREDSUMUVS
      rw [(SEW_vlmax s.vtype.val h3).2]
      simp only [hS] at hs ⊢
      simp only [h2] at hs ⊢
      simp only [h21, if_false, if_true, hs]
    · show velem (vset_elem s.RBV 4 (16 * vd.val + 4 * 0) (to_ac_word sum).val)
        (2 * SEW s.vtype.val) (16 * vd.val + 2 * SEW s.vtype.val * 0) = _
      rw [h2] at hsum ⊢
      rw [velem_vset_elem_same _ _ _ _ (by omega)]
      have hg : (to_ac_word (to_int (get32 s.RBV rs1.val 0))).val
          = vgroup_elem s.RBV (2 * 2) rs1.val 0 := by
        rw [to_ac_word_to_int]
        have hlt := velem_lt s.RBV 4 (16 * rs1.val + 4 * 0)
        exact to_ac_word_natCast_val _ (by unfold get32; omega)
      exact sum_store sum _ _ _ 32 (by norm_num) hg hsum

/-- Witness for `VWREDSUMUVS_sum`: SEW 1 byte, `vl = 4`, the 16-bit element 0 of
`v1` is 9000 and the bytes of `v2` start with 120, 130, 140, 150; the sum 9540
does not fit 8 bits and is stored in 16. -/
theorem VWREDSUMUVS_sum_witness :
    (VWREDSUMUVS 3 1 2 (state_two_vectors 0 0 4 [9000] [0x968C8278])).map
        (fun t => vgroup_elem t.RBV 2 3 0) = some 9540 := by
  obtain ⟨t, ht, hv⟩ := VWREDSUMUVS_sum (state_two_vectors 0 0 4 [9000] [0x968C8278]) 3 1 2
    (by decide) (by decide)
  rw [ht]
  have e : (vgroup_elem (state_two_vectors 0 0 4 [9000] [0x968C8278]).RBV (2 * 1) 1 0
      + (group_elems (state_two_vectors 0 0 4 [9000] [0x968C8278]).RBV 1 2 4).sum)
        % 2 ^ (16 * 1) = 9540 := by decide!
  exact congrArg some (hv.trans e)

/-! ## Vector loads and stores -/

theorem to_ac_word_val_add (a : Int) (k : Nat) :
    to_ac_word (((to_ac_word a).val : Int) + (k : Int)) = to_ac_word (a + (k : Int)) := by
  rw [to_ac_word_eq_iff]
  have hv := to_ac_word_val a
  omega

theorem DM_elem_congr (DM : ac_word → Fin 256) (w : Nat) : ∀ (a b : Int),
    a % 2 ^ 32 = b % 2 ^ 32 → DM_elem DM w a = DM_elem DM w b := by
  induction w with
  | zero => intro a b _; rfl
  | succ w ih =>
    intro a b h
    show (DM (to_ac_word a)).val + 256 * DM_elem DM w (a + 1)
      = (DM (to_ac_word b)).val + 256 * DM_elem DM w (b + 1)
    rw [(to_ac_word_eq_iff a b).2 h, ih (a + 1) (b + 1) (by omega)]

theorem DM_elem_lt (DM : ac_word → Fin 256) (w : Nat) : ∀ (a : Int),
    DM_elem DM w a < 256 ^ w := by
  induction w with
  | zero => intro a; show 0 < 256 ^ 0; norm_num
  | succ w ih =>
    intro a
    show (DM (to_ac_word a)).val + 256 * DM_elem DM w (a + 1) < 256 ^ (w + 1)
    have h1 := (DM (to_ac_word a)).isLt
    have h2 := ih (a + 1)
    rw [pow_succ]
    omega

theorem DM_read_elem (s : State) (a : Int) :
    (DM_read s (to_ac_word a)).val = DM_elem s.DM 4 a := by
  unfold DM_read
  have e1 := to_ac_word_val_add a 1
  have e2 := to_ac_word_val_add a 2
  have e3 := to_ac_word_val_add a 3
  simp only [Nat.cast_one, Nat.cast_ofNat] at e1 e2 e3
  rw [e1, e2, e3]
  have a2 : a + 1 + 1 = a + 2 := by ring
  have a3 : a + 2 + 1 = a + 3 := by ring
  have b0 := (s.DM (to_ac_word a)).isLt
  have b1 := (s.DM (to_ac_word (a + 1))).isLt
  have b2 := (s.DM (to_ac_word (a + 2))).isLt
  have b3 := (s.DM (to_ac_word (a + 3))).isLt
  rw [to_ac_word_natCast_val _ (by omega)]
  simp only [DM_elem, a2, a3]
  omega

/-- The value the branch of `eew` reads from memory is the memory value of
`eew` bytes at the address. -/
theorem VLE_pass_eq (s : State) (w vd : Nat) (addr : Nat → Int) (h : w = 1 ∨ w = 2 ∨ w = 4)
    (inc idx el : Nat) (R : Fin 128 → ac_word) (hin : vd + inc < 32) :
    VLE_pass s w vd addr inc idx el R
      = some (vset_elem R w (16 * (vd + inc) + w * idx) (DM_elem s.DM w (addr el))) := by
  unfold VLE_pass
  rw [if_pos hin]
  rcases h with rfl | rfl | rfl
  · rw [if_pos rfl]
    unfold set8 DM_read_byte
    rw [Nat.one_mul]
    simp [DM_elem]
  · rw [if_neg (by decide), if_pos rfl]
    unfold set16 DM_read_half
    have e := to_ac_word_val_add (addr el) 1
    simp only [Nat.cast_one] at e
    rw [e]
    simp [DM_elem]
  · rw [if_neg (by decide), if_neg (by decide), if_pos rfl]
    unfold set32
    rw [DM_read_elem]

/-- A loop that stores the value `val el` in element `el` of the group that
starts at `vd`, after `n` passes: element `i < n` holds `val i` truncated to the
element width, and no byte outside the first `n` elements has changed. -/
theorem fill_loop (body : Nat → Nat → Nat → (Fin 128 → ac_word) → Option (Fin 128 → ac_word))
    (w vd : Nat) (val : Nat → Nat) (R0 : Fin 128 → ac_word) (h : w = 1 ∨ w = 2 ∨ w = 4)
    (hbody : ∀ inc idx el R, vd + inc < 32 →
      body inc idx el R = some (vset_elem R w (16 * (vd + inc) + w * idx) (val el)))
    (n : Nat) :
    16 * vd + w * n ≤ 512 →
    ∃ R, striping (16 / w) body R0 n = some (R, n / (16 / w)) ∧
      (∀ i, i < n → velem R w (16 * vd + w * i) = val i % 256 ^ w) ∧
      (∀ b, (b < 16 * vd ∨ 16 * vd + w * n ≤ b) → RBV_byte R b = RBV_byte R0 b) := by
  induction n with
  | zero =>
    intro _
    refine ⟨R0, ?_, ?_, ?_⟩
    · rw [Nat.zero_div]; rfl
    · intro i hi; omega
    · intro b _; rfl
  | succ n ih =>
    intro hb0
    have hmul : w * (n + 1) = w * n + w := Nat.mul_succ w n
    have hwpos : 0 < w := by rcases h with rfl | rfl | rfl <;> norm_num
    rw [hmul] at hb0
    obtain ⟨R, hR, hel, hframe⟩ := ih (by omega)
    obtain ⟨hv, _, hinc⟩ := stripe_offset w h 0 n
    have o0 := (stripe_offset w h vd n).2.1
    have hin : vd + n / (16 / w) < 32 := by omega
    have hpass := hbody (n / (16 / w)) (n % (16 / w)) n R hin
    rw [o0] at hpass
    refine ⟨vset_elem R w (16 * vd + w * n) (val n), ?_, ?_, ?_⟩
    · rw [striping_succ _ _ _ _ _ _ _ hv hR hpass, hinc]
    · intro i hi
      by_cases hin' : i < n
      · have hle : w * i + w ≤ w * n := by
          have := Nat.mul_le_mul_left w (Nat.succ_le_of_lt hin')
          rw [Nat.mul_succ] at this
          exact this
        rw [velem_vset_elem_other _ _ _ _ _ _ (by omega) (by omega)]
        exact hel i hin'
      · have e : i = n := by omega
        rw [e, velem_vset_elem_same _ _ _ _ (by omega)]
    · intro b hb
      rw [hmul] at hb
      rw [RBV_byte_vset_elem _ _ _ _ _ (by omega), if_neg (by omega)]
      exact hframe b (by omega)

theorem VLE_eew_cases (funct3 eew : Nat) (h : VLE_eew funct3 = some eew) :
    eew = 1 ∨ eew = 2 ∨ eew = 4 := by
  unfold VLE_eew at h
  split at h
  · simp at h; omega
  · split at h
    · simp at h; omega
    · split at h
      · simp at h; omega
      · simp at h

theorem ac_Sword_emod (w : ac_word) : ac_Sword w % 2 ^ 32 = (w.val : Int) % 2 ^ 32 := by
  unfold ac_Sword
  split <;> omega

/-- The loop of VLE and VLSE as a whole. -/
theorem VLE_loop (s : State) (w vd : Nat) (addr : Nat → Int) (h : w = 1 ∨ w = 2 ∨ w = 4)
    (hb : 16 * vd + w * s.vl.val ≤ 512) :
    ∃ R, striping (128 / (8 * w)) (VLE_pass s w vd addr) s.RBV s.vl.val
        = some (R, s.vl.val / (16 / w)) ∧
      (∀ i, i < s.vl.val → velem R w (16 * vd + w * i) = DM_elem s.DM w (addr i)) ∧
      (∀ b, (b < 16 * vd ∨ 16 * vd + w * s.vl.val ≤ b) → RBV_byte R b = RBV_byte s.RBV b) := by
  have hvl : 128 / (8 * w) = 16 / w := by rcases h with rfl | rfl | rfl <;> norm_num
  rw [hvl]
  obtain ⟨R, hR, hel, hframe⟩ := fill_loop (VLE_pass s w vd addr) w vd
    (fun el => DM_elem s.DM w (addr el)) s.RBV h
    (fun inc idx el R hin => VLE_pass_eq s w vd addr h inc idx el R hin) s.vl.val hb
  refine ⟨R, hR, ?_, hframe⟩
  intro i hi
  rw [hel i hi]
  exact Nat.mod_eq_of_lt (DM_elem_lt _ _ _)

/-- C29: for the element width `eew` that `funct3` ∈ {0, 5, 6} selects and a
destination group of `vl` elements inside the register file, VLE returns a state
in which, for every `el < vl`, the element of `eew` bytes at the flat byte offset
`vd·16 + el·eew` of the vector register file is the memory value of `eew` bytes
at address `x[rs1] + el·eew`, and VLSE one in which it is the memory value at
address `x[rs1] + el·x[rs2]` (addresses modulo `2 ^ 32`, memory as before the
instruction). -/
theorem VLE_VLSE_elements (s : State) (funct3 eew : Nat) (vd rs1 rs2 : Fin 32)
    (he : VLE_eew funct3 = some eew)
    (hb : 16 * vd.val + eew * s.vl.val ≤ 512) :
    (∃ t, VLE funct3 vd rs1 s = some t ∧ ∀ el, el < s.vl.val →
        velem t.RBV eew (vd.val * 16 + el * eew)
          = DM_elem s.DM eew (((s.RB rs1).val : Int) + (el : Int) * (eew : Int))) ∧
      (∃ t, VLSE funct3 vd rs1 rs2 s = some t ∧ ∀ el, el < s.vl.val →
        velem t.RBV eew (vd.val * 16 + el * eew)
          = DM_elem s.DM eew (((s.RB rs1).val : Int) + (el : Int) * ((s.RB rs2).val : Int))) := by
  have h := VLE_eew_cases funct3 eew he
  have h1 := ac_Sword_emod (s.RB rs1)
  have h2 := ac_Sword_emod (s.RB rs2)
  constructor
  · obtain ⟨R, hR, hel, _⟩ := VLE_loop s eew vd.val
      (fun el => ac_Sword (s.RB rs1) + (el : Int) * (eew : Int)) h hb
    refine ⟨{ s with RBV := R }, ?_, ?_⟩
    · unfold VLE
      rw [he]
      simp only [hR]
    · intro el hel'
      show velem R eew (vd.val * 16 + el * eew) = _
      rw [Nat.mul_comm vd.val 16, Nat.mul_comm el eew, hel el hel']
      apply DM_elem_congr
      rw [Int.add_emod, h1, ← Int.add_emod]
  · obtain ⟨R, hR, hel, _⟩ := VLE_loop s eew vd.val
      (fun el => ac_Sword (s.RB rs1) + (el : Int) * ac_Sword (s.RB rs2)) h hb
    refine ⟨{ s with RBV := R }, ?_, ?_⟩
    · unfold VLSE
      rw [he]
      simp only [hR]
    · intro el hel'
      show velem R eew (vd.val * 16 + el * eew) = _
      rw [Nat.mul_comm vd.val 16, Nat.mul_comm el eew, hel el hel']
      apply DM_elem_congr
      rw [Int.add_emod, Int.mul_emod, h1, h2, ← Int.mul_emod, ← Int.add_emod]

theorem to_ac_word_add_ne (a : Int) (i j : Nat) (hi : i < 2 ^ 32) (hj : j < 2 ^ 32)
    (hij : i ≠ j) : to_ac_word (a + (i : Int)) ≠ to_ac_word (a + (j : Int)) := by
  rw [Ne, to_ac_word_eq_iff]
  omega

/-- Byte `k` of an element is byte `off + k` of the register file. -/
theorem velem_byte (R : Fin 128 → ac_word) (w : Nat) : ∀ (off k : Nat), k < w →
    velem R w off / 256 ^ k % 256 = RBV_byte R (off + k) := by
  induction w with
  | zero => intro off k hk; omega
  | succ w ih =>
    intro off k hk
    show (RBV_byte R off + 256 * velem R w (off + 1)) / 256 ^ k % 256 = _
    have hb := RBV_byte_lt R off
    cases k with
    | zero =>
      have e : RBV_byte R (off + 0) = RBV_byte R off := rfl
      rw [pow_zero, Nat.div_one, e]
      omega
    | succ k =>
      have e0 : (RBV_byte R off + 256 * velem R w (off + 1)) / 256 = velem R w (off + 1) := by
        omega
      have e : (RBV_byte R off + 256 * velem R w (off + 1)) / 256 ^ (k + 1)
          = velem R w (off + 1) / 256 ^ k := by
        rw [pow_succ', ← Nat.div_div_eq_div_mul, e0]
      have e2 : off + 1 + k = off + (k + 1) := by omega
      rw [e, ih (off + 1) k (by omega), e2]

/-- Memory bytes that agree with register bytes make a memory value that is the
register element. -/
theorem DM_elem_of_bytes (DM : ac_word → Fin 256) (R : Fin 128 → ac_word) (w : Nat) :
    ∀ (a : Int) (off : Nat),
    (∀ k, k < w → (DM (to_ac_word (a + (k : Int)))).val = RBV_byte R (off + k)) →
    DM_elem DM w a = velem R w off := by
  induction w with
  | zero => intro a off _; rfl
  | succ w ih =>
    intro a off h
    show (DM (to_ac_word a)).val + 256 * DM_elem DM w (a + 1)
      = RBV_byte R off + 256 * velem R w (off + 1)
    have h0 := h 0 (by omega)
    simp only [Nat.cast_zero, add_zero] at h0
    rw [h0, ih (a + 1) (off + 1)]
    intro k hk
    have hk1 := h (k + 1) (by omega)
    have e1 : a + 1 + (k : Int) = a + ((k + 1 : Nat) : Int) := by push_cast; ring
    have e2 : off + 1 + k = off + (k + 1) := by omega
    rw [e1, e2]
    exact hk1

/-- One pass of the loop of VSE: the bytes of the element go to the addresses
from `addr el` on and no other byte of memory changes. -/
theorem VSE_pass_spec (w vd : Nat) (addr : Nat → Int) (h : w = 1 ∨ w = 2 ∨ w = 4)
    (inc idx el : Nat) (t : State) (hin : vd + inc < 32) :
    ∃ u, VSE_pass w vd addr inc idx el t = some u ∧ u.RBV = t.RBV ∧
      (∀ k, k < w → (u.DM (to_ac_word (addr el + (k : Int)))).val
        = RBV_byte t.RBV (16 * (vd + inc) + w * idx + k)) ∧
      (∀ x, (∀ k, k < w → x ≠ to_ac_word (addr el + (k : Int))) → u.DM x = t.DM x) := by
  have e1 := to_ac_word_val_add (addr el) 1
  have e2 := to_ac_word_val_add (addr el) 2
  have e3 := to_ac_word_val_add (addr el) 3
  simp only [Nat.cast_one, Nat.cast_ofNat] at e1 e2 e3
  have n10 := to_ac_word_add_ne (addr el) 1 0 (by norm_num) (by norm_num) (by decide)
  have n20 := to_ac_word_add_ne (addr el) 2 0 (by norm_num) (by norm_num) (by decide)
  have n30 := to_ac_word_add_ne (addr el) 3 0 (by norm_num) (by norm_num) (by decide)
  have n21 := to_ac_word_add_ne (addr el) 2 1 (by norm_num) (by norm_num) (by decide)
  have n31 := to_ac_word_add_ne (addr el) 3 1 (by norm_num) (by norm_num) (by decide)
  have n32 := to_ac_word_add_ne (addr el) 3 2 (by norm_num) (by norm_num) (by decide)
  simp only [Nat.cast_one, Nat.cast_ofNat, Nat.cast_zero, add_zero] at n10 n20 n30 n21 n31 n32
  rcases h with rfl | rfl | rfl
  · refine ⟨DM_write_byte t (to_ac_word (addr el)) (get8 t.RBV (vd + inc) idx), ?_, rfl, ?_, ?_⟩
    · unfold VSE_pass
      rw [if_pos hin, if_pos rfl]
    · intro k hk
      have hk0 : k = 0 := by omega
      subst hk0
      have hb := velem_byte t.RBV 1 (16 * (vd + inc) + 1 * idx) 0 (by norm_num)
      rw [pow_zero, Nat.div_one] at hb
      simp only [DM_write_byte, Nat.cast_zero, add_zero, if_true, to_byte, get8]
      rw [Nat.one_mul] at hb ⊢
      exact hb
    · intro x hx
      have h0 := hx 0 (by norm_num)
      simp only [Nat.cast_zero, add_zero] at h0
      simp only [DM_write_byte, h0, if_false]
  · refine ⟨DM_write_half t (to_ac_word (addr el)) (get16 t.RBV (vd + inc) idx), ?_, rfl, ?_, ?_⟩
    · unfold VSE_pass
      rw [if_pos hin, if_neg (by decide), if_pos rfl]
    · intro k hk
      have hb := velem_byte t.RBV 2 (16 * (vd + inc) + 2 * idx) k hk
      interval_cases k
      · rw [pow_zero, Nat.div_one] at hb
        simp only [DM_write_half, Nat.cast_zero, add_zero, if_true, to_byte, get16]
        exact hb
      · rw [pow_one] at hb
        simp only [DM_write_half, e1, Nat.cast_one, n10, if_true, if_false, to_byte, get16]
        exact hb
    · intro x hx
      have h0 := hx 0 (by norm_num)
      have h1 := hx 1 (by norm_num)
      simp only [Nat.cast_zero, add_zero, Nat.cast_one] at h0 h1
      simp only [DM_write_half, e1, h0, h1, if_false]
  · have hlt : get32 t.RBV (vd + inc) idx < 256 ^ 4 := velem_lt _ _ _
    have hv : (to_ac_word ((get32 t.RBV (vd + inc) idx : Nat) : Int)).val
        = velem t.RBV 4 (16 * (vd + inc) + 4 * idx) :=
      to_ac_word_natCast_val _ (by omega)
    refine ⟨DM_write t (to_ac_word (addr el))
      (to_ac_word ((get32 t.RBV (vd + inc) idx : Nat) : Int)), ?_, rfl, ?_, ?_⟩
    · unfold VSE_pass
      rw [if_pos hin, if_neg (by decide), if_neg (by decide), if_pos rfl]
    · intro k hk
      have hb := velem_byte t.RBV 4 (16 * (vd + inc) + 4 * idx) k hk
      interval_cases k
      · rw [pow_zero, Nat.div_one] at hb
        simp only [DM_write, Nat.cast_zero, add_zero, if_true, to_byte, hv]
        exact hb
      · simp only [DM_write, e1, e2, e3, Nat.cast_one, n10, if_true, if_false, to_byte, hv]
        exact hb
      · simp only [DM_write, e1, e2, e3, Nat.cast_ofNat, n20, n21, if_true, if_false, to_byte, hv]
        exact hb
      · simp only [DM_write, e1, e2, e3, Nat.cast_ofNat, n30, n31, n32, if_true, if_false,
          to_byte, hv]
        exact hb
    · intro x hx
      have h0 := hx 0 (by norm_num)
      have h1 := hx 1 (by norm_num)
      have h2 := hx 2 (by norm_num)
      have h3 := hx 3 (by norm_num)
      simp only [Nat.cast_zero, add_zero, Nat.cast_one, Nat.cast_ofNat] at h0 h1 h2 h3
      simp only [DM_write, e1, e2, e3, h0, h1, h2, h3, if_false]

/-- The loop of VSE after `n` passes, for a group of `n` elements inside the
register file: byte `j` of the group has gone to address `B + j`, the vector
registers are as before and no byte of memory at another address has changed. -/
theorem VSE_loop (w vd : Nat) (B : Int) (t : State) (h : w = 1 ∨ w = 2 ∨ w = 4) (n : Nat) :
    16 * vd + w * n ≤ 512 →
    ∃ u, striping (16 / w) (VSE_pass w vd (fun el => B + (el : Int) * (w : Int))) t n
        = some (u, n / (16 / w)) ∧ u.RBV = t.RBV ∧
      (∀ j, j < w * n → (u.DM (to_ac_word (B + (j : Int)))).val = RBV_byte t.RBV (16 * vd + j)) ∧
      (∀ x, (∀ j, j < w * n → x ≠ to_ac_word (B + (j : Int))) → u.DM x = t.DM x) := by
  induction n with
  | zero =>
    intro _
    refine ⟨t, ?_, rfl, ?_, ?_⟩
    · rw [Nat.zero_div]; rfl
    · intro j hj; omega
    · intro x _; rfl
  | succ n ih =>
    intro hb0
    have hmul : w * (n + 1) = w * n + w := Nat.mul_succ w n
    rw [hmul] at hb0 ⊢
    obtain ⟨u, hu, hR, hel, hframe⟩ := ih (by omega)
    obtain ⟨hv, _, hinc⟩ := stripe_offset w h 0 n
    have o0 := (stripe_offset w h vd n).2.1
    have hin : vd + n / (16 / w) < 32 := by omega
    obtain ⟨u', hp, hR', ha, hb⟩ := VSE_pass_spec w vd (fun el => B + (el : Int) * (w : Int)) h
      (n / (16 / w)) (n % (16 / w)) n u hin
    rw [o0, hR] at ha
    have hcast : ((w * n : Nat) : Int) = (n : Int) * (w : Int) := by push_cast; ring
    refine ⟨u', ?_, hR'.trans hR, ?_, ?_⟩
    · rw [striping_succ _ _ _ _ _ _ _ hv hu hp, hinc]
    · intro j hj
      by_cases hjn : j < w * n
      · rw [hb _ (fun k hk => ?_)]
        · exact hel j hjn
        · show to_ac_word (B + (j : Int)) ≠ to_ac_word (B + (n : Int) * (w : Int) + (k : Int))
          have e : B + (n : Int) * (w : Int) + (k : Int) = B + ((w * n + k : Nat) : Int) := by
            push_cast; ring
          rw [e]
          exact to_ac_word_add_ne B j (w * n + k) (by omega) (by omega) (by omega)
      · have hk : j - w * n < w := by omega
        have e : B + (j : Int) = B + (n : Int) * (w : Int) + ((j - w * n : Nat) : Int) := by
          rw [← hcast]
          omega
        have e2 : 16 * vd + j = 16 * vd + w * n + (j - w * n) := by omega
        rw [e, e2]
        exact ha _ hk
    · intro x hx
      rw [hb x (fun k hk => ?_)]
      · exact hframe x (fun j hj => hx j (by omega))
      · show x ≠ to_ac_word (B + (n : Int) * (w : Int) + (k : Int))
        have e : B + (n : Int) * (w : Int) + (k : Int) = B + ((w * n + k : Nat) : Int) := by
          push_cast; ring
        rw [e]
        exact hx _ (by omega)

/-- C30: for the element width `eew` that `funct3` selects and a group of `vl`
elements at `vd` inside the register file, VLE with base `A = x[ra]` followed by
VSE of the same `vd` and `funct3` with base `B = x[rb]` both return a state;
afterwards, for every `el < vl`, the memory value of `eew` bytes at
`B + el·eew` is the one that was at `A + el·eew` before the two instructions,
and every byte of memory outside the addresses `B + j`, `j < vl·eew`, is as it
was. -/
theorem VLE_VSE_copy (s : State) (funct3 eew : Nat) (vd ra rb : Fin 32)
    (he : VLE_eew funct3 = some eew)
    (hb : 16 * vd.val + eew * s.vl.val ≤ 512) :
    ∃ t u, VLE funct3 vd ra s = some t ∧ VSE funct3 vd rb t = some u ∧
      (∀ el, el < s.vl.val →
        DM_elem u.DM eew (((s.RB rb).val : Int) + (el : Int) * (eew : Int))
          = DM_elem s.DM eew (((s.RB ra).val : Int) + (el : Int) * (eew : Int))) ∧
      (∀ x : ac_word, (∀ j, j < s.vl.val * eew → x ≠ to_ac_word (((s.RB rb).val : Int) + (j : Int)))
        → u.DM x = s.DM x) := by
  have h := VLE_eew_cases funct3 eew he
  have hvl : 128 / (8 * eew) = 16 / eew := by rcases h with rfl | rfl | rfl <;> norm_num
  obtain ⟨R, hR, hel, _⟩ := VLE_loop s eew vd.val
    (fun el => ac_Sword (s.RB ra) + (el : Int) * (eew : Int)) h hb
  obtain ⟨u, hu, _, hbytes, hframe⟩ :=
    VSE_loop eew vd.val (ac_Sword (s.RB rb)) { s with RBV := R } h s.vl.val hb
  have h1 := ac_Sword_emod (s.RB ra)
  have h2 := ac_Sword_emod (s.RB rb)
  refine ⟨{ s with RBV := R }, u, ?_, ?_, ?_, ?_⟩
  · unfold VLE
    rw [he]
    simp only [hR]
  · unfold VSE
    rw [he]
    simp only [hvl, hu]
  · intro el hel'
    have hle : eew * el + eew ≤ eew * s.vl.val := by
      have := Nat.mul_le_mul_left eew (Nat.succ_le_of_lt hel')
      rw [Nat.mul_succ] at this
      exact this
    have e0 : DM_elem u.DM eew (((s.RB rb).val : Int) + (el : Int) * (eew : Int))
        = DM_elem u.DM eew (ac_Sword (s.RB rb) + ((eew * el : Nat) : Int)) := by
      have ec : ((eew * el : Nat) : Int) = (el : Int) * (eew : Int) := by push_cast; ring
      apply DM_elem_congr
      rw [ec, Int.add_emod, ← h2, ← Int.add_emod]
    rw [e0, DM_elem_of_bytes u.DM R eew _ (16 * vd.val + eew * el)]
    · rw [hel el hel']
      apply DM_elem_congr
      rw [Int.add_emod, h1, ← Int.add_emod]
    · intro k hk
      have e : ac_Sword (s.RB rb) + ((eew * el : Nat) : Int) + (k : Int)
          = ac_Sword (s.RB rb) + ((eew * el + k : Nat) : Int) := by push_cast; ring
      rw [e, hbytes (eew * el + k) (by omega)]
      rw [Nat.add_assoc]
  · intro x hx
    apply hframe
    intro j hj
    have hx' := hx j (by rw [Nat.mul_comm]; exact hj)
    intro hc
    apply hx'
    rw [hc, to_ac_word_eq_iff]
    omega

/-- Witness for `VLE_VLSE_elements`: memory byte `a` holds `a mod 256`,
`x1 = 0x100`, `vl = 4`; VLE32 into `v3` leaves the four words made of the bytes
0 to 15. -/
theorem VLE_VLSE_elements_witness :
    (∃ t, VLE 6 3 1 (state_bytes 0x100 8 0 0x10 4 (fun a => a % 256)) = some t ∧
        ∀ el, el < (state_bytes 0x100 8 0 0x10 4 (fun a => a % 256)).vl.val →
          velem t.RBV 4 ((3 : Fin 32).val * 16 + el * 4)
            = DM_elem (state_bytes 0x100 8 0 0x10 4 (fun a => a % 256)).DM 4
                ((((state_bytes 0x100 8 0 0x10 4 (fun a => a % 256)).RB 1).val : Int)
                  + (el : Int) * ((4 : Nat) : Int))) ∧
      (VLE 6 3 1 (state_bytes 0x100 8 0 0x10 4 (fun a => a % 256))).map
        (fun t => group_elems t.RBV 4 3 4)
        = some [0x03020100, 0x07060504, 0x0B0A0908, 0x0F0E0D0C] ∧
      (VLSE 6 3 1 2 (state_bytes 0x100 8 0 0x10 4 (fun a => a % 256))).map
        (fun t => group_elems t.RBV 4 3 4)
        = some [0x03020100, 0x0B0A0908, 0x13121110, 0x1B1A1918] :=
  ⟨(VLE_VLSE_elements (state_bytes 0x100 8 0 0x10 4 (fun a => a % 256)) 6 4 3 1 2
      (by decide) (by decide)).1,
    by decide!, by decide!⟩

/-- Witness for `VLE_VSE_copy`: memory byte `a` holds `a mod 256`, `x1 = 0x100`,
`x2 = 0x200`, `vl = 4`; after VLE32 into `v3` from `x1` and VSE32 of `v3` to `x2`
the word at `0x204` is the word that was at `0x104`. -/
theorem VLE_VSE_copy_witness :
    (∃ t u, VLE 6 3 1 (state_bytes 0x100 0x200 0 0x10 4 (fun a => a % 256)) = some t ∧
        VSE 6 3 2 t = some u ∧ DM_elem u.DM 4 0x204 = 0x07060504) ∧
      DM_elem (state_bytes 0x100 0x200 0 0x10 4 (fun a => a % 256)).DM 4 0x104 = 0x07060504 := by
  obtain ⟨t, u, ht, hu, hel, _⟩ :=
    VLE_VSE_copy (state_bytes 0x100 0x200 0 0x10 4 (fun a => a % 256)) 6 4 3 1 2
      (by decide) (by decide)
  have e : DM_elem (state_bytes 0x100 0x200 0 0x10 4 (fun a => a % 256)).DM 4 0x104
      = 0x07060504 := by decide!
  refine ⟨⟨t, u, ht, hu, ?_⟩, e⟩
  have h1 := hel 1 (by decide)
  have a1 : ((((state_bytes 0x100 0x200 0 0x10 4 (fun a => a % 256)).RB 2).val : Int)
      + ((1 : Nat) : Int) * ((4 : Nat) : Int)) = 0x204 := by decide
  have a2 : ((((state_bytes 0x100 0x200 0 0x10 4 (fun a => a % 256)).RB 1).val : Int)
      + ((1 : Nat) : Int) * ((4 : Nat) : Int)) = 0x104 := by decide
  rw [a1, a2] at h1
  exact h1.trans e

/-! ## Scalar moves, sign injection, register layout -/

/-- C31: for an element width of 1, 2 or 4 bytes and every value of `x[rs1]`,
VMV.S.X `vd, rs1` and then VMV.X.S `rd, vd` both return a state, `rd` ends up
holding the low `8·SEW` bits of `x[rs1]` sign-extended to 32 bits, and VMV.S.X
changes no byte of the vector register file other than the SEW bytes of
element 0 of `vd`. -/
theorem VMVSX_VMVXS_round_trip (s : State) (rd vd rs1 : Fin 32)
    (h : SEW s.vtype.val = 1 ∨ SEW s.vtype.val = 2 ∨ SEW s.vtype.val = 4) :
    ∃ t u, VMVSX vd rs1 s = some t ∧ VMVXS rd vd t = some u ∧
      u.RB rd = to_ac_word (sign_extend (s.RB rs1).val (8 * SEW s.vtype.val)) ∧
      (∀ b, (b < 16 * vd.val ∨ 16 * vd.val + SEW s.vtype.val ≤ b) →
        RBV_byte t.RBV b = RBV_byte s.RBV b) := by
  have hS : 1 <<< (s.vtype.val >>> 3) = SEW s.vtype.val := rfl
  have hk : s.vtype.val >>> 3 < 32 := by
    by_contra hc
    have h8 : 2 ^ 3 ≤ 2 ^ (s.vtype.val >>> 3) := Nat.pow_le_pow_right (by norm_num) (by omega)
    unfold SEW at h
    rw [Nat.one_shiftLeft] at h
    omega
  have hvd := vd.isLt
  have hx : (to_ac_word (ac_Sword (s.RB rs1))).val = (s.RB rs1).val := by
    have e : to_ac_word (ac_Sword (s.RB rs1)) = s.RB rs1 := by
      rw [← to_ac_word_of_val (s.RB rs1), to_ac_word_eq_iff, to_ac_word_of_val]
      exact ac_Sword_emod _
    rw [e]
  have hxlt := (s.RB rs1).isLt
  have h21 : ¬ ((2 : Nat) = 1) := by decide
  have h41 : ¬ ((4 : Nat) = 1) := by decide
  have h42 : ¬ ((4 : Nat) = 2) := by decide
  rcases h with h1 | h1 | h1
  · refine ⟨{ s with RBV := set8 s.RBV vd.val 0 (s.RB rs1).val },
      State.setRB { s with RBV := set8 s.RBV vd.val 0 (s.RB rs1).val } rd
        (to_ac_word (sign_extend (get8 (set8 s.RBV vd.val 0 (s.RB rs1).val) vd.val 0) 8)), ?_, ?_, ?_, ?_⟩
    · unfold VMVSX
      rw [if_pos hk]
      simp only [hS, h1, hx, if_true]
    · unfold VMVXS
      rw [if_pos hk]
      simp only [hS, h1, if_true]
    · simp only [setRB_RB_same, h1]
      unfold get8 set8
      rw [velem_vset_elem_same _ _ _ _ (by omega), to_ac_word_eq_iff]
      unfold sign_extend
      norm_num
    · intro b hb
      rw [h1] at hb
      show RBV_byte (vset_elem s.RBV 1 (16 * vd.val + 0) (s.RB rs1).val) b = _
      rw [RBV_byte_vset_elem _ _ _ _ _ (by omega), if_neg (by omega)]
  · refine ⟨{ s with RBV := set16 s.RBV vd.val 0 (s.RB rs1).val },
      State.setRB { s with RBV := set16 s.RBV vd.val 0 (s.RB rs1).val } rd
        (to_ac_word (sign_extend (get16 (set16 s.RBV vd.val 0 (s.RB rs1).val) vd.val 0) 16)), ?_, ?_, ?_, ?_⟩
    · unfold VMVSX
      rw [if_pos hk]
      simp only [hS, h1, hx, h21, if_false, if_true]
    · unfold VMVXS
      rw [if_pos hk]
      simp only [hS, h1, h21, if_false, if_true]
    · simp only [setRB_RB_same, h1]
      unfold get16 set16
      rw [velem_vset_elem_same _ _ _ _ (by omega), to_ac_word_eq_iff]
      unfold sign_extend
      norm_num
    · intro b hb
      rw [h1] at hb
      show RBV_byte (vset_elem s.RBV 2 (16 * vd.val + 2 * 0) (s.RB rs1).val) b = _
      rw [RBV_byte_vset_elem _ _ _ _ _ (by omega), if_neg (by omega)]
  · refine ⟨{ s with RBV := set32 s.RBV vd.val 0 (s.RB rs1).val },
      State.setRB { s with RBV := set32 s.RBV vd.val 0 (s.RB rs1).val } rd
        (to_ac_word (to_int (get32 (set32 s.RBV vd.val 0 (s.RB rs1).val) vd.val 0))), ?_, ?_, ?_, ?_⟩
    · unfold VMVSX
      rw [if_pos hk]
      simp only [hS, h1, hx, h41, h42, if_false, if_true]
    · unfold VMVXS
      rw [if_pos hk]
      simp only [hS, h1, h41, h42, if_false, if_true]
    · simp only [setRB_RB_same, h1]
      unfold get32 set32
      rw [velem_vset_elem_same _ _ _ _ (by omega), to_ac_word_to_int, to_ac_word_eq_iff]
      unfold sign_extend
      norm_num
      split <;> omega
    · intro b hb
      rw [h1] at hb
      show RBV_byte (vset_elem s.RBV 4 (16 * vd.val + 4 * 0) (s.RB rs1).val) b = _
      rw [RBV_byte_vset_elem _ _ _ _ _ (by omega), if_neg (by omega)]

/-- Witness for `VMVSX_VMVXS_round_trip`: SEW 1 byte and `x1 = 0x1234ABCD`; the
low byte `0xCD` comes back sign-extended, `0xFFFFFFCD`. -/
theorem VMVSX_VMVXS_round_trip_witness :
    ((VMVSX 3 1 (state_vec 0x1234ABCD 0 0 0 0 (fun _ => 0))).bind (VMVXS 5 3)).map
      (fun u => (u.RB 5).val) = some 0xFFFFFFCD := by
  obtain ⟨t, u, ht, hu, hrd, _⟩ :=
    VMVSX_VMVXS_round_trip (state_vec 0x1234ABCD 0 0 0 0 (fun _ => 0)) 5 3 1 (by decide)
  rw [ht, Option.some_bind, hu, Option.map_some', hrd]
  decide

/-- C32: on bit patterns, for every single-precision `a` that is not a NaN and
every `b`, sign injection applied to `(FSGNJ.S(a, b), a)` gives the bit pattern
of `a`; the result of a sign injection has the exponent and mantissa bits of its
first operand and the sign bit of its second; the same holds for FSGNJ.D. -/
theorem FSGNJ_round_trip (a b : Nat) :
    (a < 2 ^ 32 → ¬ is_nan_S a →
      FSGNJ_S_bits (FSGNJ_S_bits a b) a = a ∧
        FSGNJ_S_bits a b % 2 ^ 31 = a % 2 ^ 31 ∧
        float_cast_sign (FSGNJ_S_bits a b) = float_cast_sign b) ∧
    (a < 2 ^ 64 → ¬ is_nan_D a →
      FSGNJ_D_bits (FSGNJ_D_bits a b) a = a ∧
        FSGNJ_D_bits a b % 2 ^ 63 = a % 2 ^ 63 ∧
        double_cast_sign (FSGNJ_D_bits a b) = double_cast_sign b) := by
  unfold FSGNJ_S_bits FSGNJ_D_bits float_cast_sign double_cast_sign
  constructor
  · intro ha _
    refine ⟨?_, ?_, ?_⟩ <;> omega
  · intro ha _
    refine ⟨?_, ?_, ?_⟩ <;> omega

/-- Witness for `FSGNJ_round_trip`: `a = 0x40490FDB` (3.14159…) and
`b = 0xBF800000` (-1.0): the injection gives `0xC0490FDB`, and injecting the sign
of `a` again gives `a`. -/
theorem FSGNJ_round_trip_witness :
    FSGNJ_S_bits 0x40490FDB 0xBF800000 = 0xC0490FDB ∧
      FSGNJ_S_bits (FSGNJ_S_bits 0x40490FDB 0xBF800000) 0x40490FDB = 0x40490FDB :=
  ⟨by decide,
    ((FSGNJ_round_trip 0x40490FDB 0xBF800000).1 (by decide) (by unfold is_nan_S; decide)).1⟩

/-- C33 (the code at the failing input): the word `0x40490FDB` is in memory at
`0x100`, `x1 = 0x100`, `x2 = 0x200`, all floating-point registers are zero.
After `FLW f1, 0(x1)`, `FSD f1, 0(x2)` is to store the loaded word at `0x200`;
the behaviour of FLW assigns to `RBF[1]`, FSD reads `RBF[2]` and `RBF[3]`, and
the word stored at `0x200` is 0.  The loaded word has become the high half of
`f0`: `FSD f0, 0(x2)` stores it at `0x204`, where it stored 0 before the load.
FMV.S.X writes the same slot. -/
theorem FLW_single_not_in_low_half :
    DM_read (state_mem 0x100 0x200 0 0x100 0x40490FDB) (to_ac_word 0x100)
        = to_ac_word 0x40490FDB ∧
      DM_read (FSD 2 1 0 0 0 0 (FLW 1 1 0 0 0 0 (state_mem 0x100 0x200 0 0x100 0x40490FDB)))
        (to_ac_word 0x200) = to_ac_word 0 ∧
      DM_read (FSD 2 0 0 0 0 0 (state_mem 0x100 0x200 0 0x100 0x40490FDB))
        (to_ac_word 0x204) = to_ac_word 0 ∧
      DM_read (FSD 2 0 0 0 0 0 (FLW 1 1 0 0 0 0 (state_mem 0x100 0x200 0 0x100 0x40490FDB)))
        (to_ac_word 0x204) = to_ac_word 0x40490FDB ∧
      DM_read (FSD 2 1 0 0 0 0 (FMV_S_X 1 1 (state_mem 0x40490FDB 0x200 0 0x100 0)))
        (to_ac_word 0x200) = to_ac_word 0 ∧
      DM_read (FSD 2 0 0 0 0 0 (FMV_S_X 1 1 (state_mem 0x40490FDB 0x200 0 0x100 0)))
        (to_ac_word 0x204) = to_ac_word 0x40490FDB := by
  decide

/-! ## Signed comparisons -/

/-- C34 (the code at the failing input): SEW is 1 byte, `vl = 1`, `vs2[0] = 0xFF`
(−1 as a signed byte), `vs1[0] = 1` and `x1 = 1`.  As signed numbers
`−1 < 1` and `−1 ≤ 1`, so VMSLT.VV, VMSLE.VV, VMSLT.VX and VMSLE.VX are all to
leave 1 in element 0 of `vd`; the behaviours compare the unsigned values 255 and
1 and leave 0. -/
theorem VMSLT_compares_unsigned :
    SEW (state_two_vectors 1 0 1 [1] [0xFF]).vtype.val = 1 ∧
      (state_two_vectors 1 0 1 [1] [0xFF]).vl.val = 1 ∧
      lane_int 1 (vgroup_elem (state_two_vectors 1 0 1 [1] [0xFF]).RBV 1 2 0) = -1 ∧
      lane_int 1 (vgroup_elem (state_two_vectors 1 0 1 [1] [0xFF]).RBV 1 1 0) = 1 ∧
      lane_int 1 ((state_two_vectors 1 0 1 [1] [0xFF]).RB 1).val = 1 ∧
      (VMSLTVV 3 1 2 (state_two_vectors 1 0 1 [1] [0xFF])).map
        (fun t => vgroup_elem t.RBV 1 3 0) = some 0 ∧
      (VMSLEVV 3 1 2 (state_two_vectors 1 0 1 [1] [0xFF])).map
        (fun t => vgroup_elem t.RBV 1 3 0) = some 0 ∧
      (VMSLTVX 3 1 2 (state_two_vectors 1 0 1 [1] [0xFF])).map
        (fun t => vgroup_elem t.RBV 1 3 0) = some 0 ∧
      (VMSLEVX 3 1 2 (state_two_vectors 1 0 1 [1] [0xFF])).map
        (fun t => vgroup_elem t.RBV 1 3 0) = some 0 := by
  decide!

/-- C35 (the code at two failing inputs).  First, SEW 4 bytes, `vl = 1`,
`v1 = [7]`, `v2 = [1]` and `VMSEQ.VI v3, v2, 1`: `vs2[0]` equals the immediate,
so element 0 of `vd` is to be 1 (and 0 for VMSNE.VI); the behaviours aim their
source pointer at `RBV[4 * rs1]`, register `v1`, whose element is 7, and leave 0
(and 1).  Second, SEW 1 byte, `vl = 1`, the immediate −1 (field value 31) and
`0xFF` in element 0 of both `v2` and `v31`: `vs2[0]` equals −1 sign-extended to
8 bits, so VMSEQ.VI is to leave 1; the behaviour compares the `uint32_t` 255
with the `int` −1, that is with `0xFFFFFFFF`, and leaves 0. -/
theorem VMSEQVI_wrong_source_and_width :
    sign_extend 1 5 = 1 ∧
      vgroup_elem (state_two_vectors 0 0x10 1 [7] [1]).RBV 4 2 0 = 1 ∧
      (VMSEQVI 3 1 2 (state_two_vectors 0 0x10 1 [7] [1])).map
        (fun t => vgroup_elem t.RBV 4 3 0) = some 0 ∧
      (VMSNEVI 3 1 2 (state_two_vectors 0 0x10 1 [7] [1])).map
        (fun t => vgroup_elem t.RBV 4 3 0) = some 1 ∧
      sign_extend 31 5 = -1 ∧ lane_uint 1 (to_ac_word (-1)).val = 0xFF ∧
      vgroup_elem (state_vec 0 0 0 0 1
        (fun i => if i = 8 ∨ i = 124 then 0xFF else 0)).RBV 1 2 0 = 0xFF ∧
      vgroup_elem (state_vec 0 0 0 0 1
        (fun i => if i = 8 ∨ i = 124 then 0xFF else 0)).RBV 1 31 0 = 0xFF ∧
      (VMSEQVI 3 31 2 (state_vec 0 0 0 0 1
        (fun i => if i = 8 ∨ i = 124 then 0xFF else 0))).map
        (fun t => vgroup_elem t.RBV 1 3 0) = some 0 ∧
      (VMSNEVI 3 31 2 (state_vec 0 0 0 0 1
        (fun i => if i = 8 ∨ i = 124 then 0xFF else 0))).map
        (fun t => vgroup_elem t.RBV 1 3 0) = some 1 := by
  decide!

/-- C36 (the code at the failing input): the memory word at `x1 = 0x100` is
`0xFFFFFFFF` (−1 as a signed number) and `x2 = 1`.  AMOMIN.W is to store the
signed minimum `0xFFFFFFFF` and AMOMAX.W the signed maximum 1; the behaviours
compare the registers as unsigned words, as AMOMINU.W and AMOMAXU.W do, and
store 1 and `0xFFFFFFFF`. -/
theorem AMOMIN_AMOMAX_compare_unsigned :
    DM_read (state_mem 0x100 1 0 0x100 0xFFFFFFFF) (to_ac_word 0x100) = to_ac_word 0xFFFFFFFF ∧
      ac_Sword (to_ac_word 0xFFFFFFFF) = -1 ∧
      DM_read (AMOMIN_W 3 1 2 (state_mem 0x100 1 0 0x100 0xFFFFFFFF)) (to_ac_word 0x100)
        = to_ac_word 1 ∧
      DM_read (AMOMINU_W 3 1 2 (state_mem 0x100 1 0 0x100 0xFFFFFFFF)) (to_ac_word 0x100)
        = to_ac_word 1 ∧
      DM_read (AMOMAX_W 3 1 2 (state_mem 0x100 1 0 0x100 0xFFFFFFFF)) (to_ac_word 0x100)
        = to_ac_word 0xFFFFFFFF ∧
      DM_read (AMOMAXU_W 3 1 2 (state_mem 0x100 1 0 0x100 0xFFFFFFFF)) (to_ac_word 0x100)
        = to_ac_word 0xFFFFFFFF := by
  decide

/-! ## The element loop: what it can touch -/

theorem striping_succ_inv {α : Type} (vlmax : Nat) (body : Nat → Nat → Nat → α → Option α)
    (a x : α) (n inc : Nat) (h : striping vlmax body a (n + 1) = some (x, inc)) :
    vlmax ≠ 0 ∧ ∃ y inc0, striping vlmax body a n = some (y, inc0) ∧
      body inc0 (n % vlmax) n y = some x ∧
      inc = if n % vlmax = vlmax - 1 then inc0 + 1 else inc0 := by
  have h0 : (match striping vlmax body a n with
    | none => none
    | some (x, inc) =>
      if vlmax = 0 then none
      else
        match body inc (n % vlmax) n x with
        | none => none
        | some y => some (y, if n % vlmax = vlmax - 1 then inc + 1 else inc))
      = some (x, inc) := h
  cases hs : striping vlmax body a n with
  | none => rw [hs] at h0; exact absurd h0 (by simp)
  | some p =>
    obtain ⟨y, inc0⟩ := p
    rw [hs] at h0
    by_cases hv : vlmax = 0
    · simp only [hv, if_true] at h0
      exact absurd h0 (by simp)
    · simp only [hv, if_false] at h0
      cases hb : body inc0 (n % vlmax) n y with
      | none => rw [hb] at h0; exact absurd h0 (by simp)
      | some z =>
        rw [hb] at h0
        simp only [Option.some.injEq, Prod.mk.injEq] at h0
        refine ⟨hv, y, inc0, rfl, ?_, h0.2.symm⟩
        rw [hb, h0.1]

/-- The number of times the loop has advanced its pointers when pass `n` starts
is `n / vlmax`, for `vlmax = 16 / w`. -/
theorem striping_inc {α : Type} (w : Nat) (h : w = 1 ∨ w = 2 ∨ w = 4)
    (body : Nat → Nat → Nat → α → Option α) (a : α) :
    ∀ (n : Nat) (x : α) (inc : Nat), striping (16 / w) body a n = some (x, inc) →
      inc = n / (16 / w) := by
  intro n
  induction n with
  | zero =>
    intro x inc hs
    have h0 : some (a, 0) = some (x, inc) := hs
    simp only [Option.some.injEq, Prod.mk.injEq] at h0
    rw [Nat.zero_div]
    exact h0.2.symm
  | succ n ih =>
    intro x inc hs
    obtain ⟨_, y, inc0, hy, _, hinc⟩ := striping_succ_inv _ _ _ _ _ _ hs
    rw [ih y inc0 hy] at hinc
    rw [hinc]
    exact (stripe_offset w h 0 n).2.2

theorem stripe_bound (w : Nat) (h : w = 1 ∨ w = 2 ∨ w = 4) (p n : Nat)
    (hp : p + n / (16 / w) < 32) : 16 * p + w * n + w ≤ 512 := by
  rcases h with rfl | rfl | rfl <;> norm_num at hp ⊢ <;> omega

/-- Whatever the loop of a three-pointer behaviour returns after `n` passes
differs from the bank it started with only inside the first `n` elements of the
destination group. -/
theorem VV_loop_frame (f : Nat → Nat → Nat → Option Int) (w vd rs1 rs2 : Nat)
    (R0 : Fin 128 → ac_word) (h : w = 1 ∨ w = 2 ∨ w = 4) :
    ∀ (n : Nat) (R : Fin 128 → ac_word) (inc : Nat),
      striping (16 / w) (VV_pass f w vd rs1 rs2) R0 n = some (R, inc) →
      ∀ b, (b < 16 * vd ∨ 16 * vd + w * n ≤ b) → RBV_byte R b = RBV_byte R0 b := by
  intro n
  induction n with
  | zero =>
    intro R inc hs b _
    have h0 : some (R0, 0) = some (R, inc) := hs
    simp only [Option.some.injEq, Prod.mk.injEq] at h0
    rw [h0.1]
  | succ n ih =>
    intro R inc hs b hb
    obtain ⟨_, y, inc0, hy, hbody, _⟩ := striping_succ_inv _ _ _ _ _ _ hs
    have hinc0 := striping_inc w h _ _ n y inc0 hy
    have hmul : w * (n + 1) = w * n + w := Nat.mul_succ w n
    rw [hmul] at hb
    have o0 := (stripe_offset w h vd n).2.1
    unfold VV_pass at hbody
    rw [if_pos h] at hbody
    by_cases hin : vd + inc0 < 32 ∧ rs1 + inc0 < 32 ∧ rs2 + inc0 < 32
    · rw [if_pos hin] at hbody
      cases hf : f w (lane_get w y (rs1 + inc0) (n % (16 / w)))
          (lane_get w y (rs2 + inc0) (n % (16 / w))) with
      | none => rw [hf] at hbody; exact absurd hbody (by simp)
      | some z =>
        rw [hf] at hbody
        simp only [Option.some.injEq] at hbody
        rw [hinc0] at hbody hin
        have hbound := stripe_bound w h vd n hin.1
        rw [lane_set_eq w h, o0] at hbody
        rw [← hbody, RBV_byte_vset_elem _ _ _ _ _ (by omega), if_neg (by omega)]
        exact ih y inc0 hy b (by omega)
    · rw [if_neg hin] at hbody
      exact absurd hbody (by simp)

/-- The loop of a three-pointer behaviour returns a bank when the three groups
lie inside the register file and the operation has a result for all lanes. -/
theorem VV_loop_total (f : Nat → Nat → Nat → Option Int) (w vd rs1 rs2 : Nat)
    (R0 : Fin 128 → ac_word) (h : w = 1 ∨ w = 2 ∨ w = 4)
    (hf : ∀ a b, ∃ z, f w a b = some z) (n : Nat) :
    16 * vd + w * n ≤ 512 → 16 * rs1 + w * n ≤ 512 → 16 * rs2 + w * n ≤ 512 →
    ∃ R, striping (16 / w) (VV_pass f w vd rs1 rs2) R0 n = some (R, n / (16 / w)) := by
  induction n with
  | zero =>
    intro _ _ _
    exact ⟨R0, by rw [Nat.zero_div]; rfl⟩
  | succ n ih =>
    intro hb0 hb1 hb2
    have hmul : w * (n + 1) = w * n + w := Nat.mul_succ w n
    have hwpos : 0 < w := by rcases h with rfl | rfl | rfl <;> norm_num
    rw [hmul] at hb0 hb1 hb2
    obtain ⟨R, hR⟩ := ih (by omega) (by omega) (by omega)
    obtain ⟨hv, _, hinc⟩ := stripe_offset w h 0 n
    have o0 := (stripe_offset w h vd n).2.1
    have o1 := (stripe_offset w h rs1 n).2.1
    have o2 := (stripe_offset w h rs2 n).2.1
    have hin : vd + n / (16 / w) < 32 ∧ rs1 + n / (16 / w) < 32 ∧ rs2 + n / (16 / w) < 32 := by
      refine ⟨?_, ?_, ?_⟩ <;> omega
    obtain ⟨z, hz⟩ := hf (lane_get w R (rs1 + n / (16 / w)) (n % (16 / w)))
      (lane_get w R (rs2 + n / (16 / w)) (n % (16 / w)))
    have hpass : VV_pass f w vd rs1 rs2 (n / (16 / w)) (n % (16 / w)) n R
        = some (lane_set w R (vd + n / (16 / w)) (n % (16 / w)) (to_ac_word z).val) := by
      unfold VV_pass
      rw [if_pos h, if_pos hin, hz]
    exact ⟨_, by rw [striping_succ _ _ _ _ _ _ _ hv hR hpass, hinc]⟩

/-- C37: every behaviour of the element-wise family is `VV_form` with one of the
two declarations of `vlmax` and its own lane operation `f` (the .VX and .VI
forms with both source pointers on one register).  For an element width of 1, 2
or 4 bytes: whenever such a behaviour returns a state, every byte of the vector
register file outside the first `vl·SEW` bytes from the flat offset `vd·16` on is
unchanged, and so are the integer and floating-point registers, the memory, the
control and status registers and the program counter (which only the generic
behaviour advances); with `vl = 0` the behaviour returns the state unchanged; and
it does return a state when the three groups of `vl` elements lie inside the
register file and the lane operation has a result for all operands. -/
theorem elementwise_frame (vlmax : Nat → Option Nat) (f : Nat → Nat → Nat → Option Int)
    (vd rs1 rs2 : Nat) (s : State)
    (h : SEW s.vtype.val = 1 ∨ SEW s.vtype.val = 2 ∨ SEW s.vtype.val = 4)
    (hv : vlmax = vlmax_128 ∨ vlmax = vlmax_16) :
    (∀ t, VV_form vlmax f vd rs1 rs2 s = some t →
      (∀ b, (b < 16 * vd ∨ 16 * vd + SEW s.vtype.val * s.vl.val ≤ b) →
        RBV_byte t.RBV b = RBV_byte s.RBV b) ∧
      t.RB = s.RB ∧ t.RBF = s.RBF ∧ t.DM = s.DM ∧ t.vl = s.vl ∧ t.vtype = s.vtype ∧
      t.vstart = s.vstart ∧ t.vlenb = s.vlenb ∧ t.fcsr = s.fcsr ∧ t.frm = s.frm ∧
      t.fflags = s.fflags ∧ t.ac_pc = s.ac_pc) ∧
    (s.vl.val = 0 → VV_form vlmax f vd rs1 rs2 s = some s) ∧
    ((∀ a b, ∃ z, f (SEW s.vtype.val) a b = some z) →
      16 * vd + SEW s.vtype.val * s.vl.val ≤ 512 →
      16 * rs1 + SEW s.vtype.val * s.vl.val ≤ 512 →
      16 * rs2 + SEW s.vtype.val * s.vl.val ≤ 512 →
      ∃ t, VV_form vlmax f vd rs1 rs2 s = some t) := by
  have hS : 1 <<< (s.vtype.val >>> 3) = SEW s.vtype.val := rfl
  have hvm : vlmax (s.vtype.val >>> 3) = some (16 / SEW s.vtype.val) := by
    rcases hv with rfl | rfl
    · exact (SEW_vlmax _ h).1
    · exact (SEW_vlmax _ h).2
  refine ⟨?_, ?_, ?_⟩
  · intro t ht
    unfold VV_form at ht
    rw [hvm] at ht
    simp only [hS] at ht
    cases hs : striping (16 / SEW s.vtype.val)
        (VV_pass f (SEW s.vtype.val) vd rs1 rs2) s.RBV s.vl.val with
    | none => rw [hs] at ht; exact absurd ht (by simp)
    | some p =>
      obtain ⟨R, inc⟩ := p
      rw [hs] at ht
      simp only [Option.some.injEq] at ht
      subst ht
      exact ⟨VV_loop_frame f _ vd rs1 rs2 s.RBV h _ R inc hs, rfl, rfl, rfl, rfl, rfl, rfl, rfl,
        rfl, rfl, rfl, rfl⟩
  · intro h0
    unfold VV_form
    rw [hvm, h0]
    rfl
  · intro hf hb0 hb1 hb2
    obtain ⟨R, hR⟩ := VV_loop_total f _ vd rs1 rs2 s.RBV h hf s.vl.val hb0 hb1 hb2
    refine ⟨{ s with RBV := R }, ?_⟩
    unfold VV_form
    rw [hvm]
    simp only [hS, hR]

/-- Witness for `elementwise_frame`, at VADD.VV `v3, v2, v1` with SEW 4 bytes and
`vl = 2`: the instruction returns a state whose integer registers are those of
the state before. -/
theorem elementwise_frame_witness :
    ∃ t, VADDVV 3 1 2 (state_two_vectors 5 0x10 2 [1, 2, 3, 4] [10, 20, 30, 40]) = some t ∧
      t.RB = (state_two_vectors 5 0x10 2 [1, 2, 3, 4] [10, 20, 30, 40]).RB := by
  have hw := elementwise_frame vlmax_128
    (fun sew a1 a2 => some (lane_int sew a1 + lane_int sew a2)) 3 1 2
    (state_two_vectors 5 0x10 2 [1, 2, 3, 4] [10, 20, 30, 40]) (by decide) (Or.inl rfl)
  obtain ⟨t, ht⟩ := hw.2.2 (fun a b => ⟨_, rfl⟩) (by decide) (by decide) (by decide)
  exact ⟨t, ht, (hw.1 t ht).2.1⟩

/-- The place of an element in the walk of the element loop: with SEW of 1, 2 or
4 bytes, `vl ≤ LMUL·16/SEW` and `r + LMUL ≤ 32`, when pass `el < vl` of the loop
(with `vlmax = 16/SEW`, whatever its body) starts, a pointer that started at
register `r` has been advanced `el / vlmax` times, it points at a register below
32, and lane `el mod vlmax` of that register is the `SEW` bytes at the flat byte
offset `r·16 + el·SEW`, which end inside the `32·16` bytes of the register
file. -/
theorem stripe_walk {α : Type} (body : Nat → Nat → Nat → α → Option α) (a x : α)
    (v vl r el inc : Nat) (h : SEW v = 1 ∨ SEW v = 2 ∨ SEW v = 4)
    (hvl : vl ≤ LMUL v * 16 / SEW v) (hr : r + LMUL v ≤ 32) (hel : el < vl)
    (hs : striping (16 / SEW v) body a el = some (x, inc)) :
    inc = el / (16 / SEW v) ∧ r + inc < 32 ∧ el % (16 / SEW v) < 16 / SEW v ∧
      16 * (r + inc) + SEW v * (el % (16 / SEW v)) = r * 16 + el * SEW v ∧
      r * 16 + el * SEW v + SEW v ≤ 32 * 16 := by
  have hinc := striping_inc (SEW v) h body a el x inc hs
  have hoff := (stripe_offset (SEW v) h r el).2.1
  have hpos : 0 < SEW v := by rcases h with h | h | h <;> omega
  have hle : SEW v * vl ≤ LMUL v * 16 := by
    calc SEW v * vl ≤ SEW v * (LMUL v * 16 / SEW v) := Nat.mul_le_mul_left _ hvl
      _ ≤ LMUL v * 16 := Nat.mul_div_le _ _
  have hel2 : SEW v * el + SEW v ≤ SEW v * vl := by
    have := Nat.mul_le_mul_left (SEW v) (Nat.succ_le_of_lt hel)
    rw [Nat.mul_succ] at this
    exact this
  subst hinc
  generalize LMUL v = L at hr hle
  generalize SEW v = S at h hoff hpos hle hel2 ⊢
  rcases h with rfl | rfl | rfl <;> norm_num at hoff hle hel2 ⊢ <;> omega

/-- C38: for an element-wise behaviour (the loop `VV_form` with either
declaration of `vlmax` and a lane operation that has a result for all operands)
in a state with SEW of 1, 2 or 4 bytes and `vl ≤ LMUL·16/SEW`, and operand
register indices with `r + LMUL ≤ 32`: the behaviour returns a state, that is,
no access of its walk leaves the register file; and when pass `el < vl` of its
loop starts, each of the three pointers has been advanced `el / (16/SEW)` times
and points at a register below 32, and the element it accesses, lane
`el mod (16/SEW)` of that register, is the `SEW` bytes at the flat byte offset
`r·16 + el·SEW`, which end inside the `32·16` bytes of the vector register
file. -/
theorem striping_walk_in_bounds (vlmax : Nat → Option Nat) (f : Nat → Nat → Nat → Option Int)
    (vd rs1 rs2 : Nat) (s : State)
    (h : SEW s.vtype.val = 1 ∨ SEW s.vtype.val = 2 ∨ SEW s.vtype.val = 4)
    (hv : vlmax = vlmax_128 ∨ vlmax = vlmax_16)
    (hf : ∀ a b, ∃ z, f (SEW s.vtype.val) a b = some z)
    (hvl : s.vl.val ≤ LMUL s.vtype.val * 16 / SEW s.vtype.val)
    (h0 : vd + LMUL s.vtype.val ≤ 32) (h1 : rs1 + LMUL s.vtype.val ≤ 32)
    (h2 : rs2 + LMUL s.vtype.val ≤ 32) :
    (∃ t, VV_form vlmax f vd rs1 rs2 s = some t) ∧
      ∀ el, el < s.vl.val → ∀ R inc,
        striping (16 / SEW s.vtype.val) (VV_pass f (SEW s.vtype.val) vd rs1 rs2) s.RBV el
          = some (R, inc) →
        inc = el / (16 / SEW s.vtype.val) ∧
          ∀ r, r = vd ∨ r = rs1 ∨ r = rs2 →
            r + inc < 32 ∧ el % (16 / SEW s.vtype.val) < 16 / SEW s.vtype.val ∧
              16 * (r + inc) + SEW s.vtype.val * (el % (16 / SEW s.vtype.val))
                = r * 16 + el * SEW s.vtype.val ∧
              r * 16 + el * SEW s.vtype.val + SEW s.vtype.val ≤ 32 * 16 := by
  have hS : 1 <<< (s.vtype.val >>> 3) = SEW s.vtype.val := rfl
  have hvm : vlmax (s.vtype.val >>> 3) = some (16 / SEW s.vtype.val) := by
    rcases hv with rfl | rfl
    · exact (SEW_vlmax _ h).1
    · exact (SEW_vlmax _ h).2
  have hle : SEW s.vtype.val * s.vl.val ≤ LMUL s.vtype.val * 16 := by
    calc SEW s.vtype.val * s.vl.val
        ≤ SEW s.vtype.val * (LMUL s.vtype.val * 16 / SEW s.vtype.val) :=
          Nat.mul_le_mul_left _ hvl
      _ ≤ LMUL s.vtype.val * 16 := Nat.mul_div_le _ _
  constructor
  · obtain ⟨R, hR⟩ := VV_loop_total f _ vd rs1 rs2 s.RBV h hf s.vl.val
      (by omega) (by omega) (by omega)
    refine ⟨{ s with RBV := R }, ?_⟩
    unfold VV_form
    rw [hvm]
    simp only [hS, hR]
  · intro el hel R inc hs
    refine ⟨(stripe_walk _ s.RBV R s.vtype.val s.vl.val vd el inc h hvl h0 hel hs).1, ?_⟩
    intro r hr
    rcases hr with rfl | rfl | rfl
    · exact (stripe_walk _ s.RBV R s.vtype.val s.vl.val _ el inc h hvl h0 hel hs).2
    · exact (stripe_walk _ s.RBV R s.vtype.val s.vl.val _ el inc h hvl h1 hel hs).2
    · exact (stripe_walk _ s.RBV R s.vtype.val s.vl.val _ el inc h hvl h2 hel hs).2

/-- Witness for `striping_walk_in_bounds`: SEW 4 bytes and LMUL 2
(`vtype = 0x11`), `vl = 8`, VADD.VV `v30, v2, v0`: the groups end at the last
register and the instruction returns a state. -/
theorem striping_walk_in_bounds_witness :
    ∃ t, VADDVV 30 0 2 (state_vec 0 0 0 0x11 8 (fun i => i)) = some t :=
  (striping_walk_in_bounds vlmax_128 (fun sew a1 a2 => some (lane_int sew a1 + lane_int sew a2))
    30 0 2 (state_vec 0 0 0 0x11 8 (fun i => i)) (by decide) (Or.inl rfl)
    (fun a b => ⟨_, rfl⟩) (by decide) (by decide) (by decide) (by decide)).1

/-- C39: for an element width of 1, 2 or 4 bytes, groups of `vl` elements at
`vt`, `va`, `vb` inside the register file and the group at `vt` overlapping
neither the group at `va` nor the group at `vb`: VADD.VV `vt, va, vb` and then
VSUB.VV `vt, vt, vb` both return a state, and afterwards the first `vl` elements
of `vt` are the first `vl` elements `va` had before. -/
theorem VSUB_undoes_VADD (s : State) (vt va vb : Fin 32)
    (h : SEW s.vtype.val = 1 ∨ SEW s.vtype.val = 2 ∨ SEW s.vtype.val = 4)
    (hbt : 16 * vt.val + SEW s.vtype.val * s.vl.val ≤ 512)
    (hba : 16 * va.val + SEW s.vtype.val * s.vl.val ≤ 512)
    (hbb : 16 * vb.val + SEW s.vtype.val * s.vl.val ≤ 512)
    (hta : 16 * va.val + SEW s.vtype.val * s.vl.val ≤ 16 * vt.val
      ∨ 16 * vt.val + SEW s.vtype.val * s.vl.val ≤ 16 * va.val)
    (htb : 16 * vb.val + SEW s.vtype.val * s.vl.val ≤ 16 * vt.val
      ∨ 16 * vt.val + SEW s.vtype.val * s.vl.val ≤ 16 * vb.val) :
    ∃ t u, VADDVV vt vb va s = some t ∧ VSUBVV vt vb vt t = some u ∧
      ∀ i, i < s.vl.val → vgroup_elem u.RBV (SEW s.vtype.val) vt.val i
        = vgroup_elem s.RBV (SEW s.vtype.val) va.val i := by
  have hv := SEW_vlmax s.vtype.val h
  have hpos : 0 < SEW s.vtype.val := by rcases h with h | h | h <;> omega
  obtain ⟨t, ht, hts, hl1, hf1⟩ := VV_form_lanes vlmax_128
    (fun sew a1 a2 => some (lane_int sew a1 + lane_int sew a2))
    (fun a b => lane_int (SEW s.vtype.val) a + lane_int (SEW s.vtype.val) b)
    (fun a b => (a + b) % 256 ^ SEW s.vtype.val) vt.val vb.val va.val s h hv.1
    (fun _ _ => rfl) (fun a b _ _ => lane_add _ a b h) hbt hbb hba (by omega) (by omega)
  have htv : t.vtype = s.vtype := by rw [hts]
  have htl : t.vl = s.vl := by rw [hts]
  have h' : SEW t.vtype.val = 1 ∨ SEW t.vtype.val = 2 ∨ SEW t.vtype.val = 4 := by rw [htv]; exact h
  obtain ⟨u, hu, _, hl2, _⟩ := VV_form_lanes vlmax_128
    (fun sew a1 a2 => some (lane_int sew a2 - lane_int sew a1))
    (fun a b => lane_int (SEW t.vtype.val) b - lane_int (SEW t.vtype.val) a)
    (fun a b => (((b : Int) - (a : Int)) % 256 ^ SEW t.vtype.val).toNat) vt.val vb.val vt.val t h'
    (by rw [htv]; exact hv.1)
    (fun _ _ => rfl) (fun a b _ _ => lane_sub _ b a h')
    (by rw [htv, htl]; exact hbt) (by rw [htv, htl]; exact hbb) (by rw [htv, htl]; exact hbt)
    (by rw [htv, htl]; omega) (Or.inl (le_refl _))
  refine ⟨t, u, ht, hu, ?_⟩
  intro i hi
  have hle : SEW s.vtype.val * i + SEW s.vtype.val ≤ SEW s.vtype.val * s.vl.val := by
    have := Nat.mul_le_mul_left (SEW s.vtype.val) (Nat.succ_le_of_lt hi)
    rw [Nat.mul_succ] at this
    exact this
  have h2 := hl2 i (by rw [htl]; exact hi)
  rw [htv] at h2
  have hb : vgroup_elem t.RBV (SEW s.vtype.val) vb.val i
      = vgroup_elem s.RBV (SEW s.vtype.val) vb.val i := by
    unfold vgroup_elem
    apply velem_congr
    intro k hk1 hk2
    exact hf1 k (by omega)
  rw [h2, hb, hl1 i hi]
  have ha := velem_lt s.RBV (SEW s.vtype.val) (16 * va.val + SEW s.vtype.val * i)
  have hbl := velem_lt s.RBV (SEW s.vtype.val) (16 * vb.val + SEW s.vtype.val * i)
  unfold vgroup_elem
  generalize velem s.RBV (SEW s.vtype.val) (16 * va.val + SEW s.vtype.val * i) = x at ha ⊢
  generalize velem s.RBV (SEW s.vtype.val) (16 * vb.val + SEW s.vtype.val * i) = y at hbl ⊢
  have hM : 0 < 256 ^ SEW s.vtype.val := by positivity
  have hMz : ((256 : Int) ^ SEW s.vtype.val) = ((256 ^ SEW s.vtype.val : Nat) : Int) := by
    push_cast
    rfl
  rw [hMz]
  generalize 256 ^ SEW s.vtype.val = M at ha hbl hM ⊢
  have e : (((((y + x) % M : Nat) : Int) - (y : Int)) % ((M : Nat) : Int)) = (x : Int) := by
    have h1 : (((y + x) % M : Nat) : Int) = ((y : Int) + (x : Int)) % (M : Int) := by push_cast; rfl
    rw [h1, Int.sub_emod, Int.emod_emod_of_dvd _ (dvd_refl _), ← Int.sub_emod]
    have h3 : (y : Int) + (x : Int) - (y : Int) = (x : Int) := by ring
    rw [h3]
    exact Int.emod_eq_of_lt (by omega) (by exact_mod_cast ha)
  rw [e]
  rfl

/-- Witness for `VSUB_undoes_VADD`: SEW 4 bytes, `vl = 4`, `va = v2` holding
`[10, 20, 30, 40]`, `vb = v1` holding `[1, 2, 3, 4]` and `vt = v3`. -/
theorem VSUB_undoes_VADD_witness :
    (∃ t u, VADDVV 3 1 2 (state_two_vectors 0 0x10 4 [1, 2, 3, 4] [10, 20, 30, 40]) = some t ∧
        VSUBVV 3 1 3 t = some u ∧
        ∀ i, i < (state_two_vectors 0 0x10 4 [1, 2, 3, 4] [10, 20, 30, 40]).vl.val →
          vgroup_elem u.RBV
              (SEW (state_two_vectors 0 0x10 4 [1, 2, 3, 4] [10, 20, 30, 40]).vtype.val)
              (3 : Fin 32).val i
            = vgroup_elem (state_two_vectors 0 0x10 4 [1, 2, 3, 4] [10, 20, 30, 40]).RBV
                (SEW (state_two_vectors 0 0x10 4 [1, 2, 3, 4] [10, 20, 30, 40]).vtype.val)
                (2 : Fin 32).val i) ∧
      ((VADDVV 3 1 2 (state_two_vectors 0 0x10 4 [1, 2, 3, 4] [10, 20, 30, 40])).bind
        (VSUBVV 3 1 3)).map (fun u => group_elems u.RBV 4 3 4) = some [10, 20, 30, 40] :=
  ⟨VSUB_undoes_VADD (state_two_vectors 0 0x10 4 [1, 2, 3, 4] [10, 20, 30, 40]) 3 2 1
      (by decide) (by decide) (by decide) (by decide) (by decide) (by decide),
    by decide!⟩

/-! ## The offsets of branches and JAL -/

/-- C40: for all values of the fields of the SB format (`b4`, `b3` one bit,
`b2` six bits, `b1` four bits) and of the UJ format (`j4`, `j2` one bit, `j3`
eight bits, `j1` ten bits), the offset the branch behaviours build by hand, read
as an `int`, is the 13-bit value `imm << 1` sign-extended, the offset JAL builds
is the 21-bit value `imm << 1` sign-extended, and both are even. -/
theorem offset_reconstruction_is_sign_extension (b4 b3 b2 b1 j4 j3 j2 j1 : Nat)
    (hb4 : b4 < 2) (hb3 : b3 < 2) (hb2 : b2 < 64) (hb1 : b1 < 16)
    (hj4 : j4 < 2) (hj3 : j3 < 256) (hj2 : j2 < 2) (hj1 : j1 < 1024) :
    to_int ((SB_offset b4 b3 b2 b1 : Nat) : Int) = SB_imm b4 b3 b2 b1 ∧
      SB_offset b4 b3 b2 b1 % 2 = 0 ∧
      to_int ((JAL_offset j4 j3 j2 j1 : Nat) : Int) = UJ_imm j4 j3 j2 j1 ∧
      JAL_offset j4 j3 j2 j1 % 2 = 0 := by
  have eb := SB_offset_eq b4 b3 b2 b1 hb4 hb3 hb2 hb1
  have ej := JAL_offset_eq j4 j3 j2 j1 hj4 hj3 hj2 hj1
  have hbl : SB_offset b4 b3 b2 b1 < 2 ^ 32 := by
    rw [eb]
    split <;> omega
  have hjl : JAL_offset j4 j3 j2 j1 < 2 ^ 32 := by
    rw [ej]
    split <;> omega
  have hbv := to_ac_word_natCast_val _ hbl
  have hjv := to_ac_word_natCast_val _ hjl
  refine ⟨?_, ?_, ?_, ?_⟩
  · unfold to_int ac_Sword SB_imm sign_extend
    rw [hbv, eb]
    by_cases h : b4 = 1
    · subst h
      simp only [if_true]
      push_cast
      split <;> split <;> omega
    · have h0 : b4 = 0 := by omega
      subst h0
      simp only [h, if_false]
      push_cast
      split <;> split <;> omega
  · rw [eb]
    split <;> omega
  · unfold to_int ac_Sword UJ_imm sign_extend
    rw [hjv, ej]
    by_cases h : j4 = 1
    · subst h
      simp only [if_true]
      push_cast
      split <;> split <;> omega
    · have h0 : j4 = 0 := by omega
      subst h0
      simp only [h, if_false]
      push_cast
      split <;> split <;> omega
  · rw [ej]
    split <;> omega

/-- Witness for `offset_reconstruction_is_sign_extension`: the branch offset −8
(fields 1, 1, 63, 12) and the JAL offset −8 (fields 1, 255, 1, 1020). -/
theorem offset_reconstruction_is_sign_extension_witness :
    to_int ((SB_offset 1 1 63 12 : Nat) : Int) = -8 ∧
      to_int ((JAL_offset 1 255 1 1020 : Nat) : Int) = -8 := by
  have hw := offset_reconstruction_is_sign_extension 1 1 63 12 1 255 1 1020
    (by decide) (by decide) (by decide) (by decide) (by decide) (by decide) (by decide)
    (by decide)
  refine ⟨hw.1.trans ?_, hw.2.2.1.trans ?_⟩
  · decide
  · decide

/-! ## Register `x[0]` after a full step -/

/-- The full step of `AMOSWAP.W x3, x0, (x1)` with the word 5 in memory at the
address in `x1`: the body assigns `RB[rs2]`, here register 0, and leaves the
loaded word 5 in `x[0]` (and 0 in `x[3]`). -/
theorem AMOSWAP_W_assigns_rs2 :
    ((AMOSWAP_W 3 1 0 (instruction (state_mem 0x100 0 0 0x100 5))).RB 0).val = 5 ∧
      ((AMOSWAP_W 3 1 0 (instruction (state_mem 0x100 0 0 0x100 5))).RB 3).val = 0 := by
  decide!

end RiscvIsa
